import Mathlib

/-!
# Sun interpreter: lexer, parser and tree-walking evaluator

A shallow embedding of `src/lexer.h`, `src/parser.h` and `src/vm.h`.

Modelling conventions.

* A C string is the list of its characters before the terminating NUL
  (`CStr`).  Characters are bytes; the character classes are those of the
  "C" locale.
* `int` is a 32-bit two's-complement integer; arithmetic results are
  wrapped with `wrap32` (signed overflow, which C leaves undefined, is
  modelled as wrap-around).  The one exception is the division
  `INT_MIN / -1`: the quotient does not fit `int`, and the compiled code
  raises SIGFPE there and the process is killed.  The ghost flag `trap` of
  the evaluator state records it: a state with `trap` set is the state in
  which the process died, and what the functions compute from such a state
  describes no execution.
* The process-wide globals `g_error`, `g_vars`/`g_varc`, `stdout` and
  `stdin` are explicit fields of the state records threaded through the
  functions.
* A `Node*` is a `Node`; `NULL` is `Node.null`.  The parser only ever
  overwrites a child link of a node it has just built, so the heap of
  nodes is a tree and in-place updates are functional updates.
* Loops whose trip count is bounded by the input carry a fuel argument;
  the entry points pass a bound that always suffices.
-/

namespace Sun

/-! ## Configuration (`lexer.h` 10-13) -/

def MAX_TOKEN_LENGTH : Nat := 128
def MAX_TOKENS : Nat := 2048
def MAX_VARS : Nat := 512

/-- Contents of a NUL-terminated C string. -/
abbrev CStr := List Char

/-- The NUL character that ends every C string. -/
def NUL : Char := Char.ofNat 0

/-- The effect of `strncpy(dst, src, n)` into a buffer whose byte `n` is NUL:
at most the first `n` characters are kept. -/
def strncpy (src : CStr) (n : Nat) : CStr := src.take n

/-- C `strcmp`: negative, zero or positive as `a` is before, equal to or
after `b` in byte-wise lexicographic order. -/
def strcmp : CStr → CStr → Int
  | [], [] => 0
  | [], _ :: _ => -1
  | _ :: _, [] => 1
  | a :: as, b :: bs =>
    if a.toNat < b.toNat then -1
    else if b.toNat < a.toNat then 1
    else strcmp as bs

def isdigit (c : Char) : Bool := 48 ≤ c.toNat && c.toNat ≤ 57

def isalpha (c : Char) : Bool :=
  (65 ≤ c.toNat && c.toNat ≤ 90) || (97 ≤ c.toNat && c.toNat ≤ 122)

def isalnum (c : Char) : Bool := isalpha c || isdigit c

def isspace (c : Char) : Bool := c.toNat = 32 || (9 ≤ c.toNat && c.toNat ≤ 13)

/-- Wrap an integer into the range of a 32-bit `int`. -/
def wrap32 (x : Int) : Int := (x + 2147483648) % 4294967296 - 2147483648

/-- Text produced by `printf("%d", x)`. -/
def fmt_d (x : Int) : CStr :=
  if x < 0 then '-' :: Nat.toDigits 10 x.natAbs else Nat.toDigits 10 x.toNat

/-! ## Diagnostics (`lexer.h` 16-37) -/

inductive ErrKind where
  | ERR_NONE | ERR_LEX | ERR_PARSE | ERR_RUNTIME
deriving DecidableEq, Repr

structure Error where
  kind : ErrKind
  line : Nat
  col : Nat
  msg : CStr
deriving DecidableEq, Repr

/-- The static initialiser of `g_error`. -/
def g_error_init : Error := { kind := .ERR_NONE, line := 0, col := 0, msg := [] }

/-- `set_error`: keeps the first error; `msg` is the already formatted text,
cut to the 1023 characters that fit `g_error.msg`. -/
def set_error (g : Error) (kind : ErrKind) (line col : Nat) (msg : CStr) : Error :=
  if g.kind ≠ .ERR_NONE then g
  else { kind := kind, line := line, col := col, msg := msg.take 1023 }

/-- `clear_error`: resets kind and message, leaves line and column. -/
def clear_error (g : Error) : Error := { g with kind := .ERR_NONE, msg := [] }

/-! ## Tokens (`lexer.h` 45-78) -/

inductive TokenType where
  | T_EOF | T_UNKNOWN | T_NUMBER | T_STRING | T_IDENTIFIER
  | T_PLUS | T_MINUS | T_STAR | T_SLASH
  | T_ASSIGN
  | T_EQ | T_NE
  | T_LT | T_LE | T_GT | T_GE
  | T_LPAREN | T_RPAREN
  | T_LBRACE | T_RBRACE
  | T_SEMI | T_COMMA
  | T_AND | T_OR | T_NOT
  | T_KW_IF | T_KW_ELSE | T_KW_WHILE | T_KW_PRINT | T_KW_INPUT
deriving DecidableEq, Repr

structure Token where
  type : TokenType
  lexeme : CStr
  line : Nat
  col : Nat
deriving DecidableEq, Repr

/-! ## Lexer (`lexer.h` 81-235) -/

/-- The `Lexer` record together with the globals it writes: `out` is
`out->data[0 .. out->count)` and `err` is `g_error`. -/
structure Lexer where
  src : CStr
  i : Nat
  line : Nat
  col : Nat
  out : List Token
  err : Error
deriving DecidableEq, Repr

/-- `L->src[k]`; the byte after the last character is the terminating NUL. -/
def src_at (L : Lexer) (k : Nat) : Char := L.src.getD k NUL

def lex_peek (L : Lexer) : Char := src_at L L.i

def lex_peek2 (L : Lexer) : Char := src_at L (L.i + 1)

def lex_advance (L : Lexer) : Char × Lexer :=
  let c := src_at L L.i
  if c = '\n' then (c, { L with i := L.i + 1, line := L.line + 1, col := 1 })
  else (c, { L with i := L.i + 1, col := L.col + 1 })

def emit (L : Lexer) (t : TokenType) (lex : CStr) (line col : Nat) : Lexer :=
  if L.out.length ≥ MAX_TOKENS then
    { L with err := set_error L.err .ERR_LEX line col "token buffer overflow".toList }
  else
    let tk : Token :=
      { type := t, lexeme := strncpy lex (MAX_TOKEN_LENGTH - 1), line := line, col := col }
    { L with out := L.out ++ [tk] }

def is_ident_start (c : Char) : Bool := isalpha c || c = '_'

def is_ident_part (c : Char) : Bool := isalnum c || c = '_'

/-- `match` of `lexer.h` 112-115. -/
def lex_match (L : Lexer) (expected : Char) : Bool × Lexer :=
  if lex_peek L = expected then (true, (lex_advance L).2) else (false, L)

/-- The digit loop of `lex_all` (131-133); `buf` is `buf[0 .. j)`. -/
def lex_digits : Nat → Lexer → CStr → Lexer × CStr
  | 0, L, buf => (L, buf)
  | fuel + 1, L, buf =>
    if isdigit (lex_peek L) then
      let a := lex_advance L
      if buf.length < MAX_TOKEN_LENGTH - 1 then lex_digits fuel a.2 (buf ++ [a.1])
      else lex_digits fuel a.2 buf
    else (L, buf)

/-- The identifier loop of `lex_all` (143-145). -/
def lex_ident : Nat → Lexer → CStr → Lexer × CStr
  | 0, L, buf => (L, buf)
  | fuel + 1, L, buf =>
    if is_ident_part (lex_peek L) then
      let a := lex_advance L
      if buf.length < MAX_TOKEN_LENGTH - 1 then lex_ident fuel a.2 (buf ++ [a.1])
      else lex_ident fuel a.2 buf
    else (L, buf)

/-- Keyword recognition of `lex_all` (147-152). -/
def keyword_type (buf : CStr) : TokenType :=
  if buf = "if".toList then .T_KW_IF
  else if buf = "else".toList then .T_KW_ELSE
  else if buf = "loop".toList then .T_KW_WHILE
  else if buf = "output".toList then .T_KW_PRINT
  else if buf = "input".toList then .T_KW_INPUT
  else .T_IDENTIFIER

/-- The string-body loop of `lex_all` (163-175), entered after the opening
quote has been consumed; the Boolean is `escaped`. -/
def lex_string_body : Nat → Lexer → CStr → Bool → Lexer × CStr
  | 0, L, buf, _ => (L, buf)
  | fuel + 1, L, buf, escaped =>
    if lex_peek L = NUL then (L, buf)
    else
      let a := lex_advance L
      let ch := a.1
      if !escaped && ch = '"' then (a.2, buf)
      else if !escaped && ch = '\\' then lex_string_body fuel a.2 buf true
      else
        let ch1 :=
          if escaped then
            (if ch = 'n' then '\n' else if ch = 't' then '\t' else if ch = 'r' then '\r' else ch)
          else ch
        let buf1 := if buf.length < 511 then buf ++ [ch1] else buf
        lex_string_body fuel a.2 buf1 false

/-- The operator `switch` of `lex_all` (187-231), run on a character that is
neither blank, digit, identifier start nor quote. -/
def lex_operator (L : Lexer) (c : Char) (line col : Nat) : Lexer :=
  let L1 := (lex_advance L).2
  if c = '+' then emit L1 .T_PLUS "+".toList line col
  else if c = '-' then emit L1 .T_MINUS "-".toList line col
  else if c = '*' then emit L1 .T_STAR "*".toList line col
  else if c = '/' then emit L1 .T_SLASH "/".toList line col
  else if c = '!' then
    let m := lex_match L1 '='
    if m.1 then emit m.2 .T_NE "!=".toList line col else emit m.2 .T_NOT "!".toList line col
  else if c = '=' then
    let m := lex_match L1 '='
    if m.1 then emit m.2 .T_EQ "==".toList line col else emit m.2 .T_ASSIGN "=".toList line col
  else if c = '<' then
    let m := lex_match L1 '='
    if m.1 then emit m.2 .T_LE "<=".toList line col else emit m.2 .T_LT "<".toList line col
  else if c = '>' then
    let m := lex_match L1 '='
    if m.1 then emit m.2 .T_GE ">=".toList line col else emit m.2 .T_GT ">".toList line col
  else if c = '&' then
    let m := lex_match L1 '&'
    if m.1 then emit m.2 .T_AND "&&".toList line col
    else { m.2 with err := set_error m.2.err .ERR_LEX line col "expected '&' to '&&'".toList }
  else if c = '|' then
    let m := lex_match L1 '|'
    if m.1 then emit m.2 .T_OR "||".toList line col
    else { m.2 with err := set_error m.2.err .ERR_LEX line col "expected'|' to'||'".toList }
  else if c = '(' then emit L1 .T_LPAREN "(".toList line col
  else if c = ')' then emit L1 .T_RPAREN ")".toList line col
  else if c = '\x7b' then emit L1 .T_LBRACE "\x7b".toList line col
  else if c = '\x7d' then emit L1 .T_RBRACE "\x7d".toList line col
  else if c = ';' then emit L1 .T_SEMI ";".toList line col
  else if c = ',' then emit L1 .T_COMMA ",".toList line col
  else
    let msg := "unknown caracter'".toList ++ [c] ++ "'".toList
    { L with err := set_error L.err .ERR_LEX line col msg }

/-- The main `while (lex_peek(&L))` loop of `lex_all` (122-234), including
the final `emit` of the end-of-input token.  Every iteration consumes at
least one character, so `fuel` greater than the number of characters left
is never exhausted. -/
def lex_loop : Nat → Lexer → Lexer
  | 0, L => L
  | fuel + 1, L =>
    let c := lex_peek L
    if c = NUL then emit L .T_EOF [] L.line L.col
    else if isspace c then lex_loop fuel (lex_advance L).2
    else
      let line := L.line
      let col := L.col
      if isdigit c then
        let r := lex_digits L.src.length L []
        let L2 := emit r.1 .T_NUMBER r.2 line col
        if L2.err.kind ≠ .ERR_NONE then L2 else lex_loop fuel L2
      else if is_ident_start c then
        let r := lex_ident L.src.length L []
        let L2 := emit r.1 (keyword_type r.2) r.2 line col
        if L2.err.kind ≠ .ERR_NONE then L2 else lex_loop fuel L2
      else if c = '"' then
        let L0 := (lex_advance L).2
        let r := lex_string_body L.src.length L0 [] false
        if src_at r.1 (r.1.i - 1) ≠ '"' then
          { r.1 with err := set_error r.1.err .ERR_LEX line col "string no closure".toList }
        else
          let L2 := emit r.1 .T_STRING r.2 line col
          if L2.err.kind ≠ .ERR_NONE then L2 else lex_loop fuel L2
      else
        let L2 := lex_operator L c line col
        if L2.err.kind ≠ .ERR_NONE then L2 else lex_loop fuel L2

/-- `lex_all(src, out)`, started with `g_error = g`. -/
def lex_all (src : CStr) (g : Error) : Lexer :=
  lex_loop (src.length + 1)
    { src := src, i := 0, line := 1, col := 1, out := [], err := clear_error g }

/-! ## AST (`parser.h` 16-58) -/

inductive NodeType where
  | N_INT | N_STRING | N_VAR
  | N_UNARY
  | N_BINARY
  | N_ASSIGN
  | N_PRINT
  | N_INPUT
  | N_IF
  | N_WHILE
  | N_BLOCK
deriving DecidableEq, Repr

inductive OpType where
  | OP_PLUS | OP_MINUS | OP_MUL | OP_DIV
  | OP_EQ | OP_NE | OP_LT | OP_LE | OP_GT | OP_GE
  | OP_AND | OP_OR | OP_NOT
deriving DecidableEq, Repr

/-- A `Node*`: either `NULL` or a `struct Node` with its three child
links. -/
inductive Node where
  | null : Node
  | mk (type : NodeType) (op : OpType) (value : CStr)
      (left right extra : Node) (line col : Nat) : Node
deriving DecidableEq, Repr

/-- `node_new`: `calloc` zeroes the record, so `op` is the first enumerator,
`value` is empty and the links are `NULL`. -/
def node_new (t : NodeType) (line col : Nat) : Node :=
  .mk t .OP_PLUS [] .null .null .null line col

def Node.isNull : Node → Bool
  | .null => true
  | .mk _ _ _ _ _ _ _ _ => false

/-- The assignment `n->op = op`. -/
def Node.set_op : Node → OpType → Node
  | .null, _ => .null
  | .mk t _ v l r e ln cl, op => .mk t op v l r e ln cl

/-- The call `strncpy(n->value, s, sizeof(n->value)-1)` on a fresh node. -/
def Node.set_value : Node → CStr → Node
  | .null, _ => .null
  | .mk t op _ l r e ln cl, s => .mk t op (strncpy s 127) l r e ln cl

/-- The assignment `n->left = a`. -/
def Node.set_left : Node → Node → Node
  | .null, _ => .null
  | .mk t op v _ r e ln cl, a => .mk t op v a r e ln cl

/-- The assignment `n->right = a`. -/
def Node.set_right : Node → Node → Node
  | .null, _ => .null
  | .mk t op v l _ e ln cl, a => .mk t op v l a e ln cl

/-- The assignment `n->extra = a`. -/
def Node.set_extra : Node → Node → Node
  | .null, _ => .null
  | .mk t op v l r _ ln cl, a => .mk t op v l r a ln cl

/-- The list built by `if (!first) first=e; else prev->right=e; prev=e;`
over the nodes `e1, ..., en` in order: `first` is `e1`, and the `right`
link of each node but the last has been overwritten with its successor.
The last node keeps the `right` link it was built with. -/
def link_right : List Node → Node
  | [] => .null
  | [e] => e
  | e :: rest => e.set_right (link_right rest)

def make_unary (op : OpType) (a : Node) (line col : Nat) : Node :=
  ((node_new .N_UNARY line col).set_op op).set_left a

def make_binary (op : OpType) (a b : Node) (line col : Nat) : Node :=
  (((node_new .N_BINARY line col).set_op op).set_left a).set_right b

/-! ## Parser (`parser.h` 61-359) -/

/-- The `Parser` record with the global `g_error` it writes.  `toks` is
`toks[0 .. count)`; `oob` is a ghost flag, raised when the lookahead of
`parse_assignment_or_expr_stmt` reads an index that is not below `count`. -/
structure Parser where
  toks : List Token
  pos : Nat
  err : Error
  oob : Bool
deriving DecidableEq, Repr

def Parser.count (P : Parser) : Nat := P.toks.length

/-- A token slot outside `toks[0 .. count)`, read as zeroed memory. -/
def tok_zero : Token := { type := .T_EOF, lexeme := [], line := 0, col := 0 }

def tok_at (P : Parser) (k : Nat) : Token := P.toks.getD k tok_zero

def P_peek (P : Parser) : Token :=
  if P.pos < P.count then tok_at P P.pos else tok_at P (P.count - 1)

def P_prev (P : Parser) : Token :=
  if P.pos > 0 then tok_at P (P.pos - 1) else tok_at P 0

def P_advance (P : Parser) : Parser := { P with pos := P.pos + 1 }

def P_match (P : Parser) (t : TokenType) : Bool × Parser :=
  if (P_peek P).type = t then (true, P_advance P) else (false, P)

/-- `P_consume`: the token, or `none` for `NULL` with the error recorded. -/
def P_consume (P : Parser) (t : TokenType) (msg : CStr) : Option Token × Parser :=
  let tk := P_peek P
  if tk.type = t then (some tk, P_advance P)
  else
    let text := msg ++ " (i found '".toList ++ tk.lexeme ++ "')".toList
    (none, { P with err := set_error P.err .ERR_PARSE tk.line tk.col text })

/-- Result of a parse function: `none` only when the fuel of the model is
exhausted, otherwise the returned `Node*` and the parser state. -/
abbrev PRes := Option (Node × Parser)

mutual

def parse_primary : Nat → Parser → PRes
  | 0, _ => none
  | fuel + 1, P =>
    let tk := P_peek P
    if tk.type = .T_NUMBER then
      some ((node_new .N_INT tk.line tk.col).set_value tk.lexeme, P_advance P)
    else if tk.type = .T_STRING then
      some ((node_new .N_STRING tk.line tk.col).set_value tk.lexeme, P_advance P)
    else if tk.type = .T_IDENTIFIER then
      some ((node_new .N_VAR tk.line tk.col).set_value tk.lexeme, P_advance P)
    else
      let m := P_match P .T_LPAREN
      if m.1 then
        match parse_expression fuel m.2 with
        | none => none
        | some (e, P1) =>
          if e.isNull then some (.null, P1)
          else
            let c := P_consume P1 .T_RPAREN "expected ')'".toList
            if c.1.isNone then some (.null, c.2) else some (e, c.2)
      else
        let g := set_error m.2.err .ERR_PARSE tk.line tk.col "invalid primary expression".toList
        some (.null, { m.2 with err := g })

def parse_unary : Nat → Parser → PRes
  | 0, _ => none
  | fuel + 1, P =>
    let tk := P_peek P
    if tk.type = .T_NOT ∨ tk.type = .T_MINUS ∨ tk.type = .T_PLUS then
      match parse_unary fuel (P_advance P) with
      | none => none
      | some (rhs, P1) =>
        if rhs.isNull then some (.null, P1)
        else
          let op : OpType :=
            if tk.type = .T_NOT then .OP_NOT
            else if tk.type = .T_MINUS then .OP_MINUS else .OP_PLUS
          some (make_unary op rhs tk.line tk.col, P1)
    else parse_primary fuel P

/-- The `for (;;)` loop of `parse_mul`. -/
def parse_mul_loop : Nat → Node → Parser → PRes
  | 0, _, _ => none
  | fuel + 1, left, P =>
    let tk := P_peek P
    if tk.type = .T_STAR ∨ tk.type = .T_SLASH then
      match parse_unary fuel (P_advance P) with
      | none => none
      | some (right, P1) =>
        if right.isNull then some (.null, P1)
        else
          let op : OpType := if tk.type = .T_STAR then .OP_MUL else .OP_DIV
          parse_mul_loop fuel (make_binary op left right tk.line tk.col) P1
    else some (left, P)

def parse_mul : Nat → Parser → PRes
  | 0, _ => none
  | fuel + 1, P =>
    match parse_unary fuel P with
    | none => none
    | some (left, P1) =>
      if left.isNull then some (.null, P1) else parse_mul_loop fuel left P1

/-- The `for (;;)` loop of `parse_add`. -/
def parse_add_loop : Nat → Node → Parser → PRes
  | 0, _, _ => none
  | fuel + 1, left, P =>
    let tk := P_peek P
    if tk.type = .T_PLUS ∨ tk.type = .T_MINUS then
      match parse_mul fuel (P_advance P) with
      | none => none
      | some (right, P1) =>
        if right.isNull then some (.null, P1)
        else
          let op : OpType := if tk.type = .T_PLUS then .OP_PLUS else .OP_MINUS
          parse_add_loop fuel (make_binary op left right tk.line tk.col) P1
    else some (left, P)

def parse_add : Nat → Parser → PRes
  | 0, _ => none
  | fuel + 1, P =>
    match parse_mul fuel P with
    | none => none
    | some (left, P1) =>
      if left.isNull then some (.null, P1) else parse_add_loop fuel left P1

/-- The `for (;;)` loop of `parse_rel`. -/
def parse_rel_loop : Nat → Node → Parser → PRes
  | 0, _, _ => none
  | fuel + 1, left, P =>
    let tk := P_peek P
    let sel : Option OpType :=
      match tk.type with
      | .T_LT => some .OP_LT
      | .T_LE => some .OP_LE
      | .T_GT => some .OP_GT
      | .T_GE => some .OP_GE
      | _ => none
    match sel with
    | none => some (left, P)
    | some op =>
      match parse_add fuel (P_advance P) with
      | none => none
      | some (right, P1) =>
        if right.isNull then some (.null, P1)
        else parse_rel_loop fuel (make_binary op left right tk.line tk.col) P1

def parse_rel : Nat → Parser → PRes
  | 0, _ => none
  | fuel + 1, P =>
    match parse_add fuel P with
    | none => none
    | some (left, P1) =>
      if left.isNull then some (.null, P1) else parse_rel_loop fuel left P1

/-- The `for (;;)` loop of `parse_eq`. -/
def parse_eq_loop : Nat → Node → Parser → PRes
  | 0, _, _ => none
  | fuel + 1, left, P =>
    let tk := P_peek P
    if tk.type = .T_EQ ∨ tk.type = .T_NE then
      match parse_rel fuel (P_advance P) with
      | none => none
      | some (right, P1) =>
        if right.isNull then some (.null, P1)
        else
          let op : OpType := if tk.type = .T_EQ then .OP_EQ else .OP_NE
          parse_eq_loop fuel (make_binary op left right tk.line tk.col) P1
    else some (left, P)

def parse_eq : Nat → Parser → PRes
  | 0, _ => none
  | fuel + 1, P =>
    match parse_rel fuel P with
    | none => none
    | some (left, P1) =>
      if left.isNull then some (.null, P1) else parse_eq_loop fuel left P1

/-- The `for (;;)` loop of `parse_and`. -/
def parse_and_loop : Nat → Node → Parser → PRes
  | 0, _, _ => none
  | fuel + 1, left, P =>
    let tk := P_peek P
    if tk.type = .T_AND then
      match parse_eq fuel (P_advance P) with
      | none => none
      | some (right, P1) =>
        if right.isNull then some (.null, P1)
        else parse_and_loop fuel (make_binary .OP_AND left right tk.line tk.col) P1
    else some (left, P)

def parse_and : Nat → Parser → PRes
  | 0, _ => none
  | fuel + 1, P =>
    match parse_eq fuel P with
    | none => none
    | some (left, P1) =>
      if left.isNull then some (.null, P1) else parse_and_loop fuel left P1

/-- The `for (;;)` loop of `parse_or`. -/
def parse_or_loop : Nat → Node → Parser → PRes
  | 0, _, _ => none
  | fuel + 1, left, P =>
    let tk := P_peek P
    if tk.type = .T_OR then
      match parse_and fuel (P_advance P) with
      | none => none
      | some (right, P1) =>
        if right.isNull then some (.null, P1)
        else parse_or_loop fuel (make_binary .OP_OR left right tk.line tk.col) P1
    else some (left, P)

def parse_or : Nat → Parser → PRes
  | 0, _ => none
  | fuel + 1, P =>
    match parse_and fuel P with
    | none => none
    | some (left, P1) =>
      if left.isNull then some (.null, P1) else parse_or_loop fuel left P1

def parse_expression : Nat → Parser → PRes
  | 0, _ => none
  | fuel + 1, P => parse_or fuel P

end

/-- The lookahead test `P->toks[P->pos+1].type == T_ASSIGN`, evaluated only
when the current token is an identifier; records an out-of-range read in
the ghost flag. -/
def lookahead_assign (P : Parser) : Bool × Parser :=
  (decide ((tok_at P (P.pos + 1)).type = .T_ASSIGN),
   { P with oob := P.oob || decide (P.count ≤ P.pos + 1) })

def parse_assignment_or_expr_stmt (fuel : Nat) (P : Parser) : PRes :=
  let la : Bool × Parser :=
    if (P_peek P).type = .T_IDENTIFIER then lookahead_assign P else (false, P)
  if la.1 then
    let c1 := P_consume la.2 .T_IDENTIFIER "expected indentifier".toList
    match c1.1 with
    | none => some (.null, c1.2)
    | some id =>
      let c2 := P_consume c1.2 .T_ASSIGN "expected '='".toList
      match parse_expression fuel c2.2 with
      | none => none
      | some (expr, P3) =>
        if expr.isNull then some (.null, P3)
        else
          let n := ((node_new .N_ASSIGN id.line id.col).set_value id.lexeme).set_left expr
          let c3 := P_consume P3 .T_SEMI "expected';' after assignment".toList
          some (n, c3.2)
  else
    match parse_expression fuel la.2 with
    | none => none
    | some (e, P1) =>
      if e.isNull then some (.null, P1)
      else
        let c := P_consume P1 .T_SEMI "expected';' after expression".toList
        some (e, c.2)

/-- The `for (;;)` loop of `parse_print`; `acc` holds the arguments parsed
so far, in order.  The inner `none` is the `return NULL` of the loop. -/
def parse_print_args : Nat → List Node → Parser → Option (Option (List Node) × Parser)
  | 0, _, _ => none
  | fuel + 1, acc, P =>
    match parse_expression fuel P with
    | none => none
    | some (e, P1) =>
      if e.isNull then some (none, P1)
      else
        let m := P_match P1 .T_COMMA
        if m.1 then parse_print_args fuel (acc ++ [e]) m.2
        else some (some (acc ++ [e]), m.2)

def parse_print (fuel : Nat) (P : Parser) : PRes :=
  let c0 := P_consume P .T_KW_PRINT "expected 'output'".toList
  match c0.1 with
  | none => some (.null, c0.2)
  | some kw =>
    let c1 := P_consume c0.2 .T_LPAREN "expected'(' after 'output'".toList
    let args : Option (Option (List Node) × Parser) :=
      if (P_peek c1.2).type ≠ .T_RPAREN then parse_print_args fuel [] c1.2
      else some (some [], c1.2)
    match args with
    | none => none
    | some (none, P2) => some (.null, P2)
    | some (some es, P2) =>
      let c2 := P_consume P2 .T_RPAREN "expected')'".toList
      let c3 := P_consume c2.2 .T_SEMI "expected ';'  after 'output(...)'".toList
      some ((node_new .N_PRINT kw.line kw.col).set_extra (link_right es), c3.2)

def parse_input (P : Parser) : PRes :=
  let c0 := P_consume P .T_KW_INPUT "expected'input'".toList
  match c0.1 with
  | none => some (.null, c0.2)
  | some kw =>
    let c1 := P_consume c0.2 .T_LPAREN "expected '(' after 'input'".toList
    let c2 := P_consume c1.2 .T_IDENTIFIER "expected indentifier ininput(var)".toList
    match c2.1 with
    | none => some (.null, c2.2)
    | some id =>
      let c3 := P_consume c2.2 .T_RPAREN "expected ')'".toList
      let c4 := P_consume c3.2 .T_SEMI "expected after 'input(...)'".toList
      some ((node_new .N_INPUT kw.line kw.col).set_value id.lexeme, c4.2)

mutual

def parse_if : Nat → Parser → PRes
  | 0, _ => none
  | fuel + 1, P =>
    let c0 := P_consume P .T_KW_IF "expected 'if'".toList
    match c0.1 with
    | none => some (.null, c0.2)
    | some kw =>
      let c1 := P_consume c0.2 .T_LPAREN "expected after '(' após 'if'".toList
      match parse_expression fuel c1.2 with
      | none => none
      | some (cond, P2) =>
        if cond.isNull then some (.null, P2)
        else
          let c2 := P_consume P2 .T_RPAREN "expected ')'".toList
          match parse_block fuel c2.2 with
          | none => none
          | some (thenB, P3) =>
            if thenB.isNull then some (.null, P3)
            else
              let m := P_match P3 .T_KW_ELSE
              let n := ((node_new .N_IF kw.line kw.col).set_left cond).set_extra thenB
              if m.1 then
                match parse_block fuel m.2 with
                | none => none
                | some (elseB, P4) =>
                  if elseB.isNull then some (.null, P4)
                  else some (n.set_right elseB, P4)
              else some (n, m.2)

def parse_while : Nat → Parser → PRes
  | 0, _ => none
  | fuel + 1, P =>
    let c0 := P_consume P .T_KW_WHILE "expected 'loop'".toList
    match c0.1 with
    | none => some (.null, c0.2)
    | some kw =>
      let c1 := P_consume c0.2 .T_LPAREN "expected '(' after 'loop'".toList
      match parse_expression fuel c1.2 with
      | none => none
      | some (cond, P2) =>
        if cond.isNull then some (.null, P2)
        else
          let c2 := P_consume P2 .T_RPAREN "expected ')'".toList
          match parse_block fuel c2.2 with
          | none => none
          | some (body, P3) =>
            if body.isNull then some (.null, P3)
            else some (((node_new .N_WHILE kw.line kw.col).set_left cond).set_extra body, P3)

def parse_statement : Nat → Parser → PRes
  | 0, _ => none
  | fuel + 1, P =>
    match (P_peek P).type with
    | .T_KW_PRINT => parse_print fuel P
    | .T_KW_INPUT => parse_input P
    | .T_KW_IF => parse_if fuel P
    | .T_KW_WHILE => parse_while fuel P
    | .T_LBRACE => parse_block fuel P
    | _ => parse_assignment_or_expr_stmt fuel P

/-- The `while` loop of `parse_block`; `acc` holds the statements parsed so
far, in order.  The inner `none` is the `return NULL` of the loop. -/
def parse_block_loop : Nat → List Node → Parser → Option (Option (List Node) × Parser)
  | 0, _, _ => none
  | fuel + 1, acc, P =>
    if (P_peek P).type ≠ .T_RBRACE ∧ (P_peek P).type ≠ .T_EOF then
      match parse_statement fuel P with
      | none => none
      | some (s, P1) =>
        if s.isNull then some (none, P1) else parse_block_loop fuel (acc ++ [s]) P1
    else some (some acc, P)

def parse_block : Nat → Parser → PRes
  | 0, _ => none
  | fuel + 1, P =>
    let m := P_match P .T_LBRACE
    if m.1 then
      match parse_block_loop fuel [] m.2 with
      | none => none
      | some (none, P1) => some (.null, P1)
      | some (some ss, P1) =>
        let c := P_consume P1 .T_RBRACE "expected '\x7d' to close block".toList
        if c.1.isNone then some (.null, c.2)
        else
          some ((node_new .N_BLOCK (P_prev c.2).line (P_prev c.2).col).set_extra (link_right ss),
                c.2)
    else parse_statement fuel m.2

end

/-- A parser positioned at the start of a token vector, with `g_error = g`. -/
def parser_init (toks : List Token) (g : Error) : Parser :=
  { toks := toks, pos := 0, err := g, oob := false }

/-! ## Values and variables (`vm.h` 15-51) -/

inductive ValType where
  | V_INT | V_STRING
deriving DecidableEq, Repr

structure Value where
  type : ValType
  i : Int
  s : CStr
deriving DecidableEq, Repr

structure Var where
  name : CStr
  val : Value
deriving DecidableEq, Repr

/-- The evaluator's globals: `vars` is `g_vars[0 .. g_varc)`, `err` is
`g_error`, `out` is everything written to `stdout` so far and `inp` is what
is left to read on `stdin`.  `trap` is a ghost flag: the process has been
killed by the signal of an integer division whose quotient does not fit
`int`. -/
structure VM where
  vars : List Var
  err : Error
  out : CStr
  inp : CStr
  trap : Bool := false
deriving DecidableEq, Repr

/-- The state before a run: no variable, no error, nothing printed. -/
def vm_init (inp : CStr) : VM :=
  { vars := [], err := g_error_init, out := [], inp := inp }

/-- The search loop of `var_find` over `g_vars[i ..]`: the index of the first
entry whose name compares equal. -/
def var_find_from : List Var → Nat → CStr → Option Nat
  | [], _, _ => none
  | v :: rest, i, name =>
    if strcmp v.name name = 0 then some i else var_find_from rest (i + 1) name

/-- `var_find`: the index of the slot, `none` for `NULL`. -/
def var_find (vars : List Var) (name : CStr) : Option Nat := var_find_from vars 0 name

/-- `var_ensure`: the slot of `name`, created with value integer 0 when
absent; the stored name is cut to the 63 characters that fit `Var.name`. -/
def var_ensure (s : VM) (name : CStr) : Option Nat × VM :=
  match var_find s.vars name with
  | some k => (some k, s)
  | none =>
    if s.vars.length ≥ MAX_VARS then (none, s)
    else
      let v : Var := { name := strncpy name 63, val := { type := .V_INT, i := 0, s := [] } }
      (some s.vars.length, { s with vars := s.vars ++ [v] })

/-- The assignment `slot->val = v` for the slot of index `k`. -/
def var_store : List Var → Nat → Value → List Var
  | [], _, _ => []
  | x :: rest, 0, v => { x with val := v } :: rest
  | x :: rest, k + 1, v => x :: var_store rest k v

/-- The read `slot->val` for the slot of index `k`. -/
def var_load (vars : List Var) (k : Nat) : Value :=
  match vars.get? k with
  | some x => x.val
  | none => { type := .V_INT, i := 0, s := [] }

def truthy (v : Value) : Bool :=
  if v.type = .V_INT then v.i ≠ 0 else v.s ≠ []

/-- Text written by `print_value`. -/
def print_value (v : Value) : CStr :=
  if v.type = .V_INT then fmt_d v.i else v.s

def V_int (x : Int) : Value := { type := .V_INT, i := x, s := [] }

def V_str (s : CStr) : Value := { type := .V_STRING, i := 0, s := strncpy s 511 }

/-- The digit loop of C `atoi`. -/
def atoi_digits : CStr → Int → Int
  | [], acc => acc
  | c :: cs, acc => if isdigit c then atoi_digits cs (acc * 10 + (c.toNat - 48 : Nat)) else acc

/-- The value `strtol` returns when the digits have value `v` and the sign
is `-` (`neg`) or absent: a value outside the range of `long` is replaced by
`LONG_MIN` or `LONG_MAX`. -/
def strtol_clamp (neg : Bool) (v : Int) : Int :=
  if neg then (if v > 9223372036854775808 then -9223372036854775808 else -v)
  else (if v > 9223372036854775807 then 9223372036854775807 else v)

/-- C `atoi`, which the C library computes as `(int) strtol(s, NULL, 10)`:
blanks, an optional sign, then digits; the `long` is converted to `int` by
keeping its low 32 bits. -/
def atoi (s : CStr) : Int :=
  match s.dropWhile isspace with
  | '-' :: r => wrap32 (strtol_clamp true (atoi_digits r 0))
  | '+' :: r => wrap32 (strtol_clamp false (atoi_digits r 0))
  | r => wrap32 (strtol_clamp false (atoi_digits r 0))

/-- The characters `fgets` stores from the stream when the buffer has room
for `n` of them, and the rest of the stream. -/
def fgets_take : Nat → CStr → CStr × CStr
  | 0, inp => ([], inp)
  | _ + 1, [] => ([], [])
  | n + 1, c :: cs =>
    if c = '\n' then ([c], cs)
    else
      let r := fgets_take n cs
      (c :: r.1, r.2)

/-- `fgets(buf, 512, stdin)`: `none` for `NULL` at end of input. -/
def fgets (inp : CStr) : Option (CStr × CStr) :=
  match inp with
  | [] => none
  | _ :: _ => some (fgets_take 511 inp)

/-! ## Runtime helpers (`vm.h` 57-109) -/

/-- A runtime error at the position of node `(line, col)`. -/
def runtime_error (s : VM) (line col : Nat) (msg : CStr) : VM :=
  { s with err := set_error s.err .ERR_RUNTIME line col msg }

/-- `bin_num_num`.  The division `a.i / b.i` is guarded against `b.i == 0`
only: for `INT_MIN / -1` the quotient does not fit `int`, the division
instruction raises SIGFPE and the process is killed (flag `trap`; the value
returned with it is never used). -/
def bin_num_num (line col : Nat) (a b : Value) (op : OpType) (s : VM) : Value × VM :=
  if a.type ≠ .V_INT ∨ b.type ≠ .V_INT then
    (V_int 0, runtime_error s line col "operator aritimatic is not int".toList)
  else
    match op with
    | .OP_PLUS => (V_int (wrap32 (a.i + b.i)), s)
    | .OP_MINUS => (V_int (wrap32 (a.i - b.i)), s)
    | .OP_MUL => (V_int (wrap32 (a.i * b.i)), s)
    | .OP_DIV =>
      if b.i = 0 then (V_int 0, runtime_error s line col "division by zero".toList)
      else if a.i = -2147483648 ∧ b.i = -1 then (V_int 0, { s with trap := true })
      else (V_int (wrap32 (Int.tdiv a.i b.i)), s)
    | _ => (V_int 0, s)

/-- C truth value as an `int`. -/
def b2i (b : Bool) : Int := if b then 1 else 0

def cmp_any (line col : Nat) (a b : Value) (op : OpType) (s : VM) : Value × VM :=
  if a.type = .V_INT ∧ b.type = .V_INT then
    let r : Int :=
      match op with
      | .OP_EQ => b2i (a.i = b.i)
      | .OP_NE => b2i (a.i ≠ b.i)
      | .OP_LT => b2i (a.i < b.i)
      | .OP_LE => b2i (a.i ≤ b.i)
      | .OP_GT => b2i (a.i > b.i)
      | .OP_GE => b2i (a.i ≥ b.i)
      | _ => 0
    (V_int r, s)
  else if a.type = .V_STRING ∧ b.type = .V_STRING then
    let cmp := strcmp a.s b.s
    let r : Int :=
      match op with
      | .OP_EQ => b2i (cmp = 0)
      | .OP_NE => b2i (cmp ≠ 0)
      | .OP_LT => b2i (cmp < 0)
      | .OP_LE => b2i (cmp ≤ 0)
      | .OP_GT => b2i (cmp > 0)
      | .OP_GE => b2i (cmp ≥ 0)
      | _ => 0
    (V_int r, s)
  else (V_int 0, runtime_error s line col "incompatibles".toList)

/-- Text of an operand of `add_any`: `%s` of a string, `%d` of an integer. -/
def add_text (v : Value) : CStr :=
  if v.type = .V_STRING then v.s else fmt_d v.i

def add_any (a b : Value) : Value :=
  if a.type = .V_INT ∧ b.type = .V_INT then V_int (wrap32 (a.i + b.i))
  else
    let buf := (add_text a).take 1023
    let buf2 := buf ++ (add_text b).take (1023 - buf.length)
    V_str buf2

/-! ## Evaluator (`vm.h` 111-220) -/

/-- Outcome of the `while (guard-- > 0)` loop of `N_WHILE`: the state, the
final value of `guard`, whether the loop left through one of its
`return V_int(0)` statements, and (ghost) how many times the body ran. -/
structure WhileResult where
  st : VM
  guard : Int
  returned : Bool
  runs : Nat

/-- The loop `while (guard-- > 0) { ... }` of `N_WHILE`, entered with
`guard = g`; `cond` is `eval(n->left)` and `body` is `exec_block(n->extra)`. -/
def while_loop (cond : VM → Value × VM) (body : VM → VM) : Nat → VM → WhileResult
  | 0, s => { st := s, guard := -1, returned := false, runs := 0 }
  | g + 1, s =>
    let c := cond s
    if c.2.err.kind ≠ .ERR_NONE then { st := c.2, guard := g, returned := true, runs := 0 }
    else if !truthy c.1 then { st := c.2, guard := g, returned := false, runs := 0 }
    else
      let s2 := body c.2
      if s2.err.kind ≠ .ERR_NONE then { st := s2, guard := g, returned := true, runs := 1 }
      else
        let r := while_loop cond body g s2
        { r with runs := r.runs + 1 }

/-- The four routines that walk a node, as state transformers:
`eval` is `eval(n)`; `chain` is the loop of `exec_block` started with
`cur = n`; `block` is `exec_block(n)`; `args` is the loop of `N_PRINT`
started with `a = n`, its flag being `first`. -/
structure Evs where
  eval : VM → Value × VM
  chain : VM → VM
  block : VM → VM
  args : Bool → VM → VM

/-- The body of `eval` for a non-null node with fields `t`, `op`, `v`,
`line`, `col`, given the routines of its `left`, `right` and `extra`
children. -/
def eval_node (t : NodeType) (op : OpType) (v : CStr) (line col : Nat)
    (L R E : Evs) (s : VM) : Value × VM :=
  if s.err.kind ≠ .ERR_NONE then (V_int 0, s)
  else
    match t with
    | .N_INT => (V_int (atoi v), s)
    | .N_STRING => (V_str v, s)
    | .N_VAR =>
      match var_find s.vars v with
      | none =>
        (V_int 0, runtime_error s line col ("var '".toList ++ v ++ "' not defined".toList))
      | some k => (var_load s.vars k, s)
    | .N_UNARY =>
      let a := L.eval s
      if a.2.err.kind ≠ .ERR_NONE then (V_int 0, a.2)
      else
        match op with
        | .OP_NOT => (V_int (b2i (!truthy a.1)), a.2)
        | .OP_MINUS =>
          if a.1.type ≠ .V_INT then
            (V_int 0, runtime_error a.2 line col "- unary is not int".toList)
          else (V_int (wrap32 (-a.1.i)), a.2)
        | .OP_PLUS =>
          if a.1.type ≠ .V_INT then
            (V_int 0, runtime_error a.2 line col "+ unáry is not int".toList)
          else (V_int a.1.i, a.2)
        | _ => (V_int 0, a.2)
    | .N_BINARY =>
      if op = .OP_AND then
        let l := L.eval s
        if l.2.err.kind ≠ .ERR_NONE then (V_int 0, l.2)
        else if !truthy l.1 then (V_int 0, l.2)
        else
          let r := R.eval l.2
          if r.2.err.kind ≠ .ERR_NONE then (V_int 0, r.2)
          else (V_int (b2i (truthy r.1)), r.2)
      else if op = .OP_OR then
        let l := L.eval s
        if l.2.err.kind ≠ .ERR_NONE then (V_int 0, l.2)
        else if truthy l.1 then (V_int 1, l.2)
        else
          let r := R.eval l.2
          if r.2.err.kind ≠ .ERR_NONE then (V_int 0, r.2)
          else (V_int (b2i (truthy r.1)), r.2)
      else
        let l := L.eval s
        if l.2.err.kind ≠ .ERR_NONE then (V_int 0, l.2)
        else
          let r := R.eval l.2
          if r.2.err.kind ≠ .ERR_NONE then (V_int 0, r.2)
          else
            match op with
            | .OP_PLUS => (add_any l.1 r.1, r.2)
            | .OP_MINUS => bin_num_num line col l.1 r.1 op r.2
            | .OP_MUL => bin_num_num line col l.1 r.1 op r.2
            | .OP_DIV => bin_num_num line col l.1 r.1 op r.2
            | .OP_EQ => cmp_any line col l.1 r.1 op r.2
            | .OP_NE => cmp_any line col l.1 r.1 op r.2
            | .OP_LT => cmp_any line col l.1 r.1 op r.2
            | .OP_LE => cmp_any line col l.1 r.1 op r.2
            | .OP_GT => cmp_any line col l.1 r.1 op r.2
            | .OP_GE => cmp_any line col l.1 r.1 op r.2
            | _ => (V_int 0, r.2)
    | .N_ASSIGN =>
      let a := L.eval s
      if a.2.err.kind ≠ .ERR_NONE then (V_int 0, a.2)
      else
        let slot := var_ensure a.2 v
        match slot.1 with
        | none => (V_int 0, runtime_error slot.2 line col "var limit".toList)
        | some k => (a.1, { slot.2 with vars := var_store slot.2.vars k a.1 })
    | .N_PRINT =>
      let s1 := E.args true s
      if s1.err.kind = .ERR_NONE then (V_int 0, { s1 with out := s1.out ++ ['\n'] })
      else (V_int 0, s1)
    | .N_INPUT =>
      let slot := var_ensure s v
      match slot.1 with
      | none => (V_int 0, runtime_error slot.2 line col "var limit".toList)
      | some k =>
        let s1 : VM := { slot.2 with out := slot.2.out ++ "> ".toList }
        match fgets s1.inp with
        | none => (V_int 0, runtime_error s1 line col "error in len".toList)
        | some (buf, rest) =>
          let val := V_str (buf.takeWhile (fun c => c ≠ '\n'))
          (val, { s1 with inp := rest, vars := var_store s1.vars k val })
    | .N_IF =>
      let c := L.eval s
      if c.2.err.kind ≠ .ERR_NONE then (V_int 0, c.2)
      else if truthy c.1 then (V_int 0, E.block c.2)
      else (V_int 0, R.block c.2)
    | .N_WHILE =>
      let w := while_loop L.eval E.block 1000000 s
      if w.returned then (V_int 0, w.st)
      else if w.guard ≤ 0 then (V_int 0, runtime_error w.st line col "While error".toList)
      else (V_int 0, w.st)
    | .N_BLOCK => (V_int 0, E.chain s)

/-- The routines of a node, by recursion over the tree.  For `NULL`,
`eval` returns `V_int(0)` and the loops do nothing. -/
def evs : Node → Evs
  | .null =>
    { eval := fun s => (V_int 0, s), chain := fun s => s, block := fun s => s,
      args := fun _ s => s }
  | .mk t op v l r e line col =>
    let ev := eval_node t op v line col (evs l) (evs r) (evs e)
    let ch : VM → VM := fun s =>
      if s.err.kind ≠ .ERR_NONE then s else (evs r).chain (ev s).2
    { eval := ev
      chain := ch
      block := if t = .N_BLOCK then (evs e).chain else ch
      args := fun first s =>
        if s.err.kind ≠ .ERR_NONE then s
        else
          let a := ev s
          if a.2.err.kind ≠ .ERR_NONE then a.2
          else
            let sep : CStr := if first then [] else [' ']
            (evs r).args false { a.2 with out := a.2.out ++ sep ++ print_value a.1 } }

/-- `eval(n)`. -/
def eval (n : Node) (s : VM) : Value × VM := (evs n).eval s

/-- `exec_block(stmt)`. -/
def exec_block (stmt : Node) (s : VM) : VM := (evs stmt).block s

/-- The loop `while (cur && !g_error.kind) { eval(cur); cur = cur->right; }`
of `exec_block`, started at `cur`. -/
def exec_chain (cur : Node) (s : VM) : VM := (evs cur).chain s

/-- The loop over the arguments of `N_PRINT`, started at `a`. -/
def print_args (a : Node) (first : Bool) (s : VM) : VM := (evs a).args first s

/-! ## Specification-side notions -/

/-- Truth of `x op y` for the six comparison operators, read off a strict
order `lt` on the operands (stated from the specification, not from
`cmp_any`); `false` for any other operator. -/
def rel_holds {α : Type} [DecidableEq α] (lt : α → α → Prop) [DecidableRel lt]
    (op : OpType) (x y : α) : Bool :=
  match op with
  | .OP_EQ => decide (x = y)
  | .OP_NE => decide (x ≠ y)
  | .OP_LT => decide (lt x y)
  | .OP_LE => decide (lt x y ∨ x = y)
  | .OP_GT => decide (lt y x)
  | .OP_GE => decide (lt y x ∨ x = y)
  | _ => false

/-- The six comparison operators. -/
def is_comparison (op : OpType) : Bool :=
  match op with
  | .OP_EQ | .OP_NE | .OP_LT | .OP_LE | .OP_GT | .OP_GE => true
  | _ => false

/-- Byte-wise lexicographic order on strings: Mathlib's lexicographic order
of lists over the order of the byte values. -/
abbrev byte_lex (a b : CStr) : Prop := List.Lex (fun x y : Char => x.toNat < y.toNat) a b

/-- An integer-literal node as `parse_primary` builds it from a number token
with lexeme `digits` at `(line, col)`. -/
def int_lit (digits : CStr) (line col : Nat) : Node :=
  (node_new .N_INT line col).set_value digits

/-- A variable-reference node as `parse_primary` builds it from an
identifier token with lexeme `name` at `(line, col)`. -/
def var_ref (name : CStr) (line col : Nat) : Node :=
  (node_new .N_VAR line col).set_value name

/-- The condition `i < 999999` of the loop in
`i = 0; loop (i < 999999) { i = i + 1; }`, as parsed. -/
def count_cond : Node :=
  make_binary .OP_LT (var_ref "i".toList 1 14) (int_lit "999999".toList 1 18) 1 16

/-- The body `{ i = i + 1; }` of that loop, as parsed. -/
def count_body : Node :=
  (node_new .N_BLOCK 1 39).set_extra
    (((node_new .N_ASSIGN 1 28).set_value "i".toList).set_left
      (make_binary .OP_PLUS (var_ref "i".toList 1 32) (int_lit "1".toList 1 36) 1 34))

/-- The state in which the only variable is `i`, with integer value `j`,
nothing has been printed and no error is recorded. -/
def count_state (j : Nat) : VM :=
  { vars := [{ name := "i".toList, val := V_int j }], err := g_error_init, out := [], inp := [] }

/-- Text of an operand of `+` as the specification words it: a string
operand gives its own text, an integer operand its ordinary signed decimal
rendering (`toString` on `Int`). -/
def operand_text (v : Value) : CStr :=
  if v.type = .V_STRING then v.s else (toString v.i).toList

/-- Value of a string of decimal digits, most significant digit first
(Mathlib's `Nat.ofDigits` on the digit values, least significant first). -/
def dec_value (ds : CStr) : Nat :=
  Nat.ofDigits 10 ((ds.map (fun c => c.toNat - 48)).reverse)

/-- The character an escape `\c` stands for. -/
def unescape (c : Char) : Char :=
  if c = 'n' then '\n' else if c = 't' then '\t' else if c = 'r' then '\r' else c

/-- Decoding of the text between the quotes of a string literal, as the
specification words it: `\n`, `\t`, `\r` become newline, tab and carriage
return, a backslash followed by any other character gives that character,
and every other character is copied.  `none` when the text is not the
inside of a closed literal: it holds an unescaped quote or ends in the
middle of an escape. -/
def decode_lit : CStr → Option CStr
  | [] => some []
  | c :: rest =>
    if c = '"' then none
    else if c = '\\' then
      match rest with
      | [] => none
      | e :: rest2 => (decode_lit rest2).map (fun t => unescape e :: t)
    else (decode_lit rest).map (fun t => c :: t)

/-- Binding level of a binary operator token, from the precedence list of the
specification (1 = logical-or, the loosest, up to 6 = multiplicative, the
tightest); `none` for any other token. -/
def binary_level (t : TokenType) : Option Nat :=
  match t with
  | .T_OR => some 1
  | .T_AND => some 2
  | .T_EQ | .T_NE => some 3
  | .T_LT | .T_LE | .T_GT | .T_GE => some 4
  | .T_PLUS | .T_MINUS => some 5
  | .T_STAR | .T_SLASH => some 6
  | _ => none

/-- The operator a binary operator token denotes. -/
def binary_op (t : TokenType) : OpType :=
  match t with
  | .T_OR => .OP_OR
  | .T_AND => .OP_AND
  | .T_EQ => .OP_EQ
  | .T_NE => .OP_NE
  | .T_LT => .OP_LT
  | .T_LE => .OP_LE
  | .T_GT => .OP_GT
  | .T_GE => .OP_GE
  | .T_MINUS => .OP_MINUS
  | .T_STAR => .OP_MUL
  | .T_SLASH => .OP_DIV
  | _ => .OP_PLUS

/-- The operator a prefix operator token (`!`, `-`, `+`) denotes; `none` for
any other token. -/
def unary_op (t : TokenType) : Option OpType :=
  match t with
  | .T_NOT => some .OP_NOT
  | .T_MINUS => some .OP_MINUS
  | .T_PLUS => some .OP_PLUS
  | _ => none

/-- The unary node `parse_unary` builds for the prefix operator token `p`,
denoting `u`, over the operand node `x`. -/
def unary_of (u : OpType) (p : Token) (x : Node) : Node := make_unary u x p.line p.col

/-- An identifier token. -/
def ident_tok (name : CStr) (line col : Nat) : Token :=
  { type := .T_IDENTIFIER, lexeme := name, line := line, col := col }

/-- An operator, punctuation or end-of-input token. -/
def op_tok (t : TokenType) (lexeme : String) (line col : Nat) : Token :=
  { type := t, lexeme := lexeme.toList, line := line, col := col }

/-- The binary node `parse_*` builds for operator token `o` over the operand
nodes `l` and `r`. -/
def binary_of (o : Token) (l r : Node) : Node :=
  make_binary (binary_op o.type) l r o.line o.col

/-- The variable node `parse_primary` builds for identifier token `t`. -/
def var_of (t : Token) : Node := var_ref t.lexeme t.line t.col

/-- The arguments of one call of `set_error`, the message already
formatted. -/
structure ErrCall where
  kind : ErrKind
  line : Nat
  col : Nat
  msg : CStr
deriving DecidableEq, Repr

/-- A sequence of `set_error` calls made one after another on the record
`g`. -/
def set_errors : Error → List ErrCall → Error
  | g, [] => g
  | g, c :: cs => set_errors (set_error g c.kind c.line c.col c.msg) cs

/-- What the inner loops of the lexer preserve, from `L` to `L1`: the
source, the emitted tokens and the error record stay, and the cursor moves
forward without leaving the text. -/
structure Scan (L L1 : Lexer) : Prop where
  src : L1.src = L.src
  out : L1.out = L.out
  err : L1.err = L.err
  mono : L.i ≤ L1.i
  bound : L.i ≤ L.src.length → L1.i ≤ L.src.length

/-- No token of the list is the end-of-input token. -/
def NoEof (ts : List Token) : Prop := ∀ t ∈ ts, t.type ≠ .T_EOF

/-- Effect of one token-producing step of the main loop, from `L` to `L2`:
the source stays, no end-of-input token is stored, and unless an error
was recorded the cursor moved forward and stays within the text. -/
structure Step (L L2 : Lexer) : Prop where
  src : L2.src = L.src
  noeof : NoEof L2.out
  adv : L2.err.kind = .ERR_NONE → L.i < L2.i ∧ L2.i ≤ L.src.length

/-- The shape of the token vector after `lex_all`, by outcome: without error
it ends with the only end-of-input token; with an error it holds none. -/
def EofPost (L : Lexer) : Prop :=
  (L.err.kind = .ERR_NONE →
    ∃ init tk, L.out = init ++ [tk] ∧ tk.type = .T_EOF ∧ NoEof init) ∧
  (L.err.kind ≠ .ERR_NONE → NoEof L.out)

/-- The pure expressions: literals, variable references, and unary and
binary operator nodes whose operands are pure expressions. -/
def pure_expr : Node → Bool
  | .null => false
  | .mk t _ _ l r _ _ _ =>
    match t with
    | .N_INT => true
    | .N_STRING => true
    | .N_VAR => true
    | .N_UNARY => pure_expr l
    | .N_BINARY => pure_expr l && pure_expr r
    | _ => false

/-- State `t` has the variables, the output and the pending input of state
`s`; the two differ at most in the error record. -/
def same_store (s t : VM) : Prop := t.vars = s.vars ∧ t.out = s.out ∧ t.inp = s.inp

/-- The lexer state `L` with the token buffer replaced by `o`. -/
def with_out (L : Lexer) (o : List Token) : Lexer := { L with out := o }

/-- Line of the character of index `k` of `src`, as the specification words
it: 1 plus the number of newline characters before it. -/
def line_at (src : CStr) (k : Nat) : Nat := 1 + (src.take k).count '\n'

/-- Column of the character of index `k` of `src`, as the specification
words it: 1 plus the number of characters between the last newline before
it (or the start of the text) and it. -/
def col_at (src : CStr) (k : Nat) : Nat :=
  1 + ((src.take k).reverse.takeWhile (fun c => c ≠ '\n')).length

/-- The source character a token begins with: the opening quote of a string
literal, the first character of the lexeme of any other token, and the
terminating NUL for the end-of-input token. -/
def first_char (tk : Token) : Char :=
  match tk.type with
  | .T_EOF => NUL
  | .T_STRING => '"'
  | _ => tk.lexeme.headD NUL

/-- Token `tk` begins at index `k` of `src` and carries the line and the
column of that index. -/
def tok_at_index (src : CStr) (tk : Token) (k : Nat) : Prop :=
  k ≤ src.length ∧ src.getD k NUL = first_char tk ∧
    tk.line = line_at src k ∧ tk.col = col_at src k

/-- The line and column fields of the lexer are those of its cursor. -/
def pos_ok (L : Lexer) : Prop := L.line = line_at L.src L.i ∧ L.col = col_at L.src L.i

/-- Number of characters of a string literal after its opening quote, as the
specification words it: the characters up to and including the first
unescaped closing quote, a backslash escaping the character after it; when
no closing quote is found the literal runs to the end of the input. -/
def str_len : CStr → Bool → Nat
  | [], _ => 0
  | c :: cs, esc =>
    if c = NUL then 0
    else if !esc && c = '"' then 1
    else if !esc && c = '\\' then 1 + str_len cs true
    else 1 + str_len cs false

/-- The two-character operators `!=`, `==`, `<=`, `>=`, `&&` and `||`. -/
def two_char (c d : Char) : Bool :=
  ((c = '!' || c = '=' || c = '<' || c = '>') && d = '=') || (c = '&' && d = '&') ||
    (c = '|' && d = '|')

/-- Number of characters of the token that begins the text `rest` (whose
first character is neither blank nor the end of the input), by the lexical
rules of the specification: a digit run; an identifier-start character with
the identifier characters after it; a string literal from its opening quote;
an operator of two characters when both are there, of one otherwise. -/
def token_len : CStr → Nat
  | [] => 0
  | c :: cs =>
    if isdigit c then ((c :: cs).takeWhile isdigit).length
    else if is_ident_start c then ((c :: cs).takeWhile is_ident_part).length
    else if c = '"' then 1 + str_len cs false
    else if two_char c (cs.headD NUL) then 2 else 1

/-- Indices at which the tokens of a text begin, by the lexical rules of the
specification; `rest` is the text from index `k` on.  Blanks are skipped, a
token begins at the first character that is not blank and the next one is
looked for after its last character; the last index is that of the end of
the input, where the end-of-input token stands.  Every step consumes a
character, so `fuel` greater than the length of `rest` is never
exhausted. -/
def starts_from : Nat → CStr → Nat → List Nat
  | 0, _, _ => []
  | fuel + 1, rest, k =>
    match rest with
    | [] => [k]
    | c :: cs =>
      if c = NUL then [k]
      else if isspace c then starts_from fuel cs (k + 1)
      else k :: starts_from fuel ((c :: cs).drop (token_len (c :: cs))) (k + token_len (c :: cs))

/-- The indices of `src` at which its tokens begin, the end-of-input token
included. -/
def token_starts (src : CStr) : List Nat := starts_from (src.length + 1) src 0

/-- The state the main loop of `lex_all` is in once a token has been
scanned, by outcome of the scan: `k = some (t, lex)` when the text scanned
is a token of type `t` and lexeme `lex`, which is then emitted, and
`k = none` when the scan failed and the lexical error `msg` is recorded;
`L1` is the lexer after the scan and `o` the token buffer. -/
def after_scan (L1 : Lexer) (k : Option (TokenType × CStr)) (msg : CStr)
    (line col : Nat) (o : List Token) : Lexer :=
  match k with
  | some (t, lex) => emit (with_out L1 o) t lex line col
  | none => { with_out L1 o with err := set_error L1.err .ERR_LEX line col msg }

/-- What the scan of one token does, from `L` to `L1` with outcome `k`:
source, buffer and error record stay and the cursor stays within the text;
a token is at least one character long, is not the end-of-input token and
begins with the character the scan started at; the scan of a token stops
after as many characters as the lexical rules give the token; the line and
column fields keep following the cursor. -/
structure Shape (L L1 : Lexer) (k : Option (TokenType × CStr)) : Prop where
  scan : Scan L L1
  adv : k ≠ none → L.i < L1.i
  pos : pos_ok L → pos_ok L1
  tok : ∀ t lex, k = some (t, lex) →
    t ≠ .T_EOF ∧
    first_char { type := t, lexeme := strncpy lex 127, line := L.line, col := L.col }
      = lex_peek L
  len : k ≠ none → L1.i = L.i + token_len (L.src.drop L.i)

/-- The token `lex_all` stores for a `;` at line 1, index `j`. -/
def semi_tok (j : Nat) : Token :=
  { type := .T_SEMI, lexeme := ";".toList, line := 1, col := j + 1 }

/-- The state of the main loop of `lex_all` on the source made of `n`
characters `;`, after `k` of them have been lexed. -/
def semi_state (n k : Nat) (e : Error) : Lexer :=
  { src := List.replicate n ';', i := k, line := 1, col := k + 1,
    out := (List.range k).map semi_tok, err := e }

/-- The tokens `out` begin, in order, at strictly increasing indices of
`src`, all below `bound`, and each carries the line and the column of the
index it begins at. -/
def placed (src : CStr) (out : List Token) (bound : Nat) : Prop :=
  ∃ ks : List Nat, List.Forall₂ (tok_at_index src) out ks ∧
    ks.Pairwise (fun a b => a < b) ∧ ∀ k ∈ ks, k < bound

/-- The token vector is not empty and its last token is the end-of-input
token. -/
def eof_terminated (toks : List Token) : Prop :=
  0 < toks.length ∧ (toks.getD (toks.length - 1) tok_zero).type = .T_EOF

/-- The parser works on `toks`, its cursor is on one of the tokens
(`0 <= pos <= count - 1`) and no lookahead has read out of range. -/
def cursor_ok (toks : List Token) (P : Parser) : Prop :=
  P.toks = toks ∧ P.pos < toks.length ∧ P.oob = false

/-- From `P` to `P1` the cursor moved forward, if at all, and is still on a
token of `toks`, and no lookahead has read out of range. -/
structure Keeps (toks : List Token) (P P1 : Parser) : Prop where
  ok : cursor_ok toks P1
  mono : P.pos ≤ P1.pos

/-- Cursor safety of a parse function: from a safe cursor, every result is
reached with a safe cursor, and a result other than `NULL` has consumed at
least one token. -/
def parse_safe (toks : List Token) (f : Parser → PRes) : Prop :=
  ∀ (P : Parser) (n : Node) (P1 : Parser), cursor_ok toks P → f P = some (n, P1) →
    Keeps toks P P1 ∧ (n.isNull = false → P.pos < P1.pos)

/-- Cursor safety of the loop of a binary-operator level, for any left
operand. -/
def loop_safe (toks : List Token) (f : Node → Parser → PRes) : Prop :=
  ∀ (left : Node) (P : Parser) (n : Node) (P1 : Parser), cursor_ok toks P →
    f left P = some (n, P1) → Keeps toks P P1

/-- Cursor safety of the loops that collect a list of nodes. -/
def list_safe (toks : List Token)
    (f : List Node → Parser → Option (Option (List Node) × Parser)) : Prop :=
  ∀ (acc : List Node) (P : Parser) (r : Option (List Node)) (P1 : Parser), cursor_ok toks P →
    f acc P = some (r, P1) → Keeps toks P P1

/-- Cursor safety of the expression parsers run with fuel `fuel`. -/
structure ExprSafe (toks : List Token) (fuel : Nat) : Prop where
  primary : parse_safe toks (parse_primary fuel)
  unary : parse_safe toks (parse_unary fuel)
  mul_loop : loop_safe toks (parse_mul_loop fuel)
  mul : parse_safe toks (parse_mul fuel)
  add_loop : loop_safe toks (parse_add_loop fuel)
  add : parse_safe toks (parse_add fuel)
  rel_loop : loop_safe toks (parse_rel_loop fuel)
  rel : parse_safe toks (parse_rel fuel)
  eq_loop : loop_safe toks (parse_eq_loop fuel)
  eq : parse_safe toks (parse_eq fuel)
  and_loop : loop_safe toks (parse_and_loop fuel)
  and : parse_safe toks (parse_and fuel)
  or_loop : loop_safe toks (parse_or_loop fuel)
  or : parse_safe toks (parse_or fuel)
  expression : parse_safe toks (parse_expression fuel)

/-- Cursor safety of the statement parsers run with fuel `fuel`. -/
structure StmtSafe (toks : List Token) (fuel : Nat) : Prop where
  pif : parse_safe toks (parse_if fuel)
  pwhile : parse_safe toks (parse_while fuel)
  statement : parse_safe toks (parse_statement fuel)
  block_loop : list_safe toks (parse_block_loop fuel)
  block : parse_safe toks (parse_block fuel)

/-- The parse function `g`, run with fuel `fuel`, returns (the fuel of the
model is not exhausted) from every safe cursor with at most
`(fuel - c) / 16` tokens left to read. -/
def returns {α : Type} (toks : List Token) (c fuel : Nat)
    (g : Parser → Option (α × Parser)) : Prop :=
  ∀ P : Parser, cursor_ok toks P → 16 * (toks.length - P.pos) + c ≤ fuel → g P ≠ none

/-- The expression parsers return when run with enough fuel. -/
structure ExprTotal (toks : List Token) (fuel : Nat) : Prop where
  primary : returns toks 1 fuel (parse_primary fuel)
  unary : returns toks 2 fuel (parse_unary fuel)
  mul_loop : ∀ left : Node, returns toks 1 fuel (parse_mul_loop fuel left)
  mul : returns toks 3 fuel (parse_mul fuel)
  add_loop : ∀ left : Node, returns toks 1 fuel (parse_add_loop fuel left)
  add : returns toks 4 fuel (parse_add fuel)
  rel_loop : ∀ left : Node, returns toks 1 fuel (parse_rel_loop fuel left)
  rel : returns toks 5 fuel (parse_rel fuel)
  eq_loop : ∀ left : Node, returns toks 1 fuel (parse_eq_loop fuel left)
  eq : returns toks 6 fuel (parse_eq fuel)
  and_loop : ∀ left : Node, returns toks 1 fuel (parse_and_loop fuel left)
  and : returns toks 7 fuel (parse_and fuel)
  or_loop : ∀ left : Node, returns toks 1 fuel (parse_or_loop fuel left)
  or : returns toks 8 fuel (parse_or fuel)
  expression : returns toks 9 fuel (parse_expression fuel)

/-- The statement parsers return when run with enough fuel; `parse_block`
called on a `\x7b` consumes it before it recurses, and needs less. -/
structure StmtTotal (toks : List Token) (fuel : Nat) : Prop where
  pif : returns toks 10 fuel (parse_if fuel)
  pwhile : returns toks 10 fuel (parse_while fuel)
  statement : returns toks 11 fuel (parse_statement fuel)
  block_loop : ∀ acc : List Node, returns toks 12 fuel (parse_block_loop fuel acc)
  block : returns toks 12 fuel (parse_block fuel)
  block_at_brace : ∀ P : Parser, cursor_ok toks P → (P_peek P).type = .T_LBRACE →
    16 * (toks.length - P.pos - 1) + 13 ≤ fuel → parse_block fuel P ≠ none

/-! ## Unfolding lemmas for the evaluator -/

theorem eval_null (s : VM) : eval .null s = (V_int 0, s) := rfl

theorem eval_mk (t : NodeType) (op : OpType) (v : CStr) (l r e : Node) (line col : Nat)
    (s : VM) :
    eval (.mk t op v l r e line col) s
      = eval_node t op v line col (evs l) (evs r) (evs e) s := rfl

theorem evs_eval (n : Node) (s : VM) : (evs n).eval s = eval n s := rfl

theorem evs_block (n : Node) (s : VM) : (evs n).block s = exec_block n s := rfl

theorem evs_chain (n : Node) (s : VM) : (evs n).chain s = exec_chain n s := rfl

theorem exec_block_mk_block (op : OpType) (v : CStr) (l r e : Node) (line col : Nat) (s : VM) :
    exec_block (.mk .N_BLOCK op v l r e line col) s = exec_chain e s := rfl

theorem exec_chain_null (s : VM) : exec_chain .null s = s := rfl

theorem exec_chain_mk (t : NodeType) (op : OpType) (v : CStr) (l r e : Node) (line col : Nat)
    (s : VM) :
    exec_chain (.mk t op v l r e line col) s
      = if s.err.kind ≠ .ERR_NONE then s
        else exec_chain r (eval (.mk t op v l r e line col) s).2 := rfl

/-! ## Lemmas on `strcmp` -/

theorem char_toNat_inj (a b : Char) (h : a.toNat = b.toNat) : a = b := by
  apply Char.ext
  apply UInt32.ext
  simpa [Char.toNat] using h

theorem strcmp_eq_zero (a b : CStr) : strcmp a b = 0 ↔ a = b := by
  induction a generalizing b with
  | nil => cases b <;> simp [strcmp]
  | cons x xs ih =>
    cases b with
    | nil => simp [strcmp]
    | cons y ys =>
      simp only [strcmp]
      by_cases h1 : x.toNat < y.toNat
      · have : x ≠ y := fun e => by subst e; exact absurd h1 (lt_irrefl _)
        simp [h1, this]
      · by_cases h2 : y.toNat < x.toNat
        · have : x ≠ y := fun e => by subst e; exact absurd h2 (lt_irrefl _)
          simp [h1, h2, this]
        · have : x = y := char_toNat_inj _ _ (by omega)
          simp [h1, h2, this, ih]

theorem strcmp_neg (a b : CStr) : strcmp a b < 0 ↔ byte_lex a b := by
  induction a generalizing b with
  | nil =>
    cases b with
    | nil => simp [strcmp]
    | cons y ys => simp [strcmp, List.Lex.nil]
  | cons x xs ih =>
    cases b with
    | nil => simp [strcmp]
    | cons y ys =>
      simp only [strcmp]
      by_cases h1 : x.toNat < y.toNat
      · simp only [h1, if_true]
        exact iff_of_true (by norm_num) (List.Lex.rel h1)
      · by_cases h2 : y.toNat < x.toNat
        · simp only [h1, h2, if_true, if_false]
          constructor
          · intro h; omega
          · intro h
            cases h with
            | cons h3 => omega
            | rel h3 => omega
        · have e : x = y := char_toNat_inj _ _ (by omega)
          subst e
          simp only [h1, if_false, ih]
          constructor
          · intro h; exact List.Lex.cons h
          · intro h
            cases h with
            | cons h3 => exact h3
            | rel h3 => omega

theorem strcmp_antisymm (a b : CStr) : strcmp b a = -strcmp a b := by
  induction a generalizing b with
  | nil => cases b <;> simp [strcmp]
  | cons x xs ih =>
    cases b with
    | nil => simp [strcmp]
    | cons y ys =>
      simp only [strcmp]
      by_cases h1 : x.toNat < y.toNat
      · have h2 : ¬ y.toNat < x.toNat := by omega
        simp [h1, h2]
      · by_cases h2 : y.toNat < x.toNat
        · simp [h1, h2]
        · simp [h1, h2, ih]

theorem strcmp_pos (a b : CStr) : 0 < strcmp a b ↔ byte_lex b a := by
  rw [← strcmp_neg, strcmp_antisymm b a]
  omega

/-! ## C1: `output` statements -/

/-- C1 (defect in the code): the two statements of `x = 3; output(x + 4);`
lex and parse without error, and evaluating them in order writes `7 4`
and a newline, not `7` and a newline: the argument loop of `N_PRINT`
follows the `right` link of the argument `x + 4`, which is the right
operand `4` of that binary node, and prints it as a further item. -/
theorem C1_output_sum_prints_right_operand_again :
    ∃ n1 P1 n2 P2,
      (lex_all "x = 3; output(x + 4);".toList g_error_init).err.kind = .ERR_NONE ∧
      parse_statement 40
        (parser_init (lex_all "x = 3; output(x + 4);".toList g_error_init).out g_error_init)
        = some (n1, P1) ∧
      parse_statement 40 P1 = some (n2, P2) ∧
      (P_peek P2).type = .T_EOF ∧ P2.err.kind = .ERR_NONE ∧
      (eval n2 (eval n1 (vm_init [])).2).2.out = "7 4\n".toList ∧
      (eval n2 (eval n1 (vm_init [])).2).2.err.kind = .ERR_NONE := by
  refine ⟨_, _, _, _, ?_, rfl, rfl, ?_, ?_, ?_, ?_⟩ <;> decide

/-! ## C2: blocks -/

/-- C2 (defect in the code): the block `{ if (0) { } else { output(1); } }`
holds one statement, whose standalone evaluation writes `1` and a newline;
executing the block writes that line twice.  `exec_block` steps to
`cur->right`, which for an `if` node is its else-branch, and runs it as if
it were the next statement of the block. -/
theorem C2_block_runs_else_branch_again :
    ∃ blk P1 stmt P2,
      parse_block 40
        (parser_init
          (lex_all "\x7b if (0) \x7b \x7d else \x7b output(1); \x7d \x7d".toList
            g_error_init).out g_error_init)
        = some (blk, P1) ∧
      P1.err.kind = .ERR_NONE ∧ (P_peek P1).type = .T_EOF ∧
      parse_statement 40
        (parser_init
          (lex_all "if (0) \x7b \x7d else \x7b output(1); \x7d".toList g_error_init).out
          g_error_init)
        = some (stmt, P2) ∧
      P2.err.kind = .ERR_NONE ∧ (P_peek P2).type = .T_EOF ∧
      (eval stmt (vm_init [])).2.out = "1\n".toList ∧
      (exec_block blk (vm_init [])).out = "1\n1\n".toList ∧
      (exec_block blk (vm_init [])).err.kind = .ERR_NONE ∧
      (eval blk (vm_init [])).2 = exec_block blk (vm_init []) := by
  refine ⟨_, _, _, _, rfl, ?_, ?_, rfl, ?_, ?_, ?_, ?_, ?_, ?_⟩ <;> decide

/-! ## C3: `if` -/

/-- C3 (defect in the code): in the chain
`if (0) { } else if (1) { output("a"); } else { output("b"); }` the
condition of the outer `if` is falsy and its else-branch is the inner
`if`/`else` statement, which on its own writes `a` and a newline.
Evaluating the outer `if` writes `a`, newline, `b`, newline: `exec_block`
on the else-branch, which is not a block node, goes on to that node's
`right` link, the inner else-branch, and runs it too.  The example of the
specification, whose branches are braced blocks, writes `yes` and a
newline. -/
theorem C3_if_runs_else_of_nested_if :
    ∃ outer P1 inner P2 ex P3,
      parse_statement 40
        (parser_init
          (lex_all
            ("if (0) \x7b \x7d else if (1) \x7b output(\"a\"); \x7d ".toList
              ++ "else \x7b output(\"b\"); \x7d".toList)
            g_error_init).out g_error_init)
        = some (outer, P1) ∧
      P1.err.kind = .ERR_NONE ∧ (P_peek P1).type = .T_EOF ∧
      parse_statement 40
        (parser_init
          (lex_all "if (1) \x7b output(\"a\"); \x7d else \x7b output(\"b\"); \x7d".toList
            g_error_init).out g_error_init)
        = some (inner, P2) ∧
      P2.err.kind = .ERR_NONE ∧ (P_peek P2).type = .T_EOF ∧
      (eval inner (vm_init [])).2.out = "a\n".toList ∧
      (eval outer (vm_init [])).2.out = "a\nb\n".toList ∧
      (eval outer (vm_init [])).2.err.kind = .ERR_NONE ∧
      parse_statement 40
        (parser_init
          (lex_all
            "if (1 < 2) \x7b output(\"yes\"); \x7d else \x7b output(\"no\"); \x7d".toList
            g_error_init).out g_error_init)
        = some (ex, P3) ∧
      P3.err.kind = .ERR_NONE ∧
      (eval ex (vm_init [])).2.out = "yes\n".toList ∧
      (eval ex (vm_init [])).2.err.kind = .ERR_NONE := by
  refine ⟨_, _, _, _, _, _, rfl, ?_, ?_, rfl, ?_, ?_, ?_, ?_, ?_, rfl, ?_, ?_, ?_⟩ <;> decide

/-! ## C4: short-circuit `&&` and `||` -/

/-- C4: for all operand nodes `L`, `R` and every state with an empty error
record, `L && R` with `L` falsy yields integer 0 in the state reached after
`L` alone (so `R` is not evaluated, whatever it would do), `L || R` with
`L` truthy yields integer 1 in that same state, and whenever the
evaluation of `L && R` (resp. `L || R`) ends without error its value is
the integer 0/1 of the logical and (resp. or) of the operands'
truthiness. -/
theorem C4_and_or_short_circuit (L R x : Node) (v : CStr) (line col : Nat) (s : VM)
    (h : s.err.kind = .ERR_NONE) :
    (((eval L s).2.err.kind = .ERR_NONE ∧ truthy (eval L s).1 = false) →
      eval (.mk .N_BINARY .OP_AND v L R x line col) s = (V_int 0, (eval L s).2)) ∧
    (((eval L s).2.err.kind = .ERR_NONE ∧ truthy (eval L s).1 = true) →
      eval (.mk .N_BINARY .OP_OR v L R x line col) s = (V_int 1, (eval L s).2)) ∧
    ((eval (.mk .N_BINARY .OP_AND v L R x line col) s).2.err.kind = .ERR_NONE →
      (eval (.mk .N_BINARY .OP_AND v L R x line col) s).1
        = V_int (b2i (truthy (eval L s).1 && truthy (eval R (eval L s).2).1))) ∧
    ((eval (.mk .N_BINARY .OP_OR v L R x line col) s).2.err.kind = .ERR_NONE →
      (eval (.mk .N_BINARY .OP_OR v L R x line col) s).1
        = V_int (b2i (truthy (eval L s).1 || truthy (eval R (eval L s).2).1))) := by
  simp only [eval_mk, eval_node, h, evs_eval]
  refine ⟨?_, ?_, ?_, ?_⟩
  · rintro ⟨h1, h2⟩
    simp [h1, h2]
  · rintro ⟨h1, h2⟩
    simp [h1, h2]
  · by_cases h1 : (eval L s).2.err.kind = .ERR_NONE
    · by_cases h2 : truthy (eval L s).1 = true
      · by_cases h3 : (eval R (eval L s).2).2.err.kind = .ERR_NONE
        · simp [h1, h2, h3]
        · simp [h1, h2, h3]
      · simp [h1, h2, b2i]
    · simp [h1]
  · by_cases h1 : (eval L s).2.err.kind = .ERR_NONE
    · by_cases h2 : truthy (eval L s).1 = true
      · simp [h1, h2, b2i]
      · by_cases h3 : (eval R (eval L s).2).2.err.kind = .ERR_NONE
        · simp [h1, h2, h3]
        · simp [h1, h2, h3]
    · simp [h1]

/-- C4 at `0 && (1/0)` and `1 || (1/0)`: the expressions parse to binary
nodes whose right operand is the division, that division alone records a
runtime error, and the whole expressions evaluate to 0 and 1 with the
state, error record included, untouched; and `1 && 0`, `0 || 2`, which do
evaluate their right operand, yield 0 and 1. -/
theorem C4_and_or_short_circuit_witness :
    ∃ L1 R1 L2 R2 P1 P2,
      parse_expression 40
        (parser_init (lex_all "0 && (1/0)".toList g_error_init).out g_error_init)
        = some (.mk .N_BINARY .OP_AND [] L1 R1 .null 1 3, P1) ∧
      parse_expression 40
        (parser_init (lex_all "1 || (1/0)".toList g_error_init).out g_error_init)
        = some (.mk .N_BINARY .OP_OR [] L2 R2 .null 1 3, P2) ∧
      (eval R1 (vm_init [])).2.err.kind = .ERR_RUNTIME ∧
      (eval R2 (vm_init [])).2.err.kind = .ERR_RUNTIME ∧
      eval (.mk .N_BINARY .OP_AND [] L1 R1 .null 1 3) (vm_init []) = (V_int 0, vm_init []) ∧
      eval (.mk .N_BINARY .OP_OR [] L2 R2 .null 1 3) (vm_init []) = (V_int 1, vm_init []) ∧
      (eval (.mk .N_BINARY .OP_AND [] (int_lit "1".toList 1 1) (int_lit "0".toList 1 6) .null 1 3)
          (vm_init [])).1
        = V_int (b2i (truthy (eval (int_lit "1".toList 1 1) (vm_init [])).1
            && truthy (eval (int_lit "0".toList 1 6)
                (eval (int_lit "1".toList 1 1) (vm_init [])).2).1)) ∧
      (eval (.mk .N_BINARY .OP_OR [] (int_lit "0".toList 1 1) (int_lit "2".toList 1 6) .null 1 3)
          (vm_init [])).1
        = V_int (b2i (truthy (eval (int_lit "0".toList 1 1) (vm_init [])).1
            || truthy (eval (int_lit "2".toList 1 6)
                (eval (int_lit "0".toList 1 1) (vm_init [])).2).1)) :=
  ⟨_, _, _, _, _, _, rfl, rfl, by decide, by decide,
    (C4_and_or_short_circuit _ _ .null [] 1 3 (vm_init []) rfl).1 ⟨rfl, rfl⟩,
    (C4_and_or_short_circuit _ _ .null [] 1 3 (vm_init []) rfl).2.1 ⟨rfl, rfl⟩,
    (C4_and_or_short_circuit _ _ .null [] 1 3 (vm_init []) rfl).2.2.1 rfl,
    (C4_and_or_short_circuit _ _ .null [] 1 3 (vm_init []) rfl).2.2.2 rfl⟩

/-! ## C5: division -/

/-- C5: if the operands of `L / R` evaluate without error to the integers
`a` and `b`, then the division records an error exactly when `b = 0`,
whatever `a` is, and that error is the runtime error "division by zero" at
the node's position; `0 / b` with `b ≠ 0` is integer 0 with no error and the
state left as the operands left it.  For `b ≠ 0` the result is the truncated
quotient with the state unchanged, except for `INT_MIN / -1`, whose quotient
does not fit `int`: there the process is killed by the division (flag
`trap`) with no error recorded, and in no other case does the division
kill the process. -/
theorem C5_division_by_zero_iff (L R x : Node) (v : CStr) (line col : Nat) (s : VM) (a b : Int)
    (h : s.err.kind = .ERR_NONE)
    (hL : (eval L s).2.err.kind = .ERR_NONE) (hLv : (eval L s).1 = V_int a)
    (hR : (eval R (eval L s).2).2.err.kind = .ERR_NONE)
    (hRv : (eval R (eval L s).2).1 = V_int b) :
    ((eval (.mk .N_BINARY .OP_DIV v L R x line col) s).2.err.kind ≠ .ERR_NONE ↔ b = 0) ∧
    (b = 0 →
      (eval (.mk .N_BINARY .OP_DIV v L R x line col) s).2.err
        = { kind := .ERR_RUNTIME, line := line, col := col,
            msg := "division by zero".toList }) ∧
    (b ≠ 0 → ¬ (a = -2147483648 ∧ b = -1) →
      eval (.mk .N_BINARY .OP_DIV v L R x line col) s
        = (V_int (wrap32 (Int.tdiv a b)), (eval R (eval L s).2).2)) ∧
    (b ≠ 0 → a = 0 →
      eval (.mk .N_BINARY .OP_DIV v L R x line col) s = (V_int 0, (eval R (eval L s).2).2)) ∧
    (a = -2147483648 ∧ b = -1 →
      (eval (.mk .N_BINARY .OP_DIV v L R x line col) s).2
        = { (eval R (eval L s).2).2 with trap := true }) ∧
    ((eval R (eval L s).2).2.trap = false →
      ((eval (.mk .N_BINARY .OP_DIV v L R x line col) s).2.trap = true
        ↔ (a = -2147483648 ∧ b = -1))) := by
  have key : eval (.mk .N_BINARY .OP_DIV v L R x line col) s
      = bin_num_num line col (V_int a) (V_int b) .OP_DIV (eval R (eval L s).2).2 := by
    simp [eval_mk, eval_node, h, evs_eval, hL, hR, hLv, hRv]
  rw [key]
  by_cases hb : b = 0
  · subst hb
    simp [bin_num_num, V_int, runtime_error, set_error, hR]
  · by_cases hov : a = -2147483648 ∧ b = -1
    · obtain ⟨ha, hb1⟩ := hov
      subst ha hb1
      simp [bin_num_num, V_int, hR]
    · have e : bin_num_num line col (V_int a) (V_int b) .OP_DIV (eval R (eval L s).2).2
          = (V_int (wrap32 (Int.tdiv a b)), (eval R (eval L s).2).2) := by
        simp only [bin_num_num, V_int, ne_eq, not_true_eq_false, or_self, if_false, hb, hov]
      rw [e]
      refine ⟨by simp [hb, hR], fun h0 => absurd h0 hb, fun _ _ => rfl, ?_,
        fun h1 => absurd h1 hov, ?_⟩
      · intro _ ha
        subst ha
        simp [wrap32, V_int]
      · intro ht
        simp [ht, hov]

/-- C5 at `5 / 0`, `0 / 5`, `7 / 2` and `(0 - 2147483647 - 1) / (0 - 1)`: the
first records "division by zero", the second yields integer 0 and the third
integer 3 with no error, and the last kills the process with no error
recorded. -/
theorem C5_division_by_zero_iff_witness :
    (eval (make_binary .OP_DIV (int_lit "5".toList 1 1) (int_lit "0".toList 1 5) 1 3)
        (vm_init [])).2.err
      = { kind := .ERR_RUNTIME, line := 1, col := 3, msg := "division by zero".toList } ∧
    eval (make_binary .OP_DIV (int_lit "0".toList 1 1) (int_lit "5".toList 1 5) 1 3)
        (vm_init [])
      = (V_int 0, vm_init []) ∧
    eval (make_binary .OP_DIV (int_lit "7".toList 1 1) (int_lit "2".toList 1 5) 1 3)
        (vm_init [])
      = (V_int 3, vm_init []) ∧
    (eval (make_binary .OP_DIV
        (make_binary .OP_MINUS
          (make_binary .OP_MINUS (int_lit "0".toList 1 2) (int_lit "2147483647".toList 1 6) 1 4)
          (int_lit "1".toList 1 19) 1 17)
        (make_binary .OP_MINUS (int_lit "0".toList 1 25) (int_lit "1".toList 1 29) 1 27) 1 22)
        (vm_init [])).2
      = { vars := [], err := g_error_init, out := [], inp := [], trap := true } :=
  ⟨(C5_division_by_zero_iff (int_lit "5".toList 1 1) (int_lit "0".toList 1 5) .null [] 1 3
      (vm_init []) 5 0 rfl rfl rfl rfl rfl).2.1 rfl,
   (C5_division_by_zero_iff (int_lit "0".toList 1 1) (int_lit "5".toList 1 5) .null [] 1 3
      (vm_init []) 0 5 rfl rfl rfl rfl rfl).2.2.2.1 (by decide) rfl,
   (C5_division_by_zero_iff (int_lit "7".toList 1 1) (int_lit "2".toList 1 5) .null [] 1 3
      (vm_init []) 7 2 rfl rfl rfl rfl rfl).2.2.1 (by decide) (by decide),
   (C5_division_by_zero_iff
      (make_binary .OP_MINUS
        (make_binary .OP_MINUS (int_lit "0".toList 1 2) (int_lit "2147483647".toList 1 6) 1 4)
        (int_lit "1".toList 1 19) 1 17)
      (make_binary .OP_MINUS (int_lit "0".toList 1 25) (int_lit "1".toList 1 29) 1 27)
      .null [] 1 22 (vm_init []) (-2147483648) (-1) rfl rfl (by decide) rfl
      (by decide)).2.2.2.2.1
      ⟨rfl, rfl⟩⟩

/-! ## C6: comparisons -/

/-- C6: for each of the six comparison operators and all values `a`, `b`,
`cmp_any` called with an empty error record records an error exactly when
the types of `a` and `b` differ, that error being a runtime error at the
node's position; two integers give the 0/1 of the numeric comparison and
two strings the 0/1 of the comparison in byte-wise lexicographic order,
both leaving the state unchanged. -/
theorem C6_cmp_any_error_iff_mixed (line col : Nat) (a b : Value) (op : OpType) (s : VM)
    (h : s.err.kind = .ERR_NONE) (hop : is_comparison op = true) :
    ((cmp_any line col a b op s).2.err.kind ≠ .ERR_NONE ↔ a.type ≠ b.type) ∧
    (a.type ≠ b.type →
      (cmp_any line col a b op s).2.err
        = { kind := .ERR_RUNTIME, line := line, col := col, msg := "incompatibles".toList }) ∧
    (a.type = .V_INT ∧ b.type = .V_INT →
      cmp_any line col a b op s
        = (V_int (b2i (rel_holds (fun x y : Int => x < y) op a.i b.i)), s)) ∧
    (a.type = .V_STRING ∧ b.type = .V_STRING →
      cmp_any line col a b op s = (V_int (b2i (rel_holds byte_lex op a.s b.s)), s)) := by
  have hz := strcmp_eq_zero a.s b.s
  have hn := strcmp_neg a.s b.s
  have hp := strcmp_pos a.s b.s
  have hle : strcmp a.s b.s ≤ 0 ↔ (byte_lex a.s b.s ∨ a.s = b.s) := by
    rw [← hn, ← hz]; omega
  have hge : strcmp a.s b.s ≥ 0 ↔ (byte_lex b.s a.s ∨ a.s = b.s) := by
    rw [← hp, ← hz]; omega
  cases hta : a.type <;> cases htb : b.type
  · refine ⟨by simp [cmp_any, hta, htb, h], by simp, ?_, by simp⟩
    intro _
    cases op <;> simp [is_comparison] at hop <;>
      simp only [cmp_any, hta, htb, rel_holds, and_self, if_true]
    · exact congrArg (fun t => (V_int (b2i t), s)) (decide_eq_decide.mpr le_iff_lt_or_eq)
    · exact congrArg (fun t => (V_int (b2i t), s))
        (decide_eq_decide.mpr (le_iff_lt_or_eq.trans (or_congr Iff.rfl eq_comm)))
  · refine ⟨by simp [cmp_any, hta, htb, h, runtime_error, set_error], ?_, by simp, by simp⟩
    intro _
    simp [cmp_any, hta, htb, h, runtime_error, set_error]
  · refine ⟨by simp [cmp_any, hta, htb, h, runtime_error, set_error], ?_, by simp, by simp⟩
    intro _
    simp [cmp_any, hta, htb, h, runtime_error, set_error]
  · refine ⟨by simp [cmp_any, hta, htb, h], by simp, by simp, ?_⟩
    intro _
    cases op <;> simp [is_comparison] at hop <;>
      simp [cmp_any, hta, htb, rel_holds, b2i, hz, hn, hp, hle, hge]

/-- C6 at `1 < "a"` (mixed: runtime error), `2 <= 3` (integers: 1) and
`"ab" < "b"` (strings: 1). -/
theorem C6_cmp_any_error_iff_mixed_witness :
    (cmp_any 1 3 (V_int 1) (V_str "a".toList) .OP_LT (vm_init [])).2.err
      = { kind := .ERR_RUNTIME, line := 1, col := 3, msg := "incompatibles".toList } ∧
    cmp_any 1 3 (V_int 2) (V_int 3) .OP_LE (vm_init []) = (V_int 1, vm_init []) ∧
    cmp_any 1 6 (V_str "ab".toList) (V_str "b".toList) .OP_LT (vm_init [])
      = (V_int 1, vm_init []) :=
  ⟨(C6_cmp_any_error_iff_mixed 1 3 (V_int 1) (V_str "a".toList) .OP_LT (vm_init []) rfl rfl).2.1
      (by decide),
   (C6_cmp_any_error_iff_mixed 1 3 (V_int 2) (V_int 3) .OP_LE (vm_init []) rfl rfl).2.2.1
      ⟨rfl, rfl⟩,
   (C6_cmp_any_error_iff_mixed 1 6 (V_str "ab".toList) (V_str "b".toList) .OP_LT (vm_init [])
      rfl rfl).2.2.2 ⟨rfl, rfl⟩⟩

/-! ## C7, C8: variable names -/

set_option maxRecDepth 100000 in
/-- C7 (defect in the code): with `x` the identifier of 64 letters `a`, the
statement `x = 1;` evaluates without error and yields 1, but the variable
it creates is stored under the first 63 characters of `x` (`var_ensure`
cuts the name to fit `Var.name`, while tokens and nodes carry up to 127
characters), so the reference `x` evaluated next finds no variable and
records the runtime error "var ... not defined". -/
theorem C7_long_name_unreadable_after_assignment :
    ∃ n1 P1 n2 P2,
      (lex_all (List.replicate 64 'a' ++ " = 1; ".toList ++ List.replicate 64 'a' ++ ";".toList)
        g_error_init).err.kind = .ERR_NONE ∧
      parse_statement 40
        (parser_init
          (lex_all
            (List.replicate 64 'a' ++ " = 1; ".toList ++ List.replicate 64 'a' ++ ";".toList)
            g_error_init).out g_error_init)
        = some (n1, P1) ∧
      parse_statement 40 P1 = some (n2, P2) ∧
      P2.err.kind = .ERR_NONE ∧ (P_peek P2).type = .T_EOF ∧
      n1 = ((node_new .N_ASSIGN 1 1).set_value (List.replicate 64 'a')).set_left
            (int_lit "1".toList 1 68) ∧
      n2 = var_ref (List.replicate 64 'a') 1 71 ∧
      (eval n1 (vm_init [])).1 = V_int 1 ∧
      (eval n1 (vm_init [])).2.err.kind = .ERR_NONE ∧
      (eval n1 (vm_init [])).2.vars = [{ name := List.replicate 63 'a', val := V_int 1 }] ∧
      (eval n2 (eval n1 (vm_init [])).2).2.err.kind = .ERR_RUNTIME ∧
      (eval n2 (eval n1 (vm_init [])).2).2.err.msg
        = "var '".toList ++ List.replicate 64 'a' ++ "' not defined".toList := by
  refine ⟨_, _, _, _, ?_, rfl, rfl, ?_, ?_, ?_, ?_, ?_, ?_, ?_, ?_, ?_⟩ <;> decide

set_option maxRecDepth 100000 in
/-- C8 (defect in the code): with `x` the identifier of 64 letters `a` and
`y` the different identifier of 63 letters `a`, the reference `y` records a
runtime error in the empty table, but after the single assignment `x = 1;`
(whose target is not `y`) it evaluates without error to 1: the variable
created for `x` is stored under the 63-character prefix of `x`, which is
`y`. -/
theorem C8_assignment_defines_other_name :
    ∃ n1 P1 n2 P2,
      parse_statement 40
        (parser_init
          (lex_all
            (List.replicate 64 'a' ++ " = 1; ".toList ++ List.replicate 63 'a' ++ ";".toList)
            g_error_init).out g_error_init)
        = some (n1, P1) ∧
      parse_statement 40 P1 = some (n2, P2) ∧
      P2.err.kind = .ERR_NONE ∧ (P_peek P2).type = .T_EOF ∧
      n1 = ((node_new .N_ASSIGN 1 1).set_value (List.replicate 64 'a')).set_left
            (int_lit "1".toList 1 68) ∧
      n2 = var_ref (List.replicate 63 'a') 1 71 ∧
      List.replicate 63 'a' ≠ List.replicate 64 'a' ∧
      (eval n2 (vm_init [])).2.err.kind = .ERR_RUNTIME ∧
      (eval n1 (vm_init [])).2.err.kind = .ERR_NONE ∧
      eval n2 (eval n1 (vm_init [])).2 = (V_int 1, (eval n1 (vm_init [])).2) := by
  refine ⟨_, _, _, _, rfl, rfl, ?_, ?_, ?_, ?_, ?_, ?_, ?_, ?_⟩ <;> decide

/-! ## C9, C10: the loop guard -/

theorem while_loop_runs_le (cond : VM → Value × VM) (body : VM → VM) (g : Nat) (s : VM) :
    (while_loop cond body g s).runs ≤ g := by
  induction g generalizing s with
  | zero => simp [while_loop]
  | succ g ih =>
    simp only [while_loop]
    split
    · simp
    · split
      · simp
      · split
        · simp
        · have := ih (body (cond s).2)
          simp only
          omega

theorem while_loop_returned_err (cond : VM → Value × VM) (body : VM → VM) (g : Nat) (s : VM) :
    (while_loop cond body g s).returned = true →
      (while_loop cond body g s).st.err.kind ≠ .ERR_NONE := by
  induction g generalizing s with
  | zero => simp [while_loop]
  | succ g ih =>
    simp only [while_loop]
    split
    · rename_i h; intro _; exact h
    · split
      · simp
      · split
        · rename_i h; intro _; exact h
        · exact ih (body (cond s).2)

theorem while_loop_exhausted (cond : VM → Value × VM) (body : VM → VM) (g : Nat) (s : VM) :
    (while_loop cond body g s).runs = g → (while_loop cond body g s).returned = false →
      (while_loop cond body g s).guard = -1 := by
  induction g generalizing s with
  | zero => simp [while_loop]
  | succ g ih =>
    simp only [while_loop]
    split
    · simp
    · split
      · simp
      · split
        · simp
        · intro h1 h2
          exact ih (body (cond s).2) (by simpa using h1) h2

/-- A loop whose condition is a constant truthy value and whose body leaves
the state alone runs its body `g` times and leaves with `guard = -1`. -/
theorem while_loop_const (cond : VM → Value × VM) (body : VM → VM) (v : Value)
    (hv : truthy v = true)
    (hc : ∀ s : VM, s.err.kind = .ERR_NONE → cond s = (v, s))
    (hb : ∀ s : VM, s.err.kind = .ERR_NONE → body s = s)
    (g : Nat) (s : VM) (hs : s.err.kind = .ERR_NONE) :
    while_loop cond body g s = { st := s, guard := -1, returned := false, runs := g } := by
  induction g with
  | zero => simp [while_loop]
  | succ g ih => simp [while_loop, hc s hs, hb s hs, hs, hv, ih]

theorem eval_int_lit_one (s : VM) (hs : s.err.kind = .ERR_NONE) :
    eval (int_lit "1".toList 1 7) s = (V_int 1, s) := by
  have : atoi (strncpy ['1'] 127) = 1 := by decide
  simp [int_lit, node_new, Node.set_value, eval_mk, eval_node, hs, this]

/-- C9: `eval` is a total function (its recursion is on the tree and, for a
loop, on the guard counter), and for every loop node and every state with
an empty error record: the body runs at most 1,000,000 times; the state
after `eval` is the state the loop leaves, with the runtime error
"While error" at the loop's position added when the loop ended with
`guard <= 0` and not through a `return`; after 1,000,000 body executions
the error record is never empty; and if those executions raised no error
themselves, the record holds exactly that runtime error at the loop's
line and column. -/
theorem C9_loop_bounded_by_guard (op : OpType) (v : CStr) (c r b : Node) (line col : Nat)
    (s : VM) (h : s.err.kind = .ERR_NONE) :
    (while_loop (eval c) (exec_block b) 1000000 s).runs ≤ 1000000 ∧
    (eval (.mk .N_WHILE op v c r b line col) s).2
      = (if (while_loop (eval c) (exec_block b) 1000000 s).returned = true
            ∨ 0 < (while_loop (eval c) (exec_block b) 1000000 s).guard
         then (while_loop (eval c) (exec_block b) 1000000 s).st
         else runtime_error (while_loop (eval c) (exec_block b) 1000000 s).st line col
                "While error".toList) ∧
    ((while_loop (eval c) (exec_block b) 1000000 s).runs = 1000000 →
      (eval (.mk .N_WHILE op v c r b line col) s).2.err.kind ≠ .ERR_NONE) ∧
    ((while_loop (eval c) (exec_block b) 1000000 s).runs = 1000000 →
      (while_loop (eval c) (exec_block b) 1000000 s).st.err.kind = .ERR_NONE →
      (eval (.mk .N_WHILE op v c r b line col) s).2.err
        = { kind := .ERR_RUNTIME, line := line, col := col, msg := "While error".toList }) := by
  have hc : (evs c).eval = eval c := rfl
  have hb : (evs b).block = exec_block b := rfl
  generalize hw : while_loop (eval c) (exec_block b) 1000000 s = w
  have hle := while_loop_runs_le (eval c) (exec_block b) 1000000 s
  have hret := while_loop_returned_err (eval c) (exec_block b) 1000000 s
  have hex := while_loop_exhausted (eval c) (exec_block b) 1000000 s
  rw [hw] at hle hret hex
  have key : (eval (.mk .N_WHILE op v c r b line col) s).2
      = (if w.returned = true ∨ 0 < w.guard then w.st
         else runtime_error w.st line col "While error".toList) := by
    simp only [eval_mk, eval_node, h, hc, hb, hw]
    by_cases h1 : w.returned = true
    · simp [h1]
    · by_cases h2 : w.guard ≤ 0
      · have : ¬ 0 < w.guard := by omega
        simp [h1, h2, this]
      · have : 0 < w.guard := by omega
        simp [h1, h2, this]
  refine ⟨hle, key, ?_, ?_⟩
  · intro hr
    rw [key]
    by_cases h1 : w.returned = true
    · simp [h1, hret h1]
    · have h2 := hex hr (by simpa using h1)
      simp [h1, h2, runtime_error, set_error]
      split
      · simp
      · assumption
  · intro hr he
    rw [key]
    have h1 : w.returned = false := by
      by_contra hne
      exact hret (by simpa using hne) he
    have h2 := hex hr h1
    simp [h1, h2, runtime_error, set_error, he]

/-- C9 at `loop (1) { }`: the statement parses without error to a loop
node at line 1, column 1, and its evaluation from the initial state (a value
of the total function `eval`) records the runtime error "While error" at
that position. -/
theorem C9_loop_bounded_by_guard_witness :
    ∃ P,
      parse_statement 40
        (parser_init (lex_all "loop (1) \x7b \x7d".toList g_error_init).out g_error_init)
        = some (.mk .N_WHILE .OP_PLUS [] (int_lit "1".toList 1 7) .null
            (node_new .N_BLOCK 1 12) 1 1, P) ∧
      P.err.kind = .ERR_NONE ∧
      (eval (.mk .N_WHILE .OP_PLUS [] (int_lit "1".toList 1 7) .null (node_new .N_BLOCK 1 12) 1 1)
          (vm_init [])).2.err
        = { kind := .ERR_RUNTIME, line := 1, col := 1, msg := "While error".toList } :=
  ⟨_, rfl, by decide,
    (C9_loop_bounded_by_guard .OP_PLUS [] (int_lit "1".toList 1 7) .null
        (node_new .N_BLOCK 1 12) 1 1 (vm_init []) rfl).2.2.2
      (by rw [while_loop_const (eval (int_lit "1".toList 1 7))
            (exec_block (node_new .N_BLOCK 1 12)) (V_int 1) rfl eval_int_lit_one
            (fun _ _ => rfl) 1000000 (vm_init []) rfl])
      (by rw [while_loop_const (eval (int_lit "1".toList 1 7))
            (exec_block (node_new .N_BLOCK 1 12)) (V_int 1) rfl eval_int_lit_one
            (fun _ _ => rfl) 1000000 (vm_init []) rfl]; rfl)⟩

theorem wrap32_of_small (x : Int) (h0 : 0 ≤ x) (h1 : x < 2147483648) : wrap32 x = x := by
  unfold wrap32
  omega

theorem count_cond_eval (j : Nat) :
    eval count_cond (count_state j) = (V_int (b2i (decide (j < 999999))), count_state j) := by
  have h1 : atoi (strncpy ['9', '9', '9', '9', '9', '9'] 127) = 999999 := by decide
  have h2 : strcmp ['i'] (strncpy ['i'] 127) = 0 := by decide
  simp [count_cond, count_state, make_binary, var_ref, int_lit, node_new, Node.set_value,
    Node.set_op, Node.set_left, Node.set_right, eval_mk, eval_node, evs_eval, g_error_init,
    var_find, var_find_from, var_load, h1, h2, cmp_any, V_int]

theorem count_body_exec_raw (j : Nat) :
    exec_block count_body (count_state j)
      = { vars := [{ name := "i".toList, val := V_int (wrap32 ((j : Int) + 1)) }],
          err := g_error_init, out := [], inp := [] } := rfl

theorem count_body_exec (j : Nat) (hj : j < 999999) :
    exec_block count_body (count_state j) = count_state (j + 1) := by
  rw [count_body_exec_raw, wrap32_of_small _ (by omega) (by omega)]
  unfold count_state
  push_cast
  rfl

/-- The counting loop started with `i = j` and `m` increments to go, on a
guard of `g + m + 1`: the body runs `m` times and the loop leaves through
`break` with `guard = g`. -/
theorem count_loop (m : Nat) :
    ∀ j g : Nat, j + m = 999999 →
      while_loop (eval count_cond) (exec_block count_body) (g + m + 1) (count_state j)
        = { st := count_state 999999, guard := g, returned := false, runs := m } := by
  induction m with
  | zero =>
    intro j g hj
    have hj2 : j = 999999 := by omega
    subst hj2
    have hne0 : (count_state 999999).err.kind = .ERR_NONE := rfl
    simp only [Nat.add_zero, while_loop, count_cond_eval, hne0]
    simp [truthy, V_int, b2i]
  | succ m ih =>
    intro j g hj
    have hlt : j < 999999 := by omega
    have e : g + (m + 1) + 1 = (g + m + 1) + 1 := by omega
    rw [e]
    have hi := ih (j + 1) g (by omega)
    have hne : (count_state (j + 1)).err.kind = .ERR_NONE := rfl
    have hne0 : (count_state j).err.kind = .ERR_NONE := rfl
    have ht : truthy (V_int (b2i (decide (j < 999999)))) = true := by
      simp [hlt, truthy, V_int, b2i]
    rw [while_loop]
    simp only [count_cond_eval, count_body_exec j hlt, hi, hne, hne0, ht]
    simp

theorem count_loop_result :
    while_loop (eval count_cond) (exec_block count_body) 1000000 (count_state 0)
      = { st := count_state 999999, guard := 0, returned := false, runs := 999999 } :=
  count_loop 999999 0 0 rfl

/-- C10 (defect in the code): in `i = 0; loop (i < 999999) { i = i + 1; }`
the condition and the body raise no error and the condition becomes falsy
after 999,999 body executions, fewer than 1,000,000; the loop leaves
through `break` with `i = 999999`, yet `eval` records the runtime error
"While error" at the loop's position: the test `guard <= 0` after the
loop also fires when the loop was left with `guard = 0`. -/
theorem C10_loop_error_after_999999_iterations :
    ∃ n1 P1 P2,
      parse_statement 40
        (parser_init
          (lex_all "i = 0; loop (i < 999999) \x7b i = i + 1; \x7d".toList g_error_init).out
          g_error_init)
        = some (n1, P1) ∧
      parse_statement 40 P1
        = some (.mk .N_WHILE .OP_PLUS [] count_cond .null count_body 1 8, P2) ∧
      P2.err.kind = .ERR_NONE ∧ (P_peek P2).type = .T_EOF ∧
      (eval n1 (vm_init [])).2 = count_state 0 ∧
      (while_loop (eval count_cond) (exec_block count_body) 1000000 (count_state 0)).runs
        = 999999 ∧
      (while_loop (eval count_cond) (exec_block count_body) 1000000 (count_state 0)).returned
        = false ∧
      (while_loop (eval count_cond) (exec_block count_body) 1000000 (count_state 0)).st
        = count_state 999999 ∧
      eval count_cond (count_state 999999) = (V_int 0, count_state 999999) ∧
      (eval (.mk .N_WHILE .OP_PLUS [] count_cond .null count_body 1 8) (count_state 0)).2
        = runtime_error (count_state 999999) 1 8 "While error".toList ∧
      (eval (.mk .N_WHILE .OP_PLUS [] count_cond .null count_body 1 8) (count_state 0)).2.err
        = { kind := .ERR_RUNTIME, line := 1, col := 8, msg := "While error".toList } := by
  have hw := count_loop_result
  have hev : (eval (.mk .N_WHILE .OP_PLUS [] count_cond .null count_body 1 8)
      (count_state 0)).2 = runtime_error (count_state 999999) 1 8 "While error".toList := by
    have hne0 : (count_state 0).err.kind = .ERR_NONE := rfl
    have hc : (evs count_cond).eval = eval count_cond := rfl
    have hb : (evs count_body).block = exec_block count_body := rfl
    simp only [eval_mk, eval_node, hc, hb, hw, hne0]
    simp
  refine ⟨_, _, _, rfl, rfl, by decide, by decide, by decide, ?_, ?_, ?_, ?_, hev, ?_⟩
  · rw [hw]
  · rw [hw]
  · rw [hw]
  · rw [count_cond_eval]; rfl
  · rw [hev]; rfl

/-! ## C11, C12: the polymorphic `+` -/

theorem fmt_d_eq_toString (x : Int) : fmt_d x = (toString x).toList := by
  cases x with
  | ofNat m => rfl
  | negSucc m =>
    have h : Int.negSucc m < 0 := Int.negSucc_lt_zero m
    simp only [fmt_d, h, if_true]
    rfl

theorem add_text_eq (v : Value) : add_text v = operand_text v := by
  simp [add_text, operand_text, fmt_d_eq_toString]

theorem take_buf_append (A B : CStr) :
    (A.take 1023 ++ B.take (1023 - (A.take 1023).length)).take 511 = (A ++ B).take 511 := by
  rw [List.take_append_eq_append_take, List.take_append_eq_append_take, List.take_take,
    List.take_take, List.length_take]
  congr 2
  omega

theorem add_any_str (a b : Value) (h : a.type = .V_STRING ∨ b.type = .V_STRING) :
    add_any a b = V_str (operand_text a ++ operand_text b) := by
  have hn : ¬ (a.type = .V_INT ∧ b.type = .V_INT) := by
    rcases h with h | h <;> simp [h]
  simp only [add_any, hn, if_false, V_str, strncpy, add_text_eq, take_buf_append]

theorem take_511_left (A B C : CStr) :
    ((A ++ B).take 511 ++ C).take 511 = (A ++ B ++ C).take 511 := by
  rw [List.take_append_eq_append_take, List.take_take, List.length_take,
    @List.take_append_eq_append_take _ (A ++ B) C 511]
  simp only [min_self]
  by_cases h : 511 ≤ (A ++ B).length
  · have e1 : 511 - min 511 (A ++ B).length = 0 := by omega
    have e2 : 511 - (A ++ B).length = 0 := by omega
    rw [e1, e2]
  · have e1 : 511 - min 511 (A ++ B).length = 511 - (A ++ B).length := by omega
    rw [e1]

theorem take_511_right (A B C : CStr) :
    (A ++ (B ++ C).take 511).take 511 = (A ++ B ++ C).take 511 := by
  rw [List.take_append_eq_append_take, List.take_take, List.append_assoc,
    @List.take_append_eq_append_take _ A (B ++ C) 511]
  congr 2
  omega

theorem wrap32_of_int_range (x : Int) (h0 : -2147483648 ≤ x) (h1 : x < 2147483648) :
    wrap32 x = x := by
  unfold wrap32
  omega

/-- C11: binary `+` whose operands evaluate without error yields
`add_any` of the two values in the state the operands left, so it records
no error; on two integers `add_any` is the 32-bit sum (the exact sum when
it fits `int`); when at least one operand is a string it is the string
value holding the text of the left operand followed by the text of the
right one, an integer operand in ordinary signed decimal, cut to 511
characters. -/
theorem C11_add_polymorphic (L R x : Node) (v : CStr) (line col : Nat) (s : VM) (a b : Value)
    (h : s.err.kind = .ERR_NONE)
    (hL : (eval L s).2.err.kind = .ERR_NONE)
    (hR : (eval R (eval L s).2).2.err.kind = .ERR_NONE) :
    eval (.mk .N_BINARY .OP_PLUS v L R x line col) s
      = (add_any (eval L s).1 (eval R (eval L s).2).1, (eval R (eval L s).2).2) ∧
    (eval (.mk .N_BINARY .OP_PLUS v L R x line col) s).2.err.kind = .ERR_NONE ∧
    (a.type = .V_INT ∧ b.type = .V_INT → add_any a b = V_int (wrap32 (a.i + b.i))) ∧
    (a.type = .V_INT ∧ b.type = .V_INT ∧ -2147483648 ≤ a.i + b.i ∧ a.i + b.i < 2147483648 →
      add_any a b = V_int (a.i + b.i)) ∧
    (a.type = .V_STRING ∨ b.type = .V_STRING →
      add_any a b
        = { type := .V_STRING, i := 0, s := (operand_text a ++ operand_text b).take 511 }) := by
  have key : eval (.mk .N_BINARY .OP_PLUS v L R x line col) s
      = (add_any (eval L s).1 (eval R (eval L s).2).1, (eval R (eval L s).2).2) := by
    simp [eval_mk, eval_node, h, evs_eval, hL, hR]
  refine ⟨key, by rw [key]; exact hR, ?_, ?_, ?_⟩
  · intro hi
    simp [add_any, hi]
  · rintro ⟨h1, h2, h3, h4⟩
    simp [add_any, h1, h2, wrap32_of_int_range _ h3 h4]
  · intro hs
    rw [add_any_str a b hs]
    rfl

/-- C11 at `a = "x" + 1;`: the statement parses without error, its right-hand
side evaluates to the string `x1`, and evaluating the statement from the
initial state leaves the single variable `a` holding the string `x1` and
no error; also `2 + 3` is 5 and `-4 + "y"` is `-4y`. -/
theorem C11_add_polymorphic_witness :
    ∃ n P,
      parse_statement 40
        (parser_init (lex_all "a = \"x\" + 1;".toList g_error_init).out g_error_init)
        = some (.mk .N_ASSIGN .OP_PLUS "a".toList n .null .null 1 1, P) ∧
      P.err.kind = .ERR_NONE ∧
      n = .mk .N_BINARY .OP_PLUS []
            (.mk .N_STRING .OP_PLUS "x".toList .null .null .null 1 5)
            (int_lit "1".toList 1 11) .null 1 9 ∧
      eval n (vm_init []) = (V_str "x1".toList, vm_init []) ∧
      (eval (.mk .N_ASSIGN .OP_PLUS "a".toList n .null .null 1 1) (vm_init [])).2
        = { vars := [{ name := "a".toList, val := V_str "x1".toList }],
            err := g_error_init, out := [], inp := [] } ∧
      add_any (V_int 2) (V_int 3) = V_int 5 ∧
      add_any (V_int (-4)) (V_str "y".toList) = V_str "-4y".toList :=
  ⟨_, _, rfl, by decide, rfl,
    ((C11_add_polymorphic (.mk .N_STRING .OP_PLUS "x".toList .null .null .null 1 5)
        (int_lit "1".toList 1 11) .null [] 1 9 (vm_init []) (V_str "x".toList) (V_int 1)
        rfl rfl rfl).1).trans
      (congrArg (fun t => (t, vm_init []))
        ((C11_add_polymorphic .null .null .null [] 0 0 (vm_init []) (V_str "x".toList) (V_int 1)
          rfl rfl rfl).2.2.2.2 (Or.inl rfl))),
    by decide,
    (C11_add_polymorphic .null .null .null [] 0 0 (vm_init []) (V_int 2) (V_int 3)
      rfl rfl rfl).2.2.2.1 ⟨rfl, rfl, by decide, by decide⟩,
    (C11_add_polymorphic .null .null .null [] 0 0 (vm_init []) (V_int (-4)) (V_str "y".toList)
      rfl rfl rfl).2.2.2.2 (Or.inr rfl)⟩

/-- C12: for all string values `a`, `b`, `c`, `(a + b) + c` and
`a + (b + c)` are the same value, namely the string holding the first 511
characters of the three texts in order; the 511-character cut of `V_str`
is part of both sides. -/
theorem C12_concat_associative (a b c : Value)
    (ha : a.type = .V_STRING) (hb : b.type = .V_STRING) (hc : c.type = .V_STRING) :
    add_any (add_any a b) c = add_any a (add_any b c) ∧
    add_any (add_any a b) c
      = { type := .V_STRING, i := 0, s := (a.s ++ b.s ++ c.s).take 511 } := by
  have hab : add_any a b = V_str (a.s ++ b.s) := by
    rw [add_any_str a b (Or.inl ha)]; simp [operand_text, ha, hb]
  have hbc : add_any b c = V_str (b.s ++ c.s) := by
    rw [add_any_str b c (Or.inl hb)]; simp [operand_text, hb, hc]
  have h1 : add_any (V_str (a.s ++ b.s)) c = V_str ((a.s ++ b.s).take 511 ++ c.s) := by
    rw [add_any_str _ c (Or.inr hc)]; simp [operand_text, hc, V_str, strncpy]
  have h2 : add_any a (V_str (b.s ++ c.s)) = V_str (a.s ++ (b.s ++ c.s).take 511) := by
    rw [add_any_str a _ (Or.inl ha)]; simp [operand_text, ha, V_str, strncpy]
  rw [hab, hbc, h1, h2]
  simp only [V_str, strncpy, take_511_left, take_511_right, and_self]

/-- C12 at `("a" + "b") + "c"` and `"a" + ("b" + "c")`: both parse and
evaluate to the string `abc`; and at operands of 300 + 300 + 1 characters,
where the cut applies, the two groupings agree as well. -/
theorem C12_concat_associative_witness :
    ∃ l r P1 P2,
      parse_expression 40
        (parser_init (lex_all "(\"a\" + \"b\") + \"c\"".toList g_error_init).out g_error_init)
        = some (l, P1) ∧
      parse_expression 40
        (parser_init (lex_all "\"a\" + (\"b\" + \"c\")".toList g_error_init).out g_error_init)
        = some (r, P2) ∧
      eval l (vm_init []) = (V_str "abc".toList, vm_init []) ∧
      eval r (vm_init []) = (V_str "abc".toList, vm_init []) ∧
      add_any (add_any (V_str "a".toList) (V_str "b".toList)) (V_str "c".toList)
        = add_any (V_str "a".toList) (add_any (V_str "b".toList) (V_str "c".toList)) ∧
      add_any (add_any (V_str (List.replicate 300 'a')) (V_str (List.replicate 300 'b')))
          (V_str "c".toList)
        = add_any (V_str (List.replicate 300 'a'))
            (add_any (V_str (List.replicate 300 'b')) (V_str "c".toList)) :=
  ⟨_, _, _, _, rfl, rfl, by decide, by decide,
    (C12_concat_associative (V_str "a".toList) (V_str "b".toList) (V_str "c".toList)
      rfl rfl rfl).1,
    (C12_concat_associative (V_str (List.replicate 300 'a')) (V_str (List.replicate 300 'b'))
      (V_str "c".toList) rfl rfl rfl).1⟩

/-! ## Lexer lemmas -/

theorem src_at_ne_nul_lt (L : Lexer) (k : Nat) (h : src_at L k ≠ NUL) : k < L.src.length := by
  by_contra hc
  exact h (List.getD_eq_default _ _ (by omega))

theorem lex_advance_src (L : Lexer) : (lex_advance L).2.src = L.src := by
  by_cases h : src_at L L.i = '\n' <;> simp [lex_advance, h]

theorem lex_advance_out (L : Lexer) : (lex_advance L).2.out = L.out := by
  by_cases h : src_at L L.i = '\n' <;> simp [lex_advance, h]

theorem lex_advance_err (L : Lexer) : (lex_advance L).2.err = L.err := by
  by_cases h : src_at L L.i = '\n' <;> simp [lex_advance, h]

theorem lex_advance_i (L : Lexer) : (lex_advance L).2.i = L.i + 1 := by
  by_cases h : src_at L L.i = '\n' <;> simp [lex_advance, h]

theorem lex_advance_fst (L : Lexer) : (lex_advance L).1 = lex_peek L := by
  by_cases h : src_at L L.i = '\n' <;> simp [lex_advance, lex_peek, h]

theorem Scan.refl (L : Lexer) : Scan L L := ⟨rfl, rfl, rfl, le_refl _, fun h => h⟩

theorem Scan.trans {L L1 L2 : Lexer} (a : Scan L L1) (b : Scan L1 L2) : Scan L L2 :=
  ⟨b.src.trans a.src, b.out.trans a.out, b.err.trans a.err, le_trans a.mono b.mono,
    fun h => by
      have := b.bound (by rw [a.src]; exact a.bound h)
      rw [a.src] at this
      exact this⟩

theorem Scan.advance (L : Lexer) (h : lex_peek L ≠ NUL) : Scan L (lex_advance L).2 :=
  ⟨lex_advance_src L, lex_advance_out L, lex_advance_err L, by rw [lex_advance_i]; omega,
    fun _ => by
      have := src_at_ne_nul_lt L L.i h
      rw [lex_advance_i]; omega⟩

theorem isdigit_ne_nul (c : Char) (h : isdigit c = true) : c ≠ NUL := by
  intro e; subst e; exact absurd h (by decide)

theorem is_ident_part_ne_nul (c : Char) (h : is_ident_part c = true) : c ≠ NUL := by
  intro e; subst e; exact absurd h (by decide)

theorem lex_digits_scan (fuel : Nat) (L : Lexer) (buf : CStr) :
    Scan L (lex_digits fuel L buf).1 := by
  induction fuel generalizing L buf with
  | zero => exact Scan.refl L
  | succ f ih =>
    unfold lex_digits
    by_cases h : isdigit (lex_peek L) = true
    · have ha := Scan.advance L (isdigit_ne_nul _ h)
      simp only [h, if_true]
      split
      · exact ha.trans (ih _ _)
      · exact ha.trans (ih _ _)
    · simp only [h]
      exact Scan.refl L

theorem lex_digits_progress (fuel : Nat) (L : Lexer) (buf : CStr)
    (h : isdigit (lex_peek L) = true) : L.i < (lex_digits (fuel + 1) L buf).1.i := by
  unfold lex_digits
  simp only [h, if_true]
  split
  · have := (lex_digits_scan fuel (lex_advance L).2 (buf ++ [(lex_advance L).1])).mono
    rw [lex_advance_i] at this; omega
  · have := (lex_digits_scan fuel (lex_advance L).2 buf).mono
    rw [lex_advance_i] at this; omega

theorem lex_ident_scan (fuel : Nat) (L : Lexer) (buf : CStr) :
    Scan L (lex_ident fuel L buf).1 := by
  induction fuel generalizing L buf with
  | zero => exact Scan.refl L
  | succ f ih =>
    unfold lex_ident
    by_cases h : is_ident_part (lex_peek L) = true
    · have ha := Scan.advance L (is_ident_part_ne_nul _ h)
      simp only [h, if_true]
      split
      · exact ha.trans (ih _ _)
      · exact ha.trans (ih _ _)
    · simp only [h]
      exact Scan.refl L

theorem lex_ident_progress (fuel : Nat) (L : Lexer) (buf : CStr)
    (h : is_ident_part (lex_peek L) = true) : L.i < (lex_ident (fuel + 1) L buf).1.i := by
  unfold lex_ident
  simp only [h, if_true]
  split
  · have := (lex_ident_scan fuel (lex_advance L).2 (buf ++ [(lex_advance L).1])).mono
    rw [lex_advance_i] at this; omega
  · have := (lex_ident_scan fuel (lex_advance L).2 buf).mono
    rw [lex_advance_i] at this; omega

theorem lex_string_body_scan (fuel : Nat) (L : Lexer) (buf : CStr) (esc : Bool) :
    Scan L (lex_string_body fuel L buf esc).1 := by
  induction fuel generalizing L buf esc with
  | zero => exact Scan.refl L
  | succ f ih =>
    unfold lex_string_body
    by_cases h : lex_peek L = NUL
    · simp only [h, if_true]
      exact Scan.refl L
    · have ha := Scan.advance L h
      simp only [h, if_false]
      split
      · exact ha
      · split
        · exact ha.trans (ih _ _ _)
        · exact ha.trans (ih _ _ _)

theorem set_error_kind (g : Error) (k : ErrKind) (line col : Nat) (msg : CStr)
    (hg : g.kind = .ERR_NONE) : (set_error g k line col msg).kind = k := by
  simp [set_error, hg]

theorem emit_step (L L1 : Lexer) (t : TokenType) (lex : CStr) (line col : Nat)
    (hs : Scan L L1) (hi : L.i < L1.i) (hb : L.i < L.src.length → L1.i ≤ L.src.length)
    (hlt : L.i < L.src.length) (hn : NoEof L.out) (ht : t ≠ .T_EOF) :
    Step L (emit L1 t lex line col) := by
  unfold emit
  split
  · exact ⟨hs.src, by rw [show ({ L1 with err := _ } : Lexer).out = L1.out from rfl, hs.out]; exact hn,
      fun _ => ⟨hi, hb hlt⟩⟩
  · refine ⟨hs.src, ?_, fun _ => ⟨hi, hb hlt⟩⟩
    intro tk htk
    simp only [List.mem_append, List.mem_singleton] at htk
    rcases htk with h | h
    · rw [hs.out] at h; exact hn tk h
    · rw [h]; exact ht

theorem err_step (L L1 : Lexer) (line col : Nat) (msg : CStr)
    (hs : Scan L L1) (he : L.err.kind = .ERR_NONE) (hn : NoEof L.out) :
    Step L { L1 with err := set_error L1.err .ERR_LEX line col msg } := by
  refine ⟨hs.src, ?_, ?_⟩
  · rw [show ({ L1 with err := _ } : Lexer).out = L1.out from rfl, hs.out]; exact hn
  · intro h
    have : (set_error L1.err .ERR_LEX line col msg).kind = .ERR_LEX :=
      set_error_kind _ _ _ _ _ (by rw [hs.err]; exact he)
    simp only [this] at h
    exact absurd h (by decide)

theorem lex_match_scan (L : Lexer) (e : Char) (he : e ≠ NUL) : Scan L (lex_match L e).2 := by
  unfold lex_match
  split
  · rename_i h
    exact Scan.advance L (by rw [h]; exact he)
  · exact Scan.refl L

theorem lex_operator_step (L : Lexer) (c : Char) (line col : Nat)
    (hc : lex_peek L = c) (hnul : c ≠ NUL) (he : L.err.kind = .ERR_NONE) (hn : NoEof L.out) :
    Step L (lex_operator L c line col) := by
  have hlt : L.i < L.src.length := src_at_ne_nul_lt L L.i (by rw [← hc] at hnul; exact hnul)
  have h1 : Scan L (lex_advance L).2 := Scan.advance L (by rw [hc]; exact hnul)
  have hi1 : L.i < (lex_advance L).2.i := by rw [lex_advance_i]; omega
  have hm : ∀ e : Char, e ≠ NUL → Scan L (lex_match (lex_advance L).2 e).2 :=
    fun e hne => h1.trans (lex_match_scan _ e hne)
  have him : ∀ e : Char, e ≠ NUL → L.i < (lex_match (lex_advance L).2 e).2.i := fun e hne => by
    have := (lex_match_scan (lex_advance L).2 e hne).mono
    omega
  have E1 : ∀ (t : TokenType) (lex : CStr), t ≠ .T_EOF →
      Step L (emit (lex_advance L).2 t lex line col) :=
    fun t lex ht => emit_step L _ t lex line col h1 hi1 (fun h => h1.bound (le_of_lt h)) hlt hn ht
  have E2 : ∀ (e : Char) (t : TokenType) (lex : CStr), e ≠ NUL → t ≠ .T_EOF →
      Step L (emit (lex_match (lex_advance L).2 e).2 t lex line col) :=
    fun e t lex hne ht =>
      emit_step L _ t lex line col (hm e hne) (him e hne) (fun h => (hm e hne).bound (le_of_lt h))
        hlt hn ht
  have E3 : ∀ (e : Char) (msg : CStr), e ≠ NUL →
      Step L { (lex_match (lex_advance L).2 e).2 with
        err := set_error (lex_match (lex_advance L).2 e).2.err .ERR_LEX line col msg } :=
    fun e msg hne => err_step L _ line col msg (hm e hne) he hn
  unfold lex_operator
  simp only []
  by_cases h1 : c = '+'
  · rw [if_pos h1]; exact E1 _ _ (by decide)
  rw [if_neg h1]
  by_cases h2 : c = '-'
  · rw [if_pos h2]; exact E1 _ _ (by decide)
  rw [if_neg h2]
  by_cases h3 : c = '*'
  · rw [if_pos h3]; exact E1 _ _ (by decide)
  rw [if_neg h3]
  by_cases h4 : c = '/'
  · rw [if_pos h4]; exact E1 _ _ (by decide)
  rw [if_neg h4]
  by_cases h5 : c = '!'
  · rw [if_pos h5]
    split
    · exact E2 _ _ _ (by decide) (by decide)
    · exact E2 _ _ _ (by decide) (by decide)
  rw [if_neg h5]
  by_cases h6 : c = '='
  · rw [if_pos h6]
    split
    · exact E2 _ _ _ (by decide) (by decide)
    · exact E2 _ _ _ (by decide) (by decide)
  rw [if_neg h6]
  by_cases h7 : c = '<'
  · rw [if_pos h7]
    split
    · exact E2 _ _ _ (by decide) (by decide)
    · exact E2 _ _ _ (by decide) (by decide)
  rw [if_neg h7]
  by_cases h8 : c = '>'
  · rw [if_pos h8]
    split
    · exact E2 _ _ _ (by decide) (by decide)
    · exact E2 _ _ _ (by decide) (by decide)
  rw [if_neg h8]
  by_cases h9 : c = '&'
  · rw [if_pos h9]
    split
    · exact E2 _ _ _ (by decide) (by decide)
    · exact E3 _ _ (by decide)
  rw [if_neg h9]
  by_cases h10 : c = '|'
  · rw [if_pos h10]
    split
    · exact E2 _ _ _ (by decide) (by decide)
    · exact E3 _ _ (by decide)
  rw [if_neg h10]
  by_cases h11 : c = '('
  · rw [if_pos h11]; exact E1 _ _ (by decide)
  rw [if_neg h11]
  by_cases h12 : c = ')'
  · rw [if_pos h12]; exact E1 _ _ (by decide)
  rw [if_neg h12]
  by_cases h13 : c = '\x7b'
  · rw [if_pos h13]; exact E1 _ _ (by decide)
  rw [if_neg h13]
  by_cases h14 : c = '\x7d'
  · rw [if_pos h14]; exact E1 _ _ (by decide)
  rw [if_neg h14]
  by_cases h15 : c = ';'
  · rw [if_pos h15]; exact E1 _ _ (by decide)
  rw [if_neg h15]
  by_cases h16 : c = ','
  · rw [if_pos h16]; exact E1 _ _ (by decide)
  rw [if_neg h16]
  exact err_step L L line col _ (Scan.refl L) he hn

theorem keyword_type_ne_eof (buf : CStr) : keyword_type buf ≠ .T_EOF := by
  unfold keyword_type
  split_ifs <;> decide

theorem ident_start_part (c : Char) (h : is_ident_start c = true) : is_ident_part c = true := by
  simp only [is_ident_start, is_ident_part, isalnum, Bool.or_eq_true, decide_eq_true_eq] at *
  rcases h with h | h
  · exact Or.inl (Or.inl h)
  · exact Or.inr h

theorem eofpost_of_err (L : Lexer) (he : L.err.kind ≠ .ERR_NONE) (hn : NoEof L.out) :
    EofPost L :=
  ⟨fun h => absurd h he, fun _ => hn⟩

theorem emit_eof_post (L : Lexer) (line col : Nat) (he : L.err.kind = .ERR_NONE)
    (hn : NoEof L.out) : EofPost (emit L .T_EOF [] line col) := by
  unfold emit
  split
  · refine eofpost_of_err _ ?_ hn
    have : (set_error L.err .ERR_LEX line col "token buffer overflow".toList).kind = .ERR_LEX :=
      set_error_kind _ _ _ _ _ he
    simp only [this]
    decide
  · exact ⟨fun _ => ⟨L.out, _, rfl, rfl, hn⟩, fun h => absurd he h⟩

theorem lex_loop_eof (fuel : Nat) :
    ∀ L : Lexer, L.err.kind = .ERR_NONE → L.i ≤ L.src.length → L.src.length - L.i < fuel →
      NoEof L.out → EofPost (lex_loop fuel L) := by
  induction fuel with
  | zero => intro L _ _ hf _; omega
  | succ f ih =>
    intro L he hi hf hn
    have cont : ∀ L2 : Lexer, Step L L2 →
        EofPost (if L2.err.kind ≠ .ERR_NONE then L2 else lex_loop f L2) := by
      intro L2 hs
      by_cases h2 : L2.err.kind = .ERR_NONE
      · rw [if_neg (not_not.mpr h2)]
        have ha := hs.adv h2
        exact ih L2 h2 (by rw [hs.src]; exact ha.2) (by rw [hs.src]; omega) hs.noeof
      · rw [if_pos h2]
        exact eofpost_of_err L2 h2 hs.noeof
    unfold lex_loop
    simp only []
    by_cases h0 : lex_peek L = NUL
    · rw [if_pos h0]
      exact emit_eof_post L _ _ he hn
    rw [if_neg h0]
    have hlt : L.i < L.src.length := src_at_ne_nul_lt L L.i h0
    have hlen : L.src.length = (L.src.length - 1) + 1 := by omega
    by_cases h1 : isspace (lex_peek L) = true
    · rw [if_pos h1]
      exact ih _ (by rw [lex_advance_err]; exact he)
        (by rw [lex_advance_i, lex_advance_src]; omega)
        (by rw [lex_advance_i, lex_advance_src]; omega)
        (by rw [lex_advance_out]; exact hn)
    rw [if_neg h1]
    by_cases h2 : isdigit (lex_peek L) = true
    · rw [if_pos h2]
      apply cont
      have hsc := lex_digits_scan L.src.length L []
      have hp : L.i < (lex_digits L.src.length L []).1.i := by
        rw [hlen]; exact lex_digits_progress _ L [] h2
      exact emit_step L _ _ _ _ _ hsc hp (fun h => hsc.bound (le_of_lt h)) hlt hn (by decide)
    rw [if_neg h2]
    by_cases h3 : is_ident_start (lex_peek L) = true
    · rw [if_pos h3]
      apply cont
      have hsc := lex_ident_scan L.src.length L []
      have hp : L.i < (lex_ident L.src.length L []).1.i := by
        rw [hlen]; exact lex_ident_progress _ L [] (ident_start_part _ h3)
      exact emit_step L _ _ _ _ _ hsc hp (fun h => hsc.bound (le_of_lt h)) hlt hn
        (keyword_type_ne_eof _)
    rw [if_neg h3]
    by_cases h4 : lex_peek L = '"'
    · rw [if_pos h4]
      have ha := Scan.advance L h0
      have hsc := ha.trans (lex_string_body_scan L.src.length (lex_advance L).2 [] false)
      have hp : L.i < (lex_string_body L.src.length (lex_advance L).2 [] false).1.i := by
        have := (lex_string_body_scan L.src.length (lex_advance L).2 [] false).mono
        rw [lex_advance_i] at this
        omega
      split
      · refine eofpost_of_err _ ?_ ?_
        · have : (set_error (lex_string_body L.src.length (lex_advance L).2 [] false).1.err
              .ERR_LEX L.line L.col "string no closure".toList).kind = .ERR_LEX :=
            set_error_kind _ _ _ _ _ (by rw [hsc.err]; exact he)
          simp only [this]
          decide
        · rw [show ({ (lex_string_body L.src.length (lex_advance L).2 [] false).1 with
              err := _ } : Lexer).out
              = (lex_string_body L.src.length (lex_advance L).2 [] false).1.out from rfl,
            hsc.out]
          exact hn
      · apply cont
        exact emit_step L _ _ _ _ _ hsc hp (fun h => hsc.bound (le_of_lt h)) hlt hn (by decide)
    rw [if_neg h4]
    apply cont
    exact lex_operator_step L _ _ _ rfl h0 he hn

theorem drop_cons_getD {α : Type} (d : α) :
    ∀ (l : List α) (i : Nat) (c : α) (cs : List α),
      l.drop i = c :: cs → l.getD i d = c ∧ l.drop (i + 1) = cs := by
  intro l
  induction l with
  | nil => intro i c cs h; simp at h
  | cons x xs ih =>
    intro i c cs h
    cases i with
    | zero =>
      simp only [List.drop_zero, List.cons.injEq] at h
      exact ⟨by simp [h.1], by simp [h.2]⟩
    | succ j =>
      simp only [List.drop_succ_cons] at h
      have := ih j c cs h
      exact ⟨by simpa using this.1, by simpa using this.2⟩

theorem peek_of_drop_cons (L : Lexer) (c : Char) (cs : CStr) (h : L.src.drop L.i = c :: cs) :
    lex_peek L = c := (drop_cons_getD NUL L.src L.i c cs h).1

theorem peek_of_drop_nil (L : Lexer) (h : L.src.drop L.i = []) : lex_peek L = NUL := by
  unfold lex_peek src_at
  exact List.getD_eq_default _ _ (List.drop_eq_nil_iff.mp h)

theorem peek_of_drop (L : Lexer) (rest : CStr) (h : L.src.drop L.i = rest) :
    lex_peek L = rest.headD NUL := by
  cases rest with
  | nil => exact peek_of_drop_nil L h
  | cons c cs => exact peek_of_drop_cons L c cs h

theorem lex_advance_of_ne_newline (L : Lexer) (h : lex_peek L ≠ '\n') :
    lex_advance L = (lex_peek L, { L with i := L.i + 1, col := L.col + 1 }) := by
  unfold lex_peek at h
  simp [lex_advance, lex_peek, h]

theorem isdigit_ne_newline (c : Char) (h : isdigit c = true) : c ≠ '\n' := by
  intro e; subst e; exact absurd h (by decide)

theorem lex_digits_run (ds : CStr) :
    ∀ (fuel : Nat) (L : Lexer) (buf rest : CStr),
      L.src.drop L.i = ds ++ rest → (∀ c ∈ ds, isdigit c = true) →
      isdigit (rest.headD NUL) = false → ds.length ≤ fuel →
      buf.length + ds.length ≤ 127 →
      lex_digits fuel L buf
        = ({ L with i := L.i + ds.length, col := L.col + ds.length }, buf ++ ds) := by
  induction ds with
  | nil =>
    intro fuel L buf rest hd _ hr _ _
    have hp : isdigit (lex_peek L) = false := by
      rw [peek_of_drop L rest (by simpa using hd)]; exact hr
    cases fuel with
    | zero => simp [lex_digits]
    | succ f => simp [lex_digits, hp]
  | cons d ds ih =>
    intro fuel L buf rest hd hall hr hf hb
    cases fuel with
    | zero => simp at hf
    | succ f =>
      have hdd : isdigit d = true := hall d (List.mem_cons_self _ _)
      have hp : lex_peek L = d := peek_of_drop_cons L d (ds ++ rest) (by simpa using hd)
      have hadv := lex_advance_of_ne_newline L (by rw [hp]; exact isdigit_ne_newline d hdd)
      have hlen : buf.length < MAX_TOKEN_LENGTH - 1 := by
        simp only [List.length_cons] at hb
        show buf.length < 127
        omega
      rw [lex_digits, hp, hdd, if_pos rfl, hadv, hp]
      simp only []
      rw [if_pos hlen]
      have hd2 : ({ L with i := L.i + 1, col := L.col + 1 } : Lexer).src.drop
          ({ L with i := L.i + 1, col := L.col + 1 } : Lexer).i = ds ++ rest :=
        (drop_cons_getD NUL L.src L.i d (ds ++ rest) (by simpa using hd)).2
      rw [ih f _ (buf ++ [d]) rest hd2 (fun c hc => hall c (List.mem_cons_of_mem _ hc)) hr
        (by simp only [List.length_cons] at hf; omega)
        (by simp only [List.length_cons, List.length_append, List.length_nil] at hb ⊢; omega)]
      simp only [List.length_cons, List.append_assoc, List.singleton_append, Prod.mk.injEq,
        and_true]
      congr 1 <;> omega

theorem isdigit_not_space (c : Char) (h : isdigit c = true) : isspace c = false := by
  simp only [isdigit, isspace, Bool.and_eq_true, decide_eq_true_eq, Bool.or_eq_false_iff,
    decide_eq_false_iff_not, Bool.and_eq_false_iff] at *
  omega

theorem dec_value_cons (c : Char) (cs : CStr) :
    dec_value (c :: cs) = (c.toNat - 48) * 10 ^ cs.length + dec_value cs := by
  simp only [dec_value, List.map_cons, List.reverse_cons, Nat.ofDigits_append,
    Nat.ofDigits_singleton, List.length_reverse, List.length_map]
  ring

theorem atoi_digits_eq (cs : CStr) :
    ∀ acc : Int, (∀ c ∈ cs, isdigit c = true) →
      atoi_digits cs acc = acc * 10 ^ cs.length + (dec_value cs : Int) := by
  induction cs with
  | nil => intro acc _; simp [atoi_digits, dec_value]
  | cons c cs ih =>
    intro acc hall
    have hc : isdigit c = true := hall c (List.mem_cons_self _ _)
    rw [atoi_digits, if_pos hc, ih _ (fun x hx => hall x (List.mem_cons_of_mem _ hx)),
      dec_value_cons]
    push_cast
    simp only [List.length_cons]
    ring

theorem atoi_of_digits (ds : CStr) (hne : ds ≠ []) (hall : ∀ c ∈ ds, isdigit c = true)
    (hmax : (dec_value ds : Int) ≤ 9223372036854775807) :
    atoi ds = wrap32 (dec_value ds) := by
  cases ds with
  | nil => exact absurd rfl hne
  | cons d ds =>
    have hd : isdigit d = true := hall d (List.mem_cons_self _ _)
    have hsp := isdigit_not_space d hd
    have h1 : d ≠ '-' := by intro e; subst e; exact absurd hd (by decide)
    have h2 : d ≠ '+' := by intro e; subst e; exact absurd hd (by decide)
    have hdw : List.dropWhile isspace (d :: ds) = d :: ds := by
      simp [List.dropWhile, hsp]
    unfold atoi
    rw [hdw]
    split
    · rename_i r heq
      simp only [List.cons.injEq] at heq
      exact absurd heq.1 h1
    · rename_i r heq
      simp only [List.cons.injEq] at heq
      exact absurd heq.1 h2
    · rw [atoi_digits_eq _ 0 hall]
      have e : (0 : Int) * 10 ^ (d :: ds).length + (dec_value (d :: ds) : Int)
          = (dec_value (d :: ds) : Int) := by simp
      rw [e]
      unfold strtol_clamp
      rw [if_neg (by decide), if_neg (by omega)]

theorem lex_all_digits (ds : CStr) (g : Error) (hne : ds ≠ [])
    (hall : ∀ c ∈ ds, isdigit c = true) (hlen : ds.length ≤ 127) :
    lex_all ds g
      = { src := ds, i := ds.length, line := 1, col := 1 + ds.length,
          out := [{ type := .T_NUMBER, lexeme := ds, line := 1, col := 1 },
                  { type := .T_EOF, lexeme := [], line := 1, col := 1 + ds.length }],
          err := clear_error g } := by
  cases ds with
  | nil => exact absurd rfl hne
  | cons d ds' =>
    have hd : isdigit d = true := hall d (List.mem_cons_self _ _)
    have hsp := isdigit_not_space d hd
    have hnul : d ≠ NUL := isdigit_ne_nul d hd
    have hrun := lex_digits_run (d :: ds') (d :: ds').length
      ⟨d :: ds', 0, 1, 1, [], clear_error g⟩ [] []
      (by simp) hall (by decide) (le_refl _) (by simpa using hlen)
    have hp0 : lex_peek ⟨d :: ds', 0, 1, 1, [], clear_error g⟩ = d := rfl
    have hpe : ∀ (ln cl : Nat) (o : List Token) (e : Error),
        lex_peek ⟨d :: ds', (d :: ds').length, ln, cl, o, e⟩ = NUL :=
      fun ln cl o e => peek_of_drop_nil _ (by simp)
    have hk : (clear_error g).kind = .ERR_NONE := rfl
    have htk : strncpy (d :: ds') (MAX_TOKEN_LENGTH - 1) = d :: ds' := by
      show List.take 127 (d :: ds') = d :: ds'
      exact List.take_of_length_le hlen
    unfold lex_all
    rw [lex_loop, hp0]
    simp only [hnul, hsp, hd, if_true, if_false, Bool.false_eq_true]
    rw [hrun]
    simp only [List.nil_append, emit, List.length_nil, MAX_TOKENS, htk, hk, ne_eq,
      not_true_eq_false, if_false, ge_iff_le, Nat.le_zero_eq, OfNat.ofNat_ne_zero, zero_add]
    rw [show (d :: ds').length = ds'.length + 1 from rfl, lex_loop]
    have hpe2 := hpe 1 (1 + (ds'.length + 1))
      [{ type := .T_NUMBER, lexeme := d :: ds', line := 1, col := 1 }] (clear_error g)
    simp only [List.length_cons] at hpe2
    simp [hpe2, emit, MAX_TOKENS, strncpy]

theorem decode_lit_quote (rest : CStr) : decode_lit ('"' :: rest) = none := by
  cases rest <;> rfl

theorem decode_lit_bs_nil : decode_lit ['\\'] = none := rfl

theorem decode_lit_bs_cons (e : Char) (rest : CStr) :
    decode_lit ('\\' :: e :: rest) = (decode_lit rest).map (fun t => unescape e :: t) := rfl

theorem decode_lit_plain (c : Char) (rest : CStr) (hq : c ≠ '"') (hbs : c ≠ '\\') :
    decode_lit (c :: rest) = (decode_lit rest).map (fun t => c :: t) := by
  cases rest <;> simp [decode_lit, hq, hbs]

theorem advance_drop (L : Lexer) (c : Char) (cs : CStr) (h : L.src.drop L.i = c :: cs) :
    (lex_advance L).2.src.drop (lex_advance L).2.i = cs := by
  rw [lex_advance_src, lex_advance_i]
  exact (drop_cons_getD NUL L.src L.i c cs h).2

theorem sb_quote (f : Nat) (L : Lexer) (buf : CStr) (h : lex_peek L = '"') :
    lex_string_body (f + 1) L buf false = ((lex_advance L).2, buf) := by
  have hn : lex_peek L ≠ NUL := by rw [h]; decide
  rw [lex_string_body, if_neg hn]
  simp [lex_advance_fst, h]

theorem sb_backslash (f : Nat) (L : Lexer) (buf : CStr) (h : lex_peek L = '\\') :
    lex_string_body (f + 1) L buf false = lex_string_body f (lex_advance L).2 buf true := by
  have hn : lex_peek L ≠ NUL := by rw [h]; decide
  rw [lex_string_body, if_neg hn]
  simp [lex_advance_fst, h]

theorem sb_escaped (f : Nat) (L : Lexer) (buf : CStr) (e : Char) (h : lex_peek L = e)
    (hn : e ≠ NUL) (hb : buf.length < 511) :
    lex_string_body (f + 1) L buf true
      = lex_string_body f (lex_advance L).2 (buf ++ [unescape e]) false := by
  rw [lex_string_body, if_neg (by rw [h]; exact hn)]
  simp [lex_advance_fst, h, hb, unescape]

theorem sb_plain (f : Nat) (L : Lexer) (buf : CStr) (c : Char) (h : lex_peek L = c)
    (hn : c ≠ NUL) (hq : c ≠ '"') (hbs : c ≠ '\\') (hb : buf.length < 511) :
    lex_string_body (f + 1) L buf false
      = lex_string_body f (lex_advance L).2 (buf ++ [c]) false := by
  rw [lex_string_body, if_neg (by rw [h]; exact hn)]
  simp [lex_advance_fst, h, hb, hq, hbs]

theorem lex_string_body_run (n : Nat) :
    ∀ (raw : CStr), raw.length ≤ n →
    ∀ (fuel : Nat) (L : Lexer) (buf rest d : CStr),
      L.src.drop L.i = raw ++ '"' :: rest → decode_lit raw = some d → NUL ∉ raw →
      raw.length + 1 ≤ fuel → buf.length + d.length ≤ 511 →
      ∃ L1, lex_string_body fuel L buf false = (L1, buf ++ d) ∧ Scan L L1 ∧
        L1.i = L.i + raw.length + 1 ∧ src_at L1 (L1.i - 1) = '"' := by
  induction n with
  | zero =>
    intro raw hlen fuel L buf rest d hdrop hdec _ hf _
    have hraw : raw = [] := List.length_eq_zero.mp (by omega)
    subst hraw
    obtain ⟨f, rfl⟩ : ∃ f, fuel = f + 1 := ⟨fuel - 1, by simp at hf; omega⟩
    have hp : lex_peek L = '"' := peek_of_drop_cons L _ rest (by simpa using hdrop)
    simp only [decode_lit, Option.some.injEq] at hdec
    subst hdec
    refine ⟨(lex_advance L).2, by rw [sb_quote f L buf hp]; simp,
      Scan.advance L (by rw [hp]; decide), by rw [lex_advance_i]; simp, ?_⟩
    rw [lex_advance_i]
    show src_at (lex_advance L).2 L.i = '"'
    unfold src_at
    rw [lex_advance_src]
    exact hp
  | succ n ih =>
    intro raw hlen fuel L buf rest d hdrop hdec hnul hf hb
    cases raw with
    | nil => exact ih [] (by simp) fuel L buf rest d hdrop hdec hnul hf hb
    | cons c raw1 =>
      obtain ⟨f, rfl⟩ : ∃ f, fuel = f + 1 := ⟨fuel - 1, by simp at hf; omega⟩
      have hp : lex_peek L = c := peek_of_drop_cons L c _ (by simpa using hdrop)
      have hcn : c ≠ NUL := fun e => hnul (by rw [e]; exact List.mem_cons_self _ _)
      have hd1 := advance_drop L c (raw1 ++ '"' :: rest) (by simpa using hdrop)
      have hs1 := Scan.advance L (by rw [hp]; exact hcn)
      have hi1 := lex_advance_i L
      have hnul1 : NUL ∉ raw1 := fun h => hnul (List.mem_cons_of_mem _ h)
      simp only [List.length_cons] at hlen hf
      by_cases hq : c = '"'
      · subst hq
        rw [decode_lit_quote] at hdec
        exact absurd hdec (by simp)
      by_cases hbs : c = '\\'
      · subst hbs
        cases raw1 with
        | nil =>
          rw [decode_lit_bs_nil] at hdec
          exact absurd hdec (by simp)
        | cons e raw2 =>
          rw [decode_lit_bs_cons] at hdec
          simp only [Option.map_eq_some'] at hdec
          obtain ⟨d2, hdec2, hd⟩ := hdec
          subst hd
          simp only [List.length_cons] at hlen hf hb
          obtain ⟨f2, rfl⟩ : ∃ f2, f = f2 + 1 := ⟨f - 1, by omega⟩
          have hp2 : lex_peek (lex_advance L).2 = e :=
            peek_of_drop_cons _ e _ (by simpa using hd1)
          have hen : e ≠ NUL := fun h => hnul1 (by rw [h]; exact List.mem_cons_self _ _)
          have hd2 := advance_drop (lex_advance L).2 e (raw2 ++ '"' :: rest)
            (by simpa using hd1)
          have hs2 := Scan.advance (lex_advance L).2 (by rw [hp2]; exact hen)
          have hi2 := lex_advance_i (lex_advance L).2
          obtain ⟨L1, h1, h2, h3, h4⟩ := ih raw2 (by omega) f2 (lex_advance (lex_advance L).2).2
            (buf ++ [unescape e]) rest d2 hd2 hdec2
            (fun h => hnul1 (List.mem_cons_of_mem _ h)) (by omega)
            (by simp only [List.length_append, List.length_singleton]; omega)
          refine ⟨L1, ?_, (hs1.trans hs2).trans h2, ?_, h4⟩
          · rw [sb_backslash _ L buf hp, sb_escaped _ _ buf e hp2 hen (by omega), h1]
            simp
          · rw [h3, hi2, hi1]; simp only [List.length_cons]; omega
      · rw [decode_lit_plain c raw1 hq hbs] at hdec
        simp only [Option.map_eq_some'] at hdec
        obtain ⟨d1, hdec1, hd⟩ := hdec
        subst hd
        simp only [List.length_cons] at hb
        obtain ⟨L1, h1, h2, h3, h4⟩ := ih raw1 (by omega) f (lex_advance L).2
          (buf ++ [c]) rest d1 hd1 hdec1 hnul1 (by omega)
          (by simp only [List.length_append, List.length_singleton]; omega)
        refine ⟨L1, ?_, hs1.trans h2, ?_, h4⟩
        · rw [sb_plain _ L buf c hp hcn hq hbs (by omega), h1]
          simp
        · rw [h3, hi1]; simp only [List.length_cons]; omega

theorem lex_loop_string_step (fuel : Nat) (L : Lexer) (raw rest d : CStr)
    (hdrop : L.src.drop L.i = '"' :: raw ++ '"' :: rest)
    (hdec : decode_lit raw = some d) (hnul : NUL ∉ raw) (hlen : d.length ≤ 127)
    (he : L.err.kind = .ERR_NONE) (hout : L.out.length < MAX_TOKENS) :
    ∃ L1, lex_loop (fuel + 1) L = lex_loop fuel L1 ∧
      L1.out = L.out ++ [{ type := .T_STRING, lexeme := d, line := L.line, col := L.col }] ∧
      L1.i = L.i + raw.length + 2 ∧ L1.src = L.src ∧ L1.err = L.err := by
  have hp : lex_peek L = '"' := peek_of_drop_cons L _ _ (by simpa using hdrop)
  have hd1 := advance_drop L '"' (raw ++ '"' :: rest) (by simpa using hdrop)
  have hs1 := Scan.advance L (by rw [hp]; decide)
  have hsrc : raw.length + 1 ≤ L.src.length := by
    have := congrArg List.length hdrop
    simp only [List.length_drop, List.length_cons, List.length_append] at this
    omega
  obtain ⟨Lr, hr, hsc, hi, hq⟩ := lex_string_body_run raw.length raw (le_refl _) L.src.length
    (lex_advance L).2 [] rest d hd1 hdec hnul hsrc (by simp; omega)
  have hso := hs1.trans hsc
  have htk : strncpy d (MAX_TOKEN_LENGTH - 1) = d := by
    show List.take 127 d = d
    exact List.take_of_length_le hlen
  have hlt : ¬ (Lr.out.length ≥ MAX_TOKENS) := by rw [hso.out]; omega
  have hke : Lr.err.kind = .ERR_NONE := by rw [hso.err]; exact he
  refine ⟨{ Lr with out := Lr.out ++
      [{ type := .T_STRING, lexeme := d, line := L.line, col := L.col }] }, ?_, ?_, ?_, ?_, ?_⟩
  · rw [lex_loop]
    simp only [hp]
    rw [if_neg (by decide), if_neg (by decide), if_neg (by decide), if_neg (by decide)]
    simp only [if_true, hr, List.nil_append, hq, ne_eq, not_true_eq_false, if_false, emit, hlt,
      htk, hke]
  · show Lr.out ++ _ = _
    rw [hso.out]
  · show Lr.i = _
    rw [hi, lex_advance_i]; omega
  · exact hso.src
  · exact hso.err

theorem lex_all_string (raw d : CStr) (g : Error)
    (hdec : decode_lit raw = some d) (hnul : NUL ∉ raw) (hlen : d.length ≤ 127) :
    ∃ ln cl,
      (lex_all ('"' :: raw ++ ['"']) g).out
        = [{ type := .T_STRING, lexeme := d, line := 1, col := 1 },
           { type := .T_EOF, lexeme := [], line := ln, col := cl }] ∧
      (lex_all ('"' :: raw ++ ['"']) g).err.kind = .ERR_NONE := by
  obtain ⟨L1, h1, h2, h3, h4, h5⟩ := lex_loop_string_step (('"' :: raw ++ ['"']).length)
    ⟨'"' :: raw ++ ['"'], 0, 1, 1, [], clear_error g⟩ raw [] d (by simp) hdec hnul hlen rfl
    (by simp [MAX_TOKENS])
  have hpe : lex_peek L1 = NUL := by
    apply peek_of_drop_nil
    rw [h4, h3]
    simp
  have hk : L1.err.kind = .ERR_NONE := by rw [h5]; rfl
  have hol : ¬ (L1.out.length ≥ MAX_TOKENS) := by rw [h2]; simp [MAX_TOKENS]
  refine ⟨L1.line, L1.col, ?_⟩
  unfold lex_all
  rw [h1, show ('"' :: raw ++ ['"']).length = (raw ++ ['"']).length + 1 from rfl, lex_loop]
  simp only [hpe, if_true, emit, hol, if_false, h2, hk, List.nil_append, strncpy,
    List.take_nil, List.singleton_append, and_self]
  have hone : ¬ ([({ type := .T_STRING, lexeme := d, line := 1, col := 1 } : Token)].length
      ≥ MAX_TOKENS) := by simp [MAX_TOKENS]
  rw [if_neg hone]
  exact ⟨rfl, hk⟩

/-! ## C13: integer literals -/

/-- C13: for every non-empty string `ds` of at most 127 decimal digits whose
value `n` is at most 2147483647 (leading zeros allowed), `lex_all` on that
text records no error and gives exactly a number token with lexeme `ds`
at line 1, column 1 followed by the end-of-input token; `parse_primary`
turns the number token into the integer-literal node of `ds`; and
evaluating that node in a state with an empty error record yields the
integer `n` and leaves the state unchanged. -/
theorem C13_integer_literal (n : Nat) (ds : CStr) (g : Error) (s : VM)
    (hne : ds ≠ []) (hall : ∀ c ∈ ds, isdigit c = true) (hlen : ds.length ≤ 127)
    (hval : dec_value ds = n) (hn : n ≤ 2147483647) (hs : s.err.kind = .ERR_NONE) :
    (lex_all ds g).err.kind = .ERR_NONE ∧
    (lex_all ds g).out
      = [{ type := .T_NUMBER, lexeme := ds, line := 1, col := 1 },
         { type := .T_EOF, lexeme := [], line := 1, col := 1 + ds.length }] ∧
    parse_primary 1 (parser_init (lex_all ds g).out (lex_all ds g).err)
      = some (int_lit ds 1 1,
          { toks := (lex_all ds g).out, pos := 1, err := (lex_all ds g).err, oob := false }) ∧
    eval (int_lit ds 1 1) s = (V_int n, s) := by
  have hl := lex_all_digits ds g hne hall hlen
  have hat : atoi (strncpy ds 127) = n := by
    rw [show strncpy ds 127 = ds from List.take_of_length_le hlen,
      atoi_of_digits ds hne hall (by rw [hval]; omega), hval]
    unfold wrap32
    omega
  refine ⟨by rw [hl]; rfl, by rw [hl], ?_, ?_⟩
  · rw [hl]
    rfl
  · simp [int_lit, node_new, Node.set_value, eval_mk, eval_node, hs, hat]

/-- C13 at the spellings `007` of 7 and `2147483647` of the largest
`int`. -/
theorem C13_integer_literal_witness :
    (lex_all "007".toList g_error_init).out
      = [{ type := .T_NUMBER, lexeme := "007".toList, line := 1, col := 1 },
         { type := .T_EOF, lexeme := [], line := 1, col := 4 }] ∧
    eval (int_lit "007".toList 1 1) (vm_init []) = (V_int 7, vm_init []) ∧
    eval (int_lit "2147483647".toList 1 1) (vm_init []) = (V_int 2147483647, vm_init []) :=
  ⟨(C13_integer_literal 7 "007".toList g_error_init (vm_init []) (by decide) (by decide)
      (by decide) (by decide) (by decide) rfl).2.1,
   (C13_integer_literal 7 "007".toList g_error_init (vm_init []) (by decide) (by decide)
      (by decide) (by decide) (by decide) rfl).2.2.2,
   (C13_integer_literal 2147483647 "2147483647".toList g_error_init (vm_init []) (by decide)
      (by decide) (by decide) (by decide) (by decide) rfl).2.2.2⟩

/-! ## C14: the end-of-input token -/

/-- C14: for every source text and every prior content of the error record,
after `lex_all`: if no error is recorded the token vector is some tokens,
none of them end-of-input, followed by one end-of-input token; if an error
is recorded the token vector holds no end-of-input token. -/
theorem C14_eof_token_invariant (src : CStr) (g : Error) :
    ((lex_all src g).err.kind = .ERR_NONE →
      ∃ init tk, (lex_all src g).out = init ++ [tk] ∧ tk.type = .T_EOF ∧
        ∀ t ∈ init, t.type ≠ .T_EOF) ∧
    ((lex_all src g).err.kind ≠ .ERR_NONE → ∀ t ∈ (lex_all src g).out, t.type ≠ .T_EOF) := by
  unfold lex_all
  exact lex_loop_eof (src.length + 1) _ rfl (Nat.zero_le _) (by simp)
    (fun t ht => by simp at ht)

/-- C14 at `x = 3;` (no error: the vector ends with the only end-of-input
token) and at `x = |` (lexical error: no end-of-input token). -/
theorem C14_eof_token_invariant_witness :
    (∃ init tk, (lex_all "x = 3;".toList g_error_init).out = init ++ [tk] ∧
        tk.type = .T_EOF ∧ ∀ t ∈ init, t.type ≠ .T_EOF) ∧
    (∀ t ∈ (lex_all "x = |".toList g_error_init).out, t.type ≠ .T_EOF) :=
  ⟨(C14_eof_token_invariant "x = 3;".toList g_error_init).1 (by decide),
   (C14_eof_token_invariant "x = |".toList g_error_init).2 (by decide)⟩

/-! ## C15, C16: string literals -/

/-- C15 (defect in the code): the source text made of the single character
`"` opens a string literal that end of input leaves unclosed, yet `lex_all`
records no error and emits an empty string token; likewise in `x = "abc\"`
the only quote after the opening one is escaped, and `lex_all` records no
error and emits the string token `abc"`.  The test `L.src[L.i-1] != '"'`
after the loop looks at the last character consumed, which is then the
opening quote itself or the escaped quote.  An unclosed literal that does
not end in a quote, as in `x = "abc`, is reported at the opening quote. -/
theorem C15_unterminated_string_accepted :
    (lex_all "\"".toList g_error_init).err.kind = .ERR_NONE ∧
    (lex_all "\"".toList g_error_init).out
      = [{ type := .T_STRING, lexeme := [], line := 1, col := 1 },
         { type := .T_EOF, lexeme := [], line := 1, col := 2 }] ∧
    (lex_all "x = \"abc\\\"".toList g_error_init).err.kind = .ERR_NONE ∧
    (lex_all "x = \"abc\\\"".toList g_error_init).out
      = [ident_tok "x".toList 1 1,
         { type := .T_ASSIGN, lexeme := "=".toList, line := 1, col := 3 },
         { type := .T_STRING, lexeme := "abc\"".toList, line := 1, col := 5 },
         { type := .T_EOF, lexeme := [], line := 1, col := 11 }] ∧
    (lex_all "x = \"abc".toList g_error_init).err
      = { kind := .ERR_LEX, line := 1, col := 5, msg := "string no closure".toList } := by
  refine ⟨?_, ?_, ?_, ?_, ?_⟩ <;> decide

/-- C16: let `raw` be the text between the quotes of a closed string
literal (it decodes to `d` and holds no NUL) with `d` of at most 127
characters.  Wherever the main loop of the lexer stands at the opening
quote of such a literal, with no error recorded and room in the token
vector, one iteration consumes the literal up to its closing quote and
stores exactly one more token: a string token at the position of the
opening quote whose lexeme is `d`.  In particular lexing the literal alone
gives that string token at line 1, column 1, then the end-of-input token,
and no error. -/
theorem C16_string_literal_decoded (raw rest d : CStr) (L : Lexer) (fuel : Nat) (g : Error)
    (hdec : decode_lit raw = some d) (hnul : NUL ∉ raw) (hlen : d.length ≤ 127) :
    (L.src.drop L.i = '"' :: raw ++ '"' :: rest → L.err.kind = .ERR_NONE →
      L.out.length < MAX_TOKENS →
      ∃ L1, lex_loop (fuel + 1) L = lex_loop fuel L1 ∧
        L1.out = L.out ++ [{ type := .T_STRING, lexeme := d, line := L.line, col := L.col }] ∧
        L1.i = L.i + raw.length + 2 ∧ L1.src = L.src ∧ L1.err = L.err) ∧
    (∃ ln cl,
      (lex_all ('"' :: raw ++ ['"']) g).out
        = [{ type := .T_STRING, lexeme := d, line := 1, col := 1 },
           { type := .T_EOF, lexeme := [], line := ln, col := cl }] ∧
      (lex_all ('"' :: raw ++ ['"']) g).err.kind = .ERR_NONE) :=
  ⟨fun hdrop he hout => lex_loop_string_step fuel L raw rest d hdrop hdec hnul hlen he hout,
   lex_all_string raw d g hdec hnul hlen⟩

/-- C16 at the literal whose inside is the nine characters `a`, backslash,
`n`, backslash, quote, `b`, backslash, backslash, `c`: the lexeme is `a`,
newline, quote, `b`, backslash, `c`. -/
theorem C16_string_literal_decoded_witness :
    ∃ ln cl,
      (lex_all ('"' :: "a\\n\\\"b\\\\c".toList ++ ['"']) g_error_init).out
        = [{ type := .T_STRING, lexeme := "a\n\"b\\c".toList, line := 1, col := 1 },
           { type := .T_EOF, lexeme := [], line := ln, col := cl }] ∧
      (lex_all ('"' :: "a\\n\\\"b\\\\c".toList ++ ['"']) g_error_init).err.kind = .ERR_NONE :=
  (C16_string_literal_decoded "a\\n\\\"b\\\\c".toList [] "a\n\"b\\c".toList
    (lex_all [] g_error_init) 0 g_error_init (by decide) (by decide) (by decide)).2

/-! ## C17: precedence and associativity -/

set_option maxHeartbeats 40000000 in
/-- C17: with identifier tokens `a`, `b`, `c` as operands (any names and
positions) and `e` the end-of-input token: for binary operator tokens `o1`,
`o2` of binding levels `l1`, `l2`, the tokens `a o1 b o2 c` parse to
`(a o1 b) o2 c` when `o2` binds no tighter than `o1` (in particular when
both are of one level: every binary level is left-associative) and to
`a o1 (b o2 c)` when `o2` binds tighter; `- a * b` parses to `(-a) * b`;
and `- ! a` parses to `-(!(a))`.  A prefix operator binds tighter than any
binary one: for every prefix operator token `p` (`!`, `-`, `+`) and every
binary operator token `o`, the tokens `p a o b` parse to `(p a) o b` and
`a o p b` to `a o (p b)`; prefix operators nest to the right: for prefix
operator tokens `p`, `q`, the tokens `p q a` parse to `p (q a)`.  The parser
stops at the end-of-input token and records no error. -/
theorem C17_precedence_cascade (a b c o1 o2 e m n st : Token) (g : Error) (l1 l2 : Nat)
    (u w : OpType)
    (ha : a.type = .T_IDENTIFIER) (hb : b.type = .T_IDENTIFIER) (hc : c.type = .T_IDENTIFIER)
    (he : e.type = .T_EOF) :
    (binary_level o1.type = some l1 → binary_level o2.type = some l2 →
      parse_expression 40 (parser_init [a, o1, b, o2, c, e] g)
        = some (if l2 ≤ l1 then binary_of o2 (binary_of o1 (var_of a) (var_of b)) (var_of c)
                else binary_of o1 (var_of a) (binary_of o2 (var_of b) (var_of c)),
                { toks := [a, o1, b, o2, c, e], pos := 5, err := g, oob := false })) ∧
    (m.type = .T_MINUS → st.type = .T_STAR →
      parse_expression 40 (parser_init [m, a, st, b, e] g)
        = some (binary_of st (make_unary .OP_MINUS (var_of a) m.line m.col) (var_of b),
                { toks := [m, a, st, b, e], pos := 4, err := g, oob := false })) ∧
    (m.type = .T_MINUS → n.type = .T_NOT →
      parse_expression 40 (parser_init [m, n, a, e] g)
        = some (make_unary .OP_MINUS (make_unary .OP_NOT (var_of a) n.line n.col) m.line m.col,
                { toks := [m, n, a, e], pos := 3, err := g, oob := false })) ∧
    (unary_op m.type = some u → binary_level o1.type = some l1 →
      parse_expression 40 (parser_init [m, a, o1, b, e] g)
        = some (binary_of o1 (unary_of u m (var_of a)) (var_of b),
                { toks := [m, a, o1, b, e], pos := 4, err := g, oob := false })) ∧
    (binary_level o1.type = some l1 → unary_op m.type = some u →
      parse_expression 40 (parser_init [a, o1, m, b, e] g)
        = some (binary_of o1 (var_of a) (unary_of u m (var_of b)),
                { toks := [a, o1, m, b, e], pos := 4, err := g, oob := false })) ∧
    (unary_op m.type = some u → unary_op n.type = some w →
      parse_expression 40 (parser_init [m, n, a, e] g)
        = some (unary_of u m (unary_of w n (var_of a)),
                { toks := [m, n, a, e], pos := 3, err := g, oob := false })) := by
  obtain ⟨ta, la, na, ca⟩ := a
  obtain ⟨tb, lb, nb, cb⟩ := b
  obtain ⟨tc, lc, nc, cc⟩ := c
  obtain ⟨te, le, ne, ce⟩ := e
  obtain ⟨t1, x1, n1, c1⟩ := o1
  obtain ⟨t2, x2, n2, c2⟩ := o2
  obtain ⟨tm, xm, nm, cm⟩ := m
  obtain ⟨tn, xn, nn, cn⟩ := n
  obtain ⟨ts, xs, ns, cs⟩ := st
  simp only at ha hb hc he
  subst ha hb hc he
  refine ⟨?_, ?_, ?_, ?_, ?_, ?_⟩
  · intro h1 h2
    cases t1 <;> simp [binary_level] at h1 <;> subst h1 <;>
      cases t2 <;> simp [binary_level] at h2 <;> subst h2 <;> rfl
  · intro hm hst
    simp only at hm hst
    subst hm hst
    rfl
  · intro hm hn
    simp only at hm hn
    subst hm hn
    rfl
  · intro hm h1
    cases tm <;> simp [unary_op] at hm <;> subst hm <;>
      cases t1 <;> simp [binary_level] at h1 <;> subst h1 <;> rfl
  · intro h1 hm
    cases tm <;> simp [unary_op] at hm <;> subst hm <;>
      cases t1 <;> simp [binary_level] at h1 <;> subst h1 <;> rfl
  · intro hm hn
    cases tm <;> simp [unary_op] at hm <;> subst hm <;>
      cases tn <;> simp [unary_op] at hn <;> subst hn <;> rfl

/-- C17 at the source texts `a - b - c`, `a / b / c`, `a + b * c`,
`a || b && c`, `a == b < c`, `-a * b`, `- ! a`, `!a * b`, `+a - b`,
`a < -b` and `! + a`. -/
theorem C17_precedence_cascade_witness :
    parse_expression 40
        (parser_init (lex_all "a - b - c".toList g_error_init).out g_error_init)
      = some (make_binary .OP_MINUS
                (make_binary .OP_MINUS (var_ref "a".toList 1 1) (var_ref "b".toList 1 5) 1 3)
                (var_ref "c".toList 1 9) 1 7,
              { toks := (lex_all "a - b - c".toList g_error_init).out, pos := 5,
                err := g_error_init, oob := false }) ∧
    parse_expression 40
        (parser_init (lex_all "a / b / c".toList g_error_init).out g_error_init)
      = some (make_binary .OP_DIV
                (make_binary .OP_DIV (var_ref "a".toList 1 1) (var_ref "b".toList 1 5) 1 3)
                (var_ref "c".toList 1 9) 1 7,
              { toks := (lex_all "a / b / c".toList g_error_init).out, pos := 5,
                err := g_error_init, oob := false }) ∧
    parse_expression 40
        (parser_init (lex_all "a + b * c".toList g_error_init).out g_error_init)
      = some (make_binary .OP_PLUS (var_ref "a".toList 1 1)
                (make_binary .OP_MUL (var_ref "b".toList 1 5) (var_ref "c".toList 1 9) 1 7) 1 3,
              { toks := (lex_all "a + b * c".toList g_error_init).out, pos := 5,
                err := g_error_init, oob := false }) ∧
    parse_expression 40
        (parser_init (lex_all "a || b && c".toList g_error_init).out g_error_init)
      = some (make_binary .OP_OR (var_ref "a".toList 1 1)
                (make_binary .OP_AND (var_ref "b".toList 1 6) (var_ref "c".toList 1 11) 1 8) 1 3,
              { toks := (lex_all "a || b && c".toList g_error_init).out, pos := 5,
                err := g_error_init, oob := false }) ∧
    parse_expression 40
        (parser_init (lex_all "a == b < c".toList g_error_init).out g_error_init)
      = some (make_binary .OP_EQ (var_ref "a".toList 1 1)
                (make_binary .OP_LT (var_ref "b".toList 1 6) (var_ref "c".toList 1 10) 1 8) 1 3,
              { toks := (lex_all "a == b < c".toList g_error_init).out, pos := 5,
                err := g_error_init, oob := false }) ∧
    parse_expression 40
        (parser_init (lex_all "-a * b".toList g_error_init).out g_error_init)
      = some (make_binary .OP_MUL (make_unary .OP_MINUS (var_ref "a".toList 1 2) 1 1)
                (var_ref "b".toList 1 6) 1 4,
              { toks := (lex_all "-a * b".toList g_error_init).out, pos := 4,
                err := g_error_init, oob := false }) ∧
    parse_expression 40
        (parser_init (lex_all "- ! a".toList g_error_init).out g_error_init)
      = some (make_unary .OP_MINUS (make_unary .OP_NOT (var_ref "a".toList 1 5) 1 3) 1 1,
              { toks := (lex_all "- ! a".toList g_error_init).out, pos := 3,
                err := g_error_init, oob := false }) ∧
    parse_expression 40
        (parser_init (lex_all "!a * b".toList g_error_init).out g_error_init)
      = some (make_binary .OP_MUL (make_unary .OP_NOT (var_ref "a".toList 1 2) 1 1)
                (var_ref "b".toList 1 6) 1 4,
              { toks := (lex_all "!a * b".toList g_error_init).out, pos := 4,
                err := g_error_init, oob := false }) ∧
    parse_expression 40
        (parser_init (lex_all "+a - b".toList g_error_init).out g_error_init)
      = some (make_binary .OP_MINUS (make_unary .OP_PLUS (var_ref "a".toList 1 2) 1 1)
                (var_ref "b".toList 1 6) 1 4,
              { toks := (lex_all "+a - b".toList g_error_init).out, pos := 4,
                err := g_error_init, oob := false }) ∧
    parse_expression 40
        (parser_init (lex_all "a < -b".toList g_error_init).out g_error_init)
      = some (make_binary .OP_LT (var_ref "a".toList 1 1)
                (make_unary .OP_MINUS (var_ref "b".toList 1 6) 1 5) 1 3,
              { toks := (lex_all "a < -b".toList g_error_init).out, pos := 4,
                err := g_error_init, oob := false }) ∧
    parse_expression 40
        (parser_init (lex_all "! + a".toList g_error_init).out g_error_init)
      = some (make_unary .OP_NOT (make_unary .OP_PLUS (var_ref "a".toList 1 5) 1 3) 1 1,
              { toks := (lex_all "! + a".toList g_error_init).out, pos := 3,
                err := g_error_init, oob := false }) :=
  ⟨(C17_precedence_cascade (ident_tok "a".toList 1 1) (ident_tok "b".toList 1 5)
      (ident_tok "c".toList 1 9) (op_tok .T_MINUS "-" 1 3) (op_tok .T_MINUS "-" 1 7)
      (op_tok .T_EOF "" 1 10) (ident_tok [] 0 0) (ident_tok [] 0 0) (ident_tok [] 0 0)
      g_error_init 5 5 .OP_NOT .OP_NOT rfl rfl rfl rfl).1 rfl rfl,
   (C17_precedence_cascade (ident_tok "a".toList 1 1) (ident_tok "b".toList 1 5)
      (ident_tok "c".toList 1 9) (op_tok .T_SLASH "/" 1 3) (op_tok .T_SLASH "/" 1 7)
      (op_tok .T_EOF "" 1 10) (ident_tok [] 0 0) (ident_tok [] 0 0) (ident_tok [] 0 0)
      g_error_init 6 6 .OP_NOT .OP_NOT rfl rfl rfl rfl).1 rfl rfl,
   (C17_precedence_cascade (ident_tok "a".toList 1 1) (ident_tok "b".toList 1 5)
      (ident_tok "c".toList 1 9) (op_tok .T_PLUS "+" 1 3) (op_tok .T_STAR "*" 1 7)
      (op_tok .T_EOF "" 1 10) (ident_tok [] 0 0) (ident_tok [] 0 0) (ident_tok [] 0 0)
      g_error_init 5 6 .OP_NOT .OP_NOT rfl rfl rfl rfl).1 rfl rfl,
   (C17_precedence_cascade (ident_tok "a".toList 1 1) (ident_tok "b".toList 1 6)
      (ident_tok "c".toList 1 11) (op_tok .T_OR "||" 1 3) (op_tok .T_AND "&&" 1 8)
      (op_tok .T_EOF "" 1 12) (ident_tok [] 0 0) (ident_tok [] 0 0) (ident_tok [] 0 0)
      g_error_init 1 2 .OP_NOT .OP_NOT rfl rfl rfl rfl).1 rfl rfl,
   (C17_precedence_cascade (ident_tok "a".toList 1 1) (ident_tok "b".toList 1 6)
      (ident_tok "c".toList 1 10) (op_tok .T_EQ "==" 1 3) (op_tok .T_LT "<" 1 8)
      (op_tok .T_EOF "" 1 11) (ident_tok [] 0 0) (ident_tok [] 0 0) (ident_tok [] 0 0)
      g_error_init 3 4 .OP_NOT .OP_NOT rfl rfl rfl rfl).1 rfl rfl,
   (C17_precedence_cascade (ident_tok "a".toList 1 2) (ident_tok "b".toList 1 6)
      (ident_tok [] 0 0) (ident_tok [] 0 0) (ident_tok [] 0 0)
      (op_tok .T_EOF "" 1 7) (op_tok .T_MINUS "-" 1 1) (ident_tok [] 0 0)
      (op_tok .T_STAR "*" 1 4) g_error_init 0 0 .OP_NOT .OP_NOT rfl rfl rfl rfl).2.1 rfl rfl,
   (C17_precedence_cascade (ident_tok "a".toList 1 5) (ident_tok [] 0 0)
      (ident_tok [] 0 0) (ident_tok [] 0 0) (ident_tok [] 0 0)
      (op_tok .T_EOF "" 1 6) (op_tok .T_MINUS "-" 1 1) (op_tok .T_NOT "!" 1 3)
      (ident_tok [] 0 0) g_error_init 0 0 .OP_NOT .OP_NOT rfl rfl rfl rfl).2.2.1 rfl rfl,
   (C17_precedence_cascade (ident_tok "a".toList 1 2) (ident_tok "b".toList 1 6)
      (ident_tok [] 0 0) (op_tok .T_STAR "*" 1 4) (ident_tok [] 0 0)
      (op_tok .T_EOF "" 1 7) (op_tok .T_NOT "!" 1 1) (ident_tok [] 0 0)
      (ident_tok [] 0 0) g_error_init 6 0 .OP_NOT .OP_NOT rfl rfl rfl rfl).2.2.2.1 rfl rfl,
   (C17_precedence_cascade (ident_tok "a".toList 1 2) (ident_tok "b".toList 1 6)
      (ident_tok [] 0 0) (op_tok .T_MINUS "-" 1 4) (ident_tok [] 0 0)
      (op_tok .T_EOF "" 1 7) (op_tok .T_PLUS "+" 1 1) (ident_tok [] 0 0)
      (ident_tok [] 0 0) g_error_init 5 0 .OP_PLUS .OP_NOT rfl rfl rfl rfl).2.2.2.1 rfl rfl,
   (C17_precedence_cascade (ident_tok "a".toList 1 1) (ident_tok "b".toList 1 6)
      (ident_tok [] 0 0) (op_tok .T_LT "<" 1 3) (ident_tok [] 0 0)
      (op_tok .T_EOF "" 1 7) (op_tok .T_MINUS "-" 1 5) (ident_tok [] 0 0)
      (ident_tok [] 0 0) g_error_init 4 0 .OP_MINUS .OP_NOT rfl rfl rfl rfl).2.2.2.2.1 rfl rfl,
   (C17_precedence_cascade (ident_tok "a".toList 1 5) (ident_tok [] 0 0)
      (ident_tok [] 0 0) (ident_tok [] 0 0) (ident_tok [] 0 0)
      (op_tok .T_EOF "" 1 6) (op_tok .T_NOT "!" 1 1) (op_tok .T_PLUS "+" 1 3)
      (ident_tok [] 0 0) g_error_init 0 0 .OP_NOT .OP_PLUS rfl rfl rfl rfl).2.2.2.2.2 rfl rfl⟩

/-! ## C18, C19: syntactic errors -/

theorem lookahead_in_range (P : Parser) (h : (tok_at P (P.pos + 1)).type = .T_ASSIGN) :
    P.pos + 1 < P.count := by
  by_contra hc
  have hd : tok_at P (P.pos + 1) = tok_zero := by
    unfold tok_at
    exact List.getD_eq_default _ _ (by unfold Parser.count at hc; omega)
  rw [hd] at h
  exact absurd h (by decide)

/-- An assignment statement whose right-hand side fails to parse returns
`NULL` with the parser state the expression parser left. -/
theorem parse_assignment_null (f : Nat) (P P3 : Parser)
    (h1 : (P_peek P).type = .T_IDENTIFIER) (h2 : (tok_at P (P.pos + 1)).type = .T_ASSIGN)
    (h3 : parse_expression f { P with pos := P.pos + 1 + 1 } = some (.null, P3)) :
    parse_assignment_or_expr_stmt f P = some (.null, P3) := by
  have hr := lookahead_in_range P h2
  have hr0 : P.pos < P.count := by omega
  have hnd : ¬ (P.count ≤ P.pos + 1) := by omega
  have hp0 : P_peek P = tok_at P P.pos := by simp [P_peek, hr0]
  rw [hp0] at h1
  have hoob : (P.oob || decide (P.count ≤ P.pos + 1)) = P.oob := by simp [hnd]
  have hla : lookahead_assign P = (true, P) := by
    simp only [lookahead_assign, h2, hoob]
    rfl
  have hc1 : P_consume P .T_IDENTIFIER "expected indentifier".toList
      = (some (tok_at P P.pos), P_advance P) := by
    simp [P_consume, hp0, h1]
  have hc2 : P_consume (P_advance P) .T_ASSIGN "expected '='".toList
      = (some (tok_at P (P.pos + 1)), P_advance (P_advance P)) := by
    have : P_peek (P_advance P) = tok_at P (P.pos + 1) := by
      simp [P_peek, P_advance, Parser.count, tok_at] at *
      simp [hr]
    simp [P_consume, this, h2]
  have hadv : P_advance (P_advance P) = { P with pos := P.pos + 1 + 1 } := rfl
  unfold parse_assignment_or_expr_stmt
  simp only [hp0, h1, if_true, hla, hc1, hc2, hadv, h3]
  rfl

theorem parse_statement_default (f : Nat) (P : Parser)
    (h1 : (P_peek P).type = .T_IDENTIFIER) :
    parse_statement (f + 1) P = parse_assignment_or_expr_stmt f P := by
  rw [parse_statement, h1]

/-- Parsing an expression at a `;` token fails in `parse_primary`, with the
error at that token. -/
theorem parse_expression_at_semi (x1 x2 x3 x4 gm : CStr)
    (n1 c1 n2 c2 n3 c3 n4 c4 gl gc : Nat) :
    parse_expression 39
        ⟨[⟨.T_IDENTIFIER, x1, n1, c1⟩, ⟨.T_ASSIGN, x2, n2, c2⟩, ⟨.T_SEMI, x3, n3, c3⟩,
          ⟨.T_EOF, x4, n4, c4⟩], 2, ⟨.ERR_NONE, gl, gc, gm⟩, false⟩
      = some (.null,
          ⟨[⟨.T_IDENTIFIER, x1, n1, c1⟩, ⟨.T_ASSIGN, x2, n2, c2⟩, ⟨.T_SEMI, x3, n3, c3⟩,
            ⟨.T_EOF, x4, n4, c4⟩], 2,
           ⟨.ERR_PARSE, n3, c3, "invalid primary expression".toList⟩, false⟩) := by
  rfl

/-- C18: whenever `parse_primary` meets a token that is not a number, a
string, an identifier or `(` while no error is recorded, it returns `NULL`
and records the syntactic error "invalid primary expression" with that
token's line and column; and for every identifier token followed by `=`,
`;` and end of input (any name, any positions), `parse_statement` returns
`NULL` and records that error at the line and column of the `;` token. -/
theorem C18_invalid_primary_position (P : Parser) (fuel : Nat) (id asg semi e : Token)
    (g : Error) :
    ((P_peek P).type ≠ .T_NUMBER ∧ (P_peek P).type ≠ .T_STRING ∧
        (P_peek P).type ≠ .T_IDENTIFIER ∧ (P_peek P).type ≠ .T_LPAREN →
      P.err.kind = .ERR_NONE →
      parse_primary (fuel + 1) P
        = some (.null,
            { P with err :=
                { kind := .ERR_PARSE, line := (P_peek P).line, col := (P_peek P).col,
                  msg := "invalid primary expression".toList } })) ∧
    (id.type = .T_IDENTIFIER ∧ asg.type = .T_ASSIGN ∧ semi.type = .T_SEMI ∧ e.type = .T_EOF →
      g.kind = .ERR_NONE →
      parse_statement 40 (parser_init [id, asg, semi, e] g)
        = some (.null,
            { toks := [id, asg, semi, e], pos := 2, oob := false,
              err := { kind := .ERR_PARSE, line := semi.line, col := semi.col,
                       msg := "invalid primary expression".toList } })) := by
  constructor
  · rintro ⟨h1, h2, h3, h4⟩ he
    simp [parse_primary, P_match, h1, h2, h3, h4, set_error, he]
  · rintro ⟨h1, h2, h3, h4⟩ hg
    obtain ⟨t1, x1, n1, c1⟩ := id
    obtain ⟨t2, x2, n2, c2⟩ := asg
    obtain ⟨t3, x3, n3, c3⟩ := semi
    obtain ⟨t4, x4, n4, c4⟩ := e
    obtain ⟨k, gl, gc, gm⟩ := g
    simp only at h1 h2 h3 h4 hg
    subst h1 h2 h3 h4 hg
    refine (parse_statement_default 39 (parser_init _ _) ?_).trans
      (parse_assignment_null 39 _ _ ?_ ?_
        (parse_expression_at_semi x1 x2 x3 x4 gm n1 c1 n2 c2 n3 c3 n4 c4 gl gc))
    all_goals rfl

/-- C18 at the source text `x = ;`: its tokens are `x`, `=`, `;` (line 1,
column 5) and end of input, and `parse_statement` returns `NULL` with the
syntactic error at line 1, column 5; and `parse_primary` at a `)` token
records the error at that token. -/
theorem C18_invalid_primary_position_witness :
    (lex_all "x = ;".toList g_error_init).out
      = [ident_tok "x".toList 1 1, op_tok .T_ASSIGN "=" 1 3, op_tok .T_SEMI ";" 1 5,
         op_tok .T_EOF "" 1 6] ∧
    parse_statement 40
        (parser_init
          [ident_tok "x".toList 1 1, op_tok .T_ASSIGN "=" 1 3, op_tok .T_SEMI ";" 1 5,
           op_tok .T_EOF "" 1 6] g_error_init)
      = some (.null,
          { toks := [ident_tok "x".toList 1 1, op_tok .T_ASSIGN "=" 1 3,
                     op_tok .T_SEMI ";" 1 5, op_tok .T_EOF "" 1 6],
            pos := 2, oob := false,
            err := { kind := .ERR_PARSE, line := 1, col := 5,
                     msg := "invalid primary expression".toList } }) ∧
    parse_primary 1 (parser_init [op_tok .T_RPAREN ")" 2 7, op_tok .T_EOF "" 2 8] g_error_init)
      = some (.null,
          { toks := [op_tok .T_RPAREN ")" 2 7, op_tok .T_EOF "" 2 8],
            pos := 0, oob := false,
            err := { kind := .ERR_PARSE, line := 2, col := 7,
                     msg := "invalid primary expression".toList } }) :=
  ⟨by decide,
   (C18_invalid_primary_position (parser_init [] g_error_init) 0 (ident_tok "x".toList 1 1)
      (op_tok .T_ASSIGN "=" 1 3) (op_tok .T_SEMI ";" 1 5) (op_tok .T_EOF "" 1 6)
      g_error_init).2 ⟨rfl, rfl, rfl, rfl⟩ rfl,
   (C18_invalid_primary_position
      (parser_init [op_tok .T_RPAREN ")" 2 7, op_tok .T_EOF "" 2 8] g_error_init)
      0 (ident_tok [] 0 0) (ident_tok [] 0 0) (ident_tok [] 0 0) (ident_tok [] 0 0)
      g_error_init).1 (by decide) rfl⟩

/-- C19 (defect in the code): the token sequences of `x = 1` (no `;` after
the assignment), of `output 1;` (no `(` after `output`) and of `{ x = 1 }`
(no `;` inside the block) are lexed without error and end with the
end-of-input token; on each of them `parse_statement` (resp. `parse_block`)
records a syntactic error and still returns a node, not `NULL`: the
results of these `P_consume` calls are ignored, unlike those for `)` in
`parse_primary` and `}` in `parse_block`. -/
theorem C19_node_returned_with_error :
    ∃ n1 P1 n2 P2 n3 P3,
      parse_statement 40
        (parser_init (lex_all "x = 1".toList g_error_init).out g_error_init) = some (n1, P1) ∧
      n1.isNull = false ∧ P1.err.kind = .ERR_PARSE ∧
      P1.err.msg = "expected';' after assignment (i found '')".toList ∧
      parse_statement 40
        (parser_init (lex_all "output 1;".toList g_error_init).out g_error_init)
        = some (n2, P2) ∧
      n2.isNull = false ∧ P2.err.kind = .ERR_PARSE ∧
      P2.err.msg = "expected'(' after 'output' (i found '1')".toList ∧
      parse_block 40
        (parser_init (lex_all "\x7b x = 1 \x7d".toList g_error_init).out g_error_init)
        = some (n3, P3) ∧
      n3.isNull = false ∧ P3.err.kind = .ERR_PARSE ∧
      (lex_all "x = 1".toList g_error_init).err.kind = .ERR_NONE ∧
      ((lex_all "x = 1".toList g_error_init).out.map (fun t => t.type)).getLast? = some .T_EOF ∧
      (lex_all "output 1;".toList g_error_init).err.kind = .ERR_NONE ∧
      (lex_all "\x7b x = 1 \x7d".toList g_error_init).err.kind = .ERR_NONE := by
  refine ⟨_, _, _, _, _, _, rfl, ?_, ?_, ?_, rfl, ?_, ?_, ?_, rfl, ?_, ?_, ?_, ?_, ?_, ?_⟩ <;>
    decide

/-! ## C20: the error record -/

theorem set_errors_of_set (g : Error) (hg : g.kind ≠ .ERR_NONE) (cs : List ErrCall) :
    set_errors g cs = g := by
  induction cs with
  | nil => rfl
  | cons c cs ih => simp [set_errors, set_error, hg, ih]

set_option maxRecDepth 100000 in
/-- C20, as stated, fails: after the calls `set_error(ERR_NONE, 5, 6, "a")`
and `set_error(ERR_LEX, 1, 2, "b")` on a cleared record, the record holds
the kind, position and message of the second call, not of the first; and
after one call with a message of 1024 characters the record does not hold
that message (it holds its first 1023 characters). -/
theorem C20_first_call_not_always_kept :
    set_errors (clear_error g_error_init)
        [{ kind := .ERR_NONE, line := 5, col := 6, msg := "a".toList },
         { kind := .ERR_LEX, line := 1, col := 2, msg := "b".toList }]
      = { kind := .ERR_LEX, line := 1, col := 2, msg := "b".toList } ∧
    (set_errors (clear_error g_error_init)
        [{ kind := .ERR_LEX, line := 1, col := 2, msg := List.replicate 1024 'x' }]).msg
      ≠ List.replicate 1024 'x' := by
  constructor <;> decide

/-- C20, amended: if the record's kind is not `ERR_NONE`, a call of
`set_error` with any arguments leaves the whole record unchanged; and after
any sequence of `set_error` calls on a cleared record whose first call
passes a kind other than `ERR_NONE`, the record holds the kind, line and
column of the first call and the first 1023 characters of its message. -/
theorem C20_first_error_wins (g : Error) (kind : ErrKind) (line col : Nat) (msg : CStr)
    (c : ErrCall) (cs : List ErrCall) :
    (g.kind ≠ .ERR_NONE → set_error g kind line col msg = g) ∧
    (c.kind ≠ .ERR_NONE →
      set_errors (clear_error g) (c :: cs)
        = { kind := c.kind, line := c.line, col := c.col, msg := c.msg.take 1023 }) := by
  constructor
  · intro hg
    simp [set_error, hg]
  · intro hc
    have h1 : set_error (clear_error g) c.kind c.line c.col c.msg
        = { kind := c.kind, line := c.line, col := c.col, msg := c.msg.take 1023 } := by
      simp [set_error, clear_error]
    rw [set_errors, h1]
    exact set_errors_of_set _ hc cs

/-- C20 at a record already holding a syntactic error (a later runtime error
does not replace it) and at two calls on a cleared record (the first
stays). -/
theorem C20_first_error_wins_witness :
    set_error { kind := .ERR_PARSE, line := 3, col := 4, msg := "first".toList }
        .ERR_RUNTIME 9 9 "second".toList
      = { kind := .ERR_PARSE, line := 3, col := 4, msg := "first".toList } ∧
    set_errors (clear_error { kind := .ERR_LEX, line := 7, col := 7, msg := "old".toList })
        [{ kind := .ERR_PARSE, line := 3, col := 4, msg := "first".toList },
         { kind := .ERR_RUNTIME, line := 9, col := 9, msg := "second".toList }]
      = { kind := .ERR_PARSE, line := 3, col := 4, msg := "first".toList } :=
  ⟨(C20_first_error_wins { kind := .ERR_PARSE, line := 3, col := 4, msg := "first".toList }
      .ERR_RUNTIME 9 9 "second".toList
      { kind := .ERR_PARSE, line := 3, col := 4, msg := "first".toList } []).1 (by decide),
   (C20_first_error_wins { kind := .ERR_LEX, line := 7, col := 7, msg := "old".toList }
      .ERR_NONE 0 0 []
      { kind := .ERR_PARSE, line := 3, col := 4, msg := "first".toList }
      [{ kind := .ERR_RUNTIME, line := 9, col := 9, msg := "second".toList }]).2 (by decide)⟩

/-! ## C21: evaluation with an error already recorded -/

theorem eval_of_error (n : Node) (s : VM) (h : s.err.kind ≠ .ERR_NONE) :
    eval n s = (V_int 0, s) := by
  cases n with
  | null => rfl
  | mk t op v l r e line col => rw [eval_mk]; unfold eval_node; rw [if_pos h]

theorem exec_chain_of_error (n : Node) (s : VM) (h : s.err.kind ≠ .ERR_NONE) :
    exec_chain n s = s := by
  cases n with
  | null => rfl
  | mk t op v l r e line col => rw [exec_chain_mk, if_pos h]

/-- The first line of `exec_block`: the loop starts at `stmt->extra` for a
block node and at `stmt` itself otherwise. -/
theorem exec_block_eq (n : Node) (s : VM) :
    exec_block n s
      = match n with
        | .null => s
        | .mk t _ _ _ _ e _ _ => if t = .N_BLOCK then exec_chain e s else exec_chain n s := by
  cases n with
  | null => rfl
  | mk t op v l r e line col =>
    by_cases ht : t = .N_BLOCK
    · subst ht; rfl
    · simp only [if_neg ht]
      show (evs (.mk t op v l r e line col)).block s = _
      simp only [evs, if_neg ht]
      rfl

theorem exec_block_of_error (n : Node) (s : VM) (h : s.err.kind ≠ .ERR_NONE) :
    exec_block n s = s := by
  rw [exec_block_eq]
  cases n with
  | null => rfl
  | mk t op v l r e line col =>
    simp only
    split
    · exact exec_chain_of_error e s h
    · exact exec_chain_of_error _ s h

theorem print_args_of_error (n : Node) (first : Bool) (s : VM) (h : s.err.kind ≠ .ERR_NONE) :
    print_args n first s = s := by
  cases n with
  | null => rfl
  | mk t op v l r e line col =>
    show (evs (.mk t op v l r e line col)).args first s = s
    simp only [evs, if_pos h]

/-- C21: in a state whose error record is already non-empty, `eval` of any
node (of any kind, `NULL` included) returns the integer 0 and returns the
state as it was: variable table, output written, input left and error record
are all unchanged.  Likewise `exec_block`, the statement loop inside it and
the argument loop of `output` return the state unchanged, so no statement is
executed. -/
theorem C21_error_short_circuits (n : Node) (s : VM) (h : s.err.kind ≠ .ERR_NONE) :
    eval n s = (V_int 0, s) ∧ exec_block n s = s ∧ exec_chain n s = s ∧
      ∀ first : Bool, print_args n first s = s :=
  ⟨eval_of_error n s h, exec_block_of_error n s h, exec_chain_of_error n s h,
    fun first => print_args_of_error n first s h⟩

/-- C21 at the statement `output(1);`, in a state that holds the error of a
division by zero at line 1, column 3 and the text `a` already written. -/
theorem C21_error_short_circuits_witness :
    (runtime_error { vars := [], err := g_error_init, out := ['a'], inp := [] } 1 3
        "division by zero".toList).err.kind ≠ .ERR_NONE ∧
    (eval ((node_new .N_PRINT 1 1).set_extra (int_lit "1".toList 1 8))
        (runtime_error { vars := [], err := g_error_init, out := ['a'], inp := [] } 1 3
          "division by zero".toList)
      = (V_int 0, runtime_error { vars := [], err := g_error_init, out := ['a'], inp := [] } 1 3
          "division by zero".toList) ∧
     exec_block ((node_new .N_PRINT 1 1).set_extra (int_lit "1".toList 1 8))
        (runtime_error { vars := [], err := g_error_init, out := ['a'], inp := [] } 1 3
          "division by zero".toList)
      = runtime_error { vars := [], err := g_error_init, out := ['a'], inp := [] } 1 3
          "division by zero".toList ∧
     exec_chain ((node_new .N_PRINT 1 1).set_extra (int_lit "1".toList 1 8))
        (runtime_error { vars := [], err := g_error_init, out := ['a'], inp := [] } 1 3
          "division by zero".toList)
      = runtime_error { vars := [], err := g_error_init, out := ['a'], inp := [] } 1 3
          "division by zero".toList ∧
     ∀ first : Bool,
       print_args ((node_new .N_PRINT 1 1).set_extra (int_lit "1".toList 1 8)) first
          (runtime_error { vars := [], err := g_error_init, out := ['a'], inp := [] } 1 3
            "division by zero".toList)
        = runtime_error { vars := [], err := g_error_init, out := ['a'], inp := [] } 1 3
            "division by zero".toList) :=
  ⟨by decide, C21_error_short_circuits _ _ (by decide)⟩

/-! ## C25: assignment with a failing right-hand side -/

theorem same_store_refl (s : VM) : same_store s s := ⟨rfl, rfl, rfl⟩

theorem same_store_trans {a b c : VM} (h1 : same_store a b) (h2 : same_store b c) :
    same_store a c :=
  ⟨h2.1.trans h1.1, h2.2.1.trans h1.2.1, h2.2.2.trans h1.2.2⟩

theorem same_store_runtime_error (s : VM) (line col : Nat) (msg : CStr) :
    same_store s (runtime_error s line col msg) := ⟨rfl, rfl, rfl⟩

theorem bin_num_num_store (line col : Nat) (a b : Value) (op : OpType) (s : VM) :
    same_store s (bin_num_num line col a b op s).2 := by
  unfold bin_num_num
  split
  · exact same_store_runtime_error _ _ _ _
  · cases op <;> simp only <;> try exact same_store_refl _
    split
    · exact same_store_runtime_error _ _ _ _
    · split
      · exact ⟨rfl, rfl, rfl⟩
      · exact same_store_refl _

theorem cmp_any_store (line col : Nat) (a b : Value) (op : OpType) (s : VM) :
    same_store s (cmp_any line col a b op s).2 := by
  unfold cmp_any
  split
  · exact same_store_refl _
  · split
    · exact same_store_refl _
    · exact same_store_runtime_error _ _ _ _

/-- Evaluating a pure expression changes at most the error record. -/
theorem pure_expr_store (e : Node) (h : pure_expr e = true) (s : VM) :
    same_store s (eval e s).2 := by
  induction e generalizing s with
  | null => exact same_store_refl _
  | mk t op v l r x line col ihl ihr _ =>
    rw [eval_mk]
    unfold eval_node
    split
    · exact same_store_refl _
    · cases t
      case N_INT => exact same_store_refl _
      case N_STRING => exact same_store_refl _
      case N_VAR =>
        dsimp only
        split
        · exact same_store_runtime_error _ _ _ _
        · exact same_store_refl _
      case N_UNARY =>
        have hl := ihl h s
        rw [← evs_eval] at hl
        dsimp only
        split
        · exact hl
        · cases op <;> dsimp only <;> try exact hl
          · split
            · exact same_store_trans hl (same_store_runtime_error _ _ _ _)
            · exact hl
          · split
            · exact same_store_trans hl (same_store_runtime_error _ _ _ _)
            · exact hl
      case N_BINARY =>
        simp only [pure_expr, Bool.and_eq_true] at h
        have hl := ihl h.1 s
        rw [← evs_eval] at hl
        have hr := ihr h.2 ((evs l).eval s).2
        rw [← evs_eval] at hr
        have hlr := same_store_trans hl hr
        dsimp only
        split_ifs <;> try first | exact hl | exact hlr
        cases op <;> dsimp only <;>
          first
          | exact hlr
          | exact same_store_trans hlr (bin_num_num_store _ _ _ _ _ _)
          | exact same_store_trans hlr (cmp_any_store _ _ _ _ _ _)
      all_goals exact absurd h (by simp [pure_expr])

/-- The `N_ASSIGN` case of `eval` when the right-hand side leaves an error:
`return V_int(0)` before `var_ensure` is reached. -/
theorem eval_assign_of_rhs_error (x : CStr) (e r ex : Node) (op : OpType) (line col : Nat)
    (s : VM) (herr : (eval e s).2.err.kind ≠ .ERR_NONE) :
    eval (.mk .N_ASSIGN op x e r ex line col) s = (V_int 0, (eval e s).2) := by
  rw [eval_mk]
  unfold eval_node
  split
  · rename_i h
    rw [eval_of_error e s h]
  · dsimp only
    rw [evs_eval, if_pos herr]

/-- C25: for an assignment node `x = e` whose right-hand side `e` is a pure
expression (literals, variable references, unary and binary operators), in
any state: if evaluating `e` leaves an error recorded, then `eval` of the
assignment returns the integer 0 in the state left by `e`, and in that state
the variable table is identical to the table before (so `x` is neither
created nor modified and the variable count is unchanged); output and input
are untouched as well. -/
theorem C25_assignment_atomic (x : CStr) (e r ex : Node) (op : OpType) (line col : Nat)
    (s : VM) (hp : pure_expr e = true) (herr : (eval e s).2.err.kind ≠ .ERR_NONE) :
    eval (.mk .N_ASSIGN op x e r ex line col) s = (V_int 0, (eval e s).2) ∧
    (eval (.mk .N_ASSIGN op x e r ex line col) s).2.vars = s.vars ∧
    (eval (.mk .N_ASSIGN op x e r ex line col) s).2.vars.length = s.vars.length ∧
    var_find (eval (.mk .N_ASSIGN op x e r ex line col) s).2.vars x = var_find s.vars x ∧
    (eval (.mk .N_ASSIGN op x e r ex line col) s).2.out = s.out ∧
    (eval (.mk .N_ASSIGN op x e r ex line col) s).2.inp = s.inp := by
  have hs := pure_expr_store e hp s
  rw [eval_assign_of_rhs_error x e r ex op line col s herr]
  exact ⟨rfl, hs.1, by rw [show (V_int 0, (eval e s).2).2.vars = s.vars from hs.1],
    by rw [show (V_int 0, (eval e s).2).2.vars = s.vars from hs.1], hs.2.1, hs.2.2⟩

/-- C25 at the statements `x = 1 / 0;` and `y = 1 / 0;` as parsed, in the
state whose only variable is `x` with value 5: the division records the
error, `x` keeps its value and `y` is not created. -/
theorem C25_assignment_atomic_witness :
    (pure_expr (make_binary .OP_DIV (int_lit "1".toList 1 5) (int_lit "0".toList 1 9) 1 7) = true ∧
     (eval (make_binary .OP_DIV (int_lit "1".toList 1 5) (int_lit "0".toList 1 9) 1 7)
        { vars := [{ name := "x".toList, val := V_int 5 }], err := g_error_init,
          out := [], inp := [] }).2.err.kind ≠ .ERR_NONE) ∧
    (eval (.mk .N_ASSIGN .OP_PLUS "y".toList
        (make_binary .OP_DIV (int_lit "1".toList 1 5) (int_lit "0".toList 1 9) 1 7)
        .null .null 1 1)
        { vars := [{ name := "x".toList, val := V_int 5 }], err := g_error_init,
          out := [], inp := [] }).2.vars = [{ name := "x".toList, val := V_int 5 }] ∧
    (eval (.mk .N_ASSIGN .OP_PLUS "x".toList
        (make_binary .OP_DIV (int_lit "1".toList 1 5) (int_lit "0".toList 1 9) 1 7)
        .null .null 1 1)
        { vars := [{ name := "x".toList, val := V_int 5 }], err := g_error_init,
          out := [], inp := [] }).2.vars = [{ name := "x".toList, val := V_int 5 }] :=
  ⟨⟨by decide, by decide⟩,
   (C25_assignment_atomic "y".toList _ .null .null .OP_PLUS 1 1 _ (by decide) (by decide)).2.1,
   (C25_assignment_atomic "x".toList _ .null .null .OP_PLUS 1 1 _ (by decide) (by decide)).2.1⟩

/-! ## The lexer and its token buffer -/

theorem with_out_self (L : Lexer) : with_out L L.out = L := rfl

theorem lex_advance_with_out (L : Lexer) (o : List Token) :
    lex_advance (with_out L o) = ((lex_advance L).1, with_out (lex_advance L).2 o) := by
  have e : src_at (with_out L o) (with_out L o).i = src_at L L.i := rfl
  by_cases h : src_at L L.i = '\n'
  · simp only [lex_advance, e, h, if_true]
    rfl
  · simp only [lex_advance, e, h, if_false]
    rfl

theorem lex_match_with_out (L : Lexer) (o : List Token) (e : Char) :
    lex_match (with_out L o) e = ((lex_match L e).1, with_out (lex_match L e).2 o) := by
  unfold lex_match
  rw [show lex_peek (with_out L o) = lex_peek L from rfl]
  split
  · rw [lex_advance_with_out]
  · rfl

theorem lex_digits_with_out (o : List Token) (fuel : Nat) :
    ∀ (L : Lexer) (buf : CStr),
      lex_digits fuel (with_out L o) buf
        = (with_out (lex_digits fuel L buf).1 o, (lex_digits fuel L buf).2) := by
  induction fuel with
  | zero => intro L buf; rfl
  | succ f ih =>
    intro L buf
    unfold lex_digits
    rw [show lex_peek (with_out L o) = lex_peek L from rfl, lex_advance_with_out]
    by_cases h : isdigit (lex_peek L) = true
    · simp only [h, if_true]
      split
      · exact ih _ _
      · exact ih _ _
    · simp only [h]
      rfl

theorem lex_ident_with_out (o : List Token) (fuel : Nat) :
    ∀ (L : Lexer) (buf : CStr),
      lex_ident fuel (with_out L o) buf
        = (with_out (lex_ident fuel L buf).1 o, (lex_ident fuel L buf).2) := by
  induction fuel with
  | zero => intro L buf; rfl
  | succ f ih =>
    intro L buf
    unfold lex_ident
    rw [show lex_peek (with_out L o) = lex_peek L from rfl, lex_advance_with_out]
    by_cases h : is_ident_part (lex_peek L) = true
    · simp only [h, if_true]
      split
      · exact ih _ _
      · exact ih _ _
    · simp only [h]
      rfl

theorem lex_string_body_with_out (o : List Token) (fuel : Nat) :
    ∀ (L : Lexer) (buf : CStr) (esc : Bool),
      lex_string_body fuel (with_out L o) buf esc
        = (with_out (lex_string_body fuel L buf esc).1 o,
           (lex_string_body fuel L buf esc).2) := by
  induction fuel with
  | zero => intro L buf esc; rfl
  | succ f ih =>
    intro L buf esc
    unfold lex_string_body
    rw [show lex_peek (with_out L o) = lex_peek L from rfl, lex_advance_with_out]
    by_cases h : lex_peek L = NUL
    · simp only [h, if_true]
    · simp only [h, if_false]
      split
      · rfl
      · split
        · exact ih _ _ _
        · exact ih _ _ _

theorem emit_with_out_room (L : Lexer) (o : List Token) (t : TokenType) (lex : CStr)
    (line col : Nat) (h : o.length < MAX_TOKENS) :
    emit (with_out L o) t lex line col
      = with_out L (o ++ [{ type := t, lexeme := strncpy lex 127, line := line, col := col }]) := by
  unfold emit
  rw [if_neg (by rw [show (with_out L o).out = o from rfl]; omega)]
  rfl

theorem emit_with_out_full (L : Lexer) (o : List Token) (t : TokenType) (lex : CStr)
    (line col : Nat) (h : MAX_TOKENS ≤ o.length) :
    emit (with_out L o) t lex line col
      = { with_out L o with
          err := set_error L.err .ERR_LEX line col "token buffer overflow".toList } := by
  unfold emit
  rw [if_pos (by rw [show (with_out L o).out = o from rfl]; exact h)]
  rfl

theorem take_succ_getD {α : Type} (d : α) (l : List α) (i : Nat) (h : i < l.length) :
    l.take (i + 1) = l.take i ++ [l.getD i d] := by
  rw [List.take_succ, List.getD_eq_getElem?_getD, List.getElem?_eq_getElem h]
  rfl

theorem pos_ok_advance (L : Lexer) (h : pos_ok L) (hlt : L.i < L.src.length) :
    pos_ok (lex_advance L).2 := by
  have ht : L.src.take (L.i + 1) = L.src.take L.i ++ [src_at L L.i] :=
    take_succ_getD NUL L.src L.i hlt
  by_cases hc : src_at L L.i = '\n'
  · have e : (lex_advance L).2 = { L with i := L.i + 1, line := L.line + 1, col := 1 } := by
      simp [lex_advance, hc]
    rw [e]
    refine ⟨?_, ?_⟩
    · show L.line + 1 = line_at L.src (L.i + 1)
      unfold line_at
      rw [ht, hc, List.count_append, h.1]
      unfold line_at
      simp
      omega
    · show 1 = col_at L.src (L.i + 1)
      unfold col_at
      rw [ht, hc]
      simp
  · have e : (lex_advance L).2 = { L with i := L.i + 1, col := L.col + 1 } := by
      simp [lex_advance, hc]
    rw [e]
    refine ⟨?_, ?_⟩
    · show L.line = line_at L.src (L.i + 1)
      unfold line_at
      rw [ht, List.count_append, h.1]
      unfold line_at
      have : List.count '\n' [src_at L L.i] = 0 := by
        rw [List.count_singleton]
        simp [hc]
      omega
    · show L.col + 1 = col_at L.src (L.i + 1)
      unfold col_at
      rw [ht, h.2]
      unfold col_at
      simp [hc]
      omega

theorem pos_ok_advance_peek (L : Lexer) (h : pos_ok L) (hn : lex_peek L ≠ NUL) :
    pos_ok (lex_advance L).2 :=
  pos_ok_advance L h (src_at_ne_nul_lt L L.i hn)

theorem lex_match_pos (L : Lexer) (e : Char) (he : e ≠ NUL) (h : pos_ok L) :
    pos_ok (lex_match L e).2 := by
  unfold lex_match
  split
  · rename_i hp
    exact pos_ok_advance_peek L h (by rw [hp]; exact he)
  · exact h

theorem lex_digits_pos (fuel : Nat) :
    ∀ (L : Lexer) (buf : CStr), pos_ok L → pos_ok (lex_digits fuel L buf).1 := by
  induction fuel with
  | zero => intro L buf h; exact h
  | succ f ih =>
    intro L buf h
    unfold lex_digits
    by_cases hd : isdigit (lex_peek L) = true
    · have ha := pos_ok_advance_peek L h (isdigit_ne_nul _ hd)
      simp only [hd, if_true]
      split
      · exact ih _ _ ha
      · exact ih _ _ ha
    · simp only [hd]
      exact h

theorem lex_ident_pos (fuel : Nat) :
    ∀ (L : Lexer) (buf : CStr), pos_ok L → pos_ok (lex_ident fuel L buf).1 := by
  induction fuel with
  | zero => intro L buf h; exact h
  | succ f ih =>
    intro L buf h
    unfold lex_ident
    by_cases hd : is_ident_part (lex_peek L) = true
    · have ha := pos_ok_advance_peek L h (is_ident_part_ne_nul _ hd)
      simp only [hd, if_true]
      split
      · exact ih _ _ ha
      · exact ih _ _ ha
    · simp only [hd]
      exact h

theorem lex_string_body_pos (fuel : Nat) :
    ∀ (L : Lexer) (buf : CStr) (esc : Bool),
      pos_ok L → pos_ok (lex_string_body fuel L buf esc).1 := by
  induction fuel with
  | zero => intro L buf esc h; exact h
  | succ f ih =>
    intro L buf esc h
    unfold lex_string_body
    by_cases hn : lex_peek L = NUL
    · simp only [hn, if_true]
      exact h
    · have ha := pos_ok_advance_peek L h hn
      simp only [hn, if_false]
      split
      · exact ha
      · split
        · exact ih _ _ _ ha
        · exact ih _ _ _ ha

theorem lex_digits_buf (fuel : Nat) :
    ∀ (L : Lexer) (buf : CStr), ∃ more, (lex_digits fuel L buf).2 = buf ++ more := by
  induction fuel with
  | zero => intro L buf; exact ⟨[], by simp [lex_digits]⟩
  | succ f ih =>
    intro L buf
    unfold lex_digits
    by_cases hd : isdigit (lex_peek L) = true
    · simp only [hd, if_true]
      split
      · obtain ⟨m, hm⟩ := ih (lex_advance L).2 (buf ++ [(lex_advance L).1])
        exact ⟨(lex_advance L).1 :: m, by rw [hm]; simp⟩
      · exact ih _ _
    · simp only [hd]
      exact ⟨[], by simp⟩

theorem lex_ident_buf (fuel : Nat) :
    ∀ (L : Lexer) (buf : CStr), ∃ more, (lex_ident fuel L buf).2 = buf ++ more := by
  induction fuel with
  | zero => intro L buf; exact ⟨[], by simp [lex_ident]⟩
  | succ f ih =>
    intro L buf
    unfold lex_ident
    by_cases hd : is_ident_part (lex_peek L) = true
    · simp only [hd, if_true]
      split
      · obtain ⟨m, hm⟩ := ih (lex_advance L).2 (buf ++ [(lex_advance L).1])
        exact ⟨(lex_advance L).1 :: m, by rw [hm]; simp⟩
      · exact ih _ _
    · simp only [hd]
      exact ⟨[], by simp⟩

/-- The lexeme of a number token begins with the digit the loop started
at. -/
theorem lex_digits_head (fuel : Nat) (L : Lexer) (h : isdigit (lex_peek L) = true) :
    (strncpy (lex_digits (fuel + 1) L []).2 127).headD NUL = lex_peek L := by
  unfold lex_digits
  simp only [h, if_true]
  rw [if_pos (by simp [MAX_TOKEN_LENGTH])]
  obtain ⟨m, hm⟩ := lex_digits_buf fuel (lex_advance L).2 ([] ++ [(lex_advance L).1])
  rw [hm, lex_advance_fst]
  rfl

/-- The lexeme of an identifier or keyword token begins with the character
the loop started at. -/
theorem lex_ident_head (fuel : Nat) (L : Lexer) (h : is_ident_part (lex_peek L) = true) :
    (strncpy (lex_ident (fuel + 1) L []).2 127).headD NUL = lex_peek L := by
  unfold lex_ident
  simp only [h, if_true]
  rw [if_pos (by simp [MAX_TOKEN_LENGTH])]
  obtain ⟨m, hm⟩ := lex_ident_buf fuel (lex_advance L).2 ([] ++ [(lex_advance L).1])
  rw [hm, lex_advance_fst]
  rfl

theorem src_drop_cons (L : Lexer) (h : lex_peek L ≠ NUL) :
    L.src.drop L.i = lex_peek L :: L.src.drop (L.i + 1) := by
  have hlt : L.i < L.src.length := src_at_ne_nul_lt L L.i h
  rw [List.drop_eq_getElem_cons hlt]
  congr 1
  unfold lex_peek src_at
  rw [List.getD_eq_getElem?_getD, List.getElem?_eq_getElem hlt]
  rfl

theorem peek_advance_head (L : Lexer) :
    lex_peek (lex_advance L).2 = (L.src.drop (L.i + 1)).headD NUL := by
  have : (lex_advance L).2.src.drop (lex_advance L).2.i = L.src.drop (L.i + 1) := by
    rw [lex_advance_src, lex_advance_i]
  rw [peek_of_drop _ _ this]

theorem lex_digits_end (fuel : Nat) :
    ∀ (L : Lexer) (buf : CStr), (L.src.drop L.i).length ≤ fuel →
      (lex_digits fuel L buf).1.i = L.i + ((L.src.drop L.i).takeWhile isdigit).length := by
  induction fuel with
  | zero =>
    intro L buf h
    have : L.src.drop L.i = [] := List.eq_nil_of_length_eq_zero (by omega)
    rw [this]
    rfl
  | succ f ih =>
    intro L buf h
    unfold lex_digits
    by_cases hd : isdigit (lex_peek L) = true
    · have hc := src_drop_cons L (isdigit_ne_nul _ hd)
      have hdrop := advance_drop L _ _ hc
      have hl : ((lex_advance L).2.src.drop (lex_advance L).2.i).length ≤ f := by
        rw [hdrop]
        rw [hc, List.length_cons] at h
        omega
      have e : (L.src.drop L.i).takeWhile isdigit
          = lex_peek L :: (L.src.drop (L.i + 1)).takeWhile isdigit := by
        rw [hc, List.takeWhile_cons_of_pos hd]
      simp only [hd, if_true]
      rw [e, List.length_cons]
      split
      · rw [ih _ _ hl, hdrop, lex_advance_i]; omega
      · rw [ih _ _ hl, hdrop, lex_advance_i]; omega
    · simp only [hd]
      have e : (L.src.drop L.i).takeWhile isdigit = [] := by
        cases hr : L.src.drop L.i with
        | nil => rfl
        | cons c cs =>
          have hp := peek_of_drop_cons L c cs hr
          rw [hp] at hd
          exact List.takeWhile_cons_of_neg hd
      rw [e]
      rfl

theorem lex_ident_end (fuel : Nat) :
    ∀ (L : Lexer) (buf : CStr), (L.src.drop L.i).length ≤ fuel →
      (lex_ident fuel L buf).1.i
        = L.i + ((L.src.drop L.i).takeWhile is_ident_part).length := by
  induction fuel with
  | zero =>
    intro L buf h
    have : L.src.drop L.i = [] := List.eq_nil_of_length_eq_zero (by omega)
    rw [this]
    rfl
  | succ f ih =>
    intro L buf h
    unfold lex_ident
    by_cases hd : is_ident_part (lex_peek L) = true
    · have hc := src_drop_cons L (is_ident_part_ne_nul _ hd)
      have hdrop := advance_drop L _ _ hc
      have hl : ((lex_advance L).2.src.drop (lex_advance L).2.i).length ≤ f := by
        rw [hdrop]
        rw [hc, List.length_cons] at h
        omega
      have e : (L.src.drop L.i).takeWhile is_ident_part
          = lex_peek L :: (L.src.drop (L.i + 1)).takeWhile is_ident_part := by
        rw [hc, List.takeWhile_cons_of_pos hd]
      simp only [hd, if_true]
      rw [e, List.length_cons]
      split
      · rw [ih _ _ hl, hdrop, lex_advance_i]; omega
      · rw [ih _ _ hl, hdrop, lex_advance_i]; omega
    · simp only [hd]
      have e : (L.src.drop L.i).takeWhile is_ident_part = [] := by
        cases hr : L.src.drop L.i with
        | nil => rfl
        | cons c cs =>
          have hp := peek_of_drop_cons L c cs hr
          rw [hp] at hd
          exact List.takeWhile_cons_of_neg hd
      rw [e]
      rfl

theorem lex_string_body_end (fuel : Nat) :
    ∀ (L : Lexer) (buf : CStr) (esc : Bool), (L.src.drop L.i).length ≤ fuel →
      (lex_string_body fuel L buf esc).1.i = L.i + str_len (L.src.drop L.i) esc := by
  induction fuel with
  | zero =>
    intro L buf esc h
    have : L.src.drop L.i = [] := List.eq_nil_of_length_eq_zero (by omega)
    rw [this]
    rfl
  | succ f ih =>
    intro L buf esc h
    unfold lex_string_body
    by_cases h0 : lex_peek L = NUL
    · simp only [h0, if_true]
      have e : str_len (L.src.drop L.i) esc = 0 := by
        cases hr : L.src.drop L.i with
        | nil => rfl
        | cons c cs =>
          have hp := peek_of_drop_cons L c cs hr
          rw [h0] at hp
          unfold str_len
          rw [if_pos hp.symm]
      rw [e]
      rfl
    · have hc := src_drop_cons L h0
      have hdrop := advance_drop L _ _ hc
      have hl : ((lex_advance L).2.src.drop (lex_advance L).2.i).length ≤ f := by
        rw [hdrop]
        rw [hc, List.length_cons] at h
        omega
      have e : str_len (L.src.drop L.i) esc
          = if (!esc && lex_peek L = '"') then 1
            else if (!esc && lex_peek L = '\\') then 1 + str_len (L.src.drop (L.i + 1)) true
            else 1 + str_len (L.src.drop (L.i + 1)) false := by
        rw [hc]
        conv => lhs; unfold str_len
        rw [if_neg h0]
      simp only [h0, if_false]
      rw [e, lex_advance_fst]
      split
      · rw [lex_advance_i]
      · split
        · rw [ih _ _ _ hl, hdrop, lex_advance_i]; omega
        · rw [ih _ _ _ hl, hdrop, lex_advance_i]; omega

theorem lex_match_true (L : Lexer) (e : Char) (h : (lex_match L e).1 = true) :
    lex_peek L = e ∧ (lex_match L e).2 = (lex_advance L).2 := by
  unfold lex_match at h ⊢
  split
  · rename_i hc; exact ⟨hc, rfl⟩
  · rename_i hc; rw [if_neg hc] at h; exact absurd h (by simp)

theorem lex_match_false (L : Lexer) (e : Char) (h : ¬ (lex_match L e).1 = true) :
    lex_peek L ≠ e ∧ (lex_match L e).2 = L := by
  unfold lex_match at h ⊢
  split
  · rename_i hc; rw [if_pos hc] at h; exact absurd rfl h
  · rename_i hc; exact ⟨hc, rfl⟩

/-- Length of a token that begins with a character which is neither a
digit, an identifier start nor a quote. -/
theorem token_len_op (c : Char) (cs : CStr) (h1 : isdigit c = false)
    (h2 : is_ident_start c = false) (h3 : c ≠ '"') :
    token_len (c :: cs) = if two_char c (cs.headD NUL) then 2 else 1 := by
  unfold token_len
  simp [h1, h2, h3]

/-- The operator `switch`, for any token buffer `o`: either a token is
emitted after the scan, or a lexical error is recorded. -/
theorem lex_operator_shape (L : Lexer) (c : Char) (hc : lex_peek L = c) (hnul : c ≠ NUL) :
    ∃ (L1 : Lexer) (k : Option (TokenType × CStr)) (msg : CStr), Shape L L1 k ∧
      ∀ (o : List Token) (line col : Nat),
        lex_operator (with_out L o) c line col = after_scan L1 k msg line col o := by
  have hp0 : lex_peek L ≠ NUL := by rw [hc]; exact hnul
  have hlt : L.i < L.src.length := src_at_ne_nul_lt L L.i hp0
  have hdrop : L.src.drop L.i = c :: L.src.drop (L.i + 1) := by
    rw [src_drop_cons L hp0, hc]
  have hA : Scan L (lex_advance L).2 := Scan.advance L hp0
  have hiA : L.i < (lex_advance L).2.i := by rw [lex_advance_i]; omega
  have hM : ∀ e : Char, e ≠ NUL → Scan L (lex_match (lex_advance L).2 e).2 :=
    fun e hne => hA.trans (lex_match_scan _ e hne)
  have hiM : ∀ e : Char, e ≠ NUL → L.i < (lex_match (lex_advance L).2 e).2.i := fun e hne => by
    have := (lex_match_scan (lex_advance L).2 e hne).mono
    omega
  have hfc : ∀ (t : TokenType) (lex : CStr), t ≠ .T_EOF → t ≠ .T_STRING →
      (strncpy lex 127).headD NUL = c →
      ∀ t1 lex1, some (t, lex) = some (t1, lex1) →
        t1 ≠ .T_EOF ∧
        first_char { type := t1, lexeme := strncpy lex1 127, line := L.line, col := L.col }
          = lex_peek L := by
    intro t lex h1 h2 h3 t1 lex1 he
    simp only [Option.some.injEq, Prod.mk.injEq] at he
    rw [← he.1, ← he.2]
    refine ⟨h1, ?_⟩
    rw [hc, ← h3]
    cases t <;> first | rfl | exact absurd rfl h1 | exact absurd rfl h2
  have S1 : ∀ (t : TokenType) (lex : CStr), t ≠ .T_EOF → t ≠ .T_STRING →
      (strncpy lex 127).headD NUL = c →
      isdigit c = false → is_ident_start c = false → c ≠ '"' →
      (∀ d, two_char c d = false) → Shape L (lex_advance L).2 (some (t, lex)) :=
    fun t lex h1 h2 h3 c1 c2 c3 htw =>
      ⟨hA, fun _ => hiA, fun h => pos_ok_advance L h hlt, hfc t lex h1 h2 h3, fun _ => by
        rw [hdrop, token_len_op c _ c1 c2 c3, htw, lex_advance_i]
        rfl⟩
  have S2t : ∀ (e : Char) (t : TokenType) (lex : CStr), e ≠ NUL → t ≠ .T_EOF → t ≠ .T_STRING →
      (strncpy lex 127).headD NUL = c →
      isdigit c = false → is_ident_start c = false → c ≠ '"' →
      (lex_match (lex_advance L).2 e).1 = true → two_char c e = true →
      Shape L (lex_match (lex_advance L).2 e).2 (some (t, lex)) :=
    fun e t lex hne h1 h2 h3 c1 c2 c3 hm htw =>
      ⟨hM e hne, fun _ => hiM e hne,
        fun h => lex_match_pos _ e hne (pos_ok_advance L h hlt), hfc t lex h1 h2 h3, fun _ => by
        have hmt := lex_match_true _ e hm
        rw [hdrop, token_len_op c _ c1 c2 c3, ← peek_advance_head, hmt.1, htw, hmt.2,
          lex_advance_i, lex_advance_i]
        rfl⟩
  have S2f : ∀ (e : Char) (t : TokenType) (lex : CStr), e ≠ NUL → t ≠ .T_EOF → t ≠ .T_STRING →
      (strncpy lex 127).headD NUL = c →
      isdigit c = false → is_ident_start c = false → c ≠ '"' →
      ¬ (lex_match (lex_advance L).2 e).1 = true → (∀ d, d ≠ e → two_char c d = false) →
      Shape L (lex_match (lex_advance L).2 e).2 (some (t, lex)) :=
    fun e t lex hne h1 h2 h3 c1 c2 c3 hm htw =>
      ⟨hM e hne, fun _ => hiM e hne,
        fun h => lex_match_pos _ e hne (pos_ok_advance L h hlt), hfc t lex h1 h2 h3, fun _ => by
        have hmf := lex_match_false _ e hm
        rw [hdrop, token_len_op c _ c1 c2 c3, ← peek_advance_head, htw _ hmf.1, hmf.2,
          lex_advance_i]
        rfl⟩
  have S3 : ∀ (e : Char), e ≠ NUL → Shape L (lex_match (lex_advance L).2 e).2 none :=
    fun e hne =>
      ⟨hM e hne, fun h => absurd rfl h,
        fun h => lex_match_pos _ e hne (pos_ok_advance L h hlt),
        fun t1 lex1 he => by simp at he, fun h => absurd rfl h⟩
  by_cases h1 : c = '+'
  · refine ⟨_, _, [], S1 .T_PLUS "+".toList (by decide) (by decide) (by rw [h1]; rfl)
      (by rw [h1]; decide)
      (by rw [h1]; decide) (by rw [h1]; decide)
      (by rw [h1]; intro d; rfl), ?_⟩
    intro o line col
    unfold lex_operator
    simp only [lex_advance_with_out, lex_match_with_out]
    rw [if_pos h1]
    rfl
  by_cases h2 : c = '-'
  · refine ⟨_, _, [], S1 .T_MINUS "-".toList (by decide) (by decide) (by rw [h2]; rfl)
      (by rw [h2]; decide)
      (by rw [h2]; decide) (by rw [h2]; decide)
      (by rw [h2]; intro d; rfl), ?_⟩
    intro o line col
    unfold lex_operator
    simp only [lex_advance_with_out, lex_match_with_out, h1, if_false]
    rw [if_pos h2]
    rfl
  by_cases h3 : c = '*'
  · refine ⟨_, _, [], S1 .T_STAR "*".toList (by decide) (by decide) (by rw [h3]; rfl)
      (by rw [h3]; decide)
      (by rw [h3]; decide) (by rw [h3]; decide)
      (by rw [h3]; intro d; rfl), ?_⟩
    intro o line col
    unfold lex_operator
    simp only [lex_advance_with_out, lex_match_with_out, h1, h2, if_false]
    rw [if_pos h3]
    rfl
  by_cases h4 : c = '/'
  · refine ⟨_, _, [], S1 .T_SLASH "/".toList (by decide) (by decide) (by rw [h4]; rfl)
      (by rw [h4]; decide)
      (by rw [h4]; decide) (by rw [h4]; decide)
      (by rw [h4]; intro d; rfl), ?_⟩
    intro o line col
    unfold lex_operator
    simp only [lex_advance_with_out, lex_match_with_out, h1, h2, h3, if_false]
    rw [if_pos h4]
    rfl
  by_cases h5 : c = '!'
  · by_cases hm : (lex_match (lex_advance L).2 '=').1 = true
    · refine ⟨_, _, [], S2t '=' .T_NE "!=".toList (by decide) (by decide) (by decide)
        (by rw [h5]; rfl) (by rw [h5]; decide)
        (by rw [h5]; decide) (by rw [h5]; decide) hm (by rw [h5]; rfl), ?_⟩
      intro o line col
      unfold lex_operator
      simp only [lex_advance_with_out, lex_match_with_out, h1, h2, h3, h4, if_false]
      rw [if_pos h5]
      rw [if_pos hm]
      rfl
    · refine ⟨_, _, [], S2f '=' .T_NOT "!".toList (by decide) (by decide) (by decide)
        (by rw [h5]; rfl) (by rw [h5]; decide)
        (by rw [h5]; decide) (by rw [h5]; decide) hm
        (by rw [h5]; intro d hd; simp [two_char, hd]), ?_⟩
      intro o line col
      unfold lex_operator
      simp only [lex_advance_with_out, lex_match_with_out, h1, h2, h3, h4, if_false]
      rw [if_pos h5]
      rw [if_neg hm]
      rfl
  by_cases h6 : c = '='
  · by_cases hm : (lex_match (lex_advance L).2 '=').1 = true
    · refine ⟨_, _, [], S2t '=' .T_EQ "==".toList (by decide) (by decide) (by decide)
        (by rw [h6]; rfl) (by rw [h6]; decide)
        (by rw [h6]; decide) (by rw [h6]; decide) hm (by rw [h6]; rfl), ?_⟩
      intro o line col
      unfold lex_operator
      simp only [lex_advance_with_out, lex_match_with_out, h1, h2, h3, h4, h5, if_false]
      rw [if_pos h6]
      rw [if_pos hm]
      rfl
    · refine ⟨_, _, [], S2f '=' .T_ASSIGN "=".toList (by decide) (by decide) (by decide)
        (by rw [h6]; rfl) (by rw [h6]; decide)
        (by rw [h6]; decide) (by rw [h6]; decide) hm
        (by rw [h6]; intro d hd; simp [two_char, hd]), ?_⟩
      intro o line col
      unfold lex_operator
      simp only [lex_advance_with_out, lex_match_with_out, h1, h2, h3, h4, h5, if_false]
      rw [if_pos h6]
      rw [if_neg hm]
      rfl
  by_cases h7 : c = '<'
  · by_cases hm : (lex_match (lex_advance L).2 '=').1 = true
    · refine ⟨_, _, [], S2t '=' .T_LE "<=".toList (by decide) (by decide) (by decide)
        (by rw [h7]; rfl) (by rw [h7]; decide)
        (by rw [h7]; decide) (by rw [h7]; decide) hm (by rw [h7]; rfl), ?_⟩
      intro o line col
      unfold lex_operator
      simp only [lex_advance_with_out, lex_match_with_out, h1, h2, h3, h4, h5, h6, if_false]
      rw [if_pos h7]
      rw [if_pos hm]
      rfl
    · refine ⟨_, _, [], S2f '=' .T_LT "<".toList (by decide) (by decide) (by decide)
        (by rw [h7]; rfl) (by rw [h7]; decide)
        (by rw [h7]; decide) (by rw [h7]; decide) hm
        (by rw [h7]; intro d hd; simp [two_char, hd]), ?_⟩
      intro o line col
      unfold lex_operator
      simp only [lex_advance_with_out, lex_match_with_out, h1, h2, h3, h4, h5, h6, if_false]
      rw [if_pos h7]
      rw [if_neg hm]
      rfl
  by_cases h8 : c = '>'
  · by_cases hm : (lex_match (lex_advance L).2 '=').1 = true
    · refine ⟨_, _, [], S2t '=' .T_GE ">=".toList (by decide) (by decide) (by decide)
        (by rw [h8]; rfl) (by rw [h8]; decide)
        (by rw [h8]; decide) (by rw [h8]; decide) hm (by rw [h8]; rfl), ?_⟩
      intro o line col
      unfold lex_operator
      simp only [lex_advance_with_out, lex_match_with_out, h1, h2, h3, h4, h5, h6, h7, if_false]
      rw [if_pos h8]
      rw [if_pos hm]
      rfl
    · refine ⟨_, _, [], S2f '=' .T_GT ">".toList (by decide) (by decide) (by decide)
        (by rw [h8]; rfl) (by rw [h8]; decide)
        (by rw [h8]; decide) (by rw [h8]; decide) hm
        (by rw [h8]; intro d hd; simp [two_char, hd]), ?_⟩
      intro o line col
      unfold lex_operator
      simp only [lex_advance_with_out, lex_match_with_out, h1, h2, h3, h4, h5, h6, h7, if_false]
      rw [if_pos h8]
      rw [if_neg hm]
      rfl
  by_cases h9 : c = '&'
  · by_cases hm : (lex_match (lex_advance L).2 '&').1 = true
    · refine ⟨_, _, [], S2t '&' .T_AND "&&".toList (by decide) (by decide) (by decide)
        (by rw [h9]; rfl) (by rw [h9]; decide)
        (by rw [h9]; decide) (by rw [h9]; decide) hm (by rw [h9]; rfl), ?_⟩
      intro o line col
      unfold lex_operator
      simp only [lex_advance_with_out, lex_match_with_out, h1, h2, h3, h4, h5, h6, h7, h8, if_false]
      rw [if_pos h9]
      rw [if_pos hm]
      rfl
    · refine ⟨_, none, "expected '&' to '&&'".toList, S3 '&' (by decide), ?_⟩
      intro o line col
      unfold lex_operator
      simp only [lex_advance_with_out, lex_match_with_out, h1, h2, h3, h4, h5, h6, h7, h8, if_false]
      rw [if_pos h9]
      rw [if_neg hm]
      rfl
  by_cases h10 : c = '|'
  · by_cases hm : (lex_match (lex_advance L).2 '|').1 = true
    · refine ⟨_, _, [], S2t '|' .T_OR "||".toList (by decide) (by decide) (by decide)
        (by rw [h10]; rfl) (by rw [h10]; decide)
        (by rw [h10]; decide) (by rw [h10]; decide) hm (by rw [h10]; rfl), ?_⟩
      intro o line col
      unfold lex_operator
      simp only [lex_advance_with_out, lex_match_with_out, h1, h2, h3, h4, h5, h6, h7, h8, h9, if_false]
      rw [if_pos h10]
      rw [if_pos hm]
      rfl
    · refine ⟨_, none, "expected'|' to'||'".toList, S3 '|' (by decide), ?_⟩
      intro o line col
      unfold lex_operator
      simp only [lex_advance_with_out, lex_match_with_out, h1, h2, h3, h4, h5, h6, h7, h8, h9, if_false]
      rw [if_pos h10]
      rw [if_neg hm]
      rfl
  by_cases h11 : c = '('
  · refine ⟨_, _, [], S1 .T_LPAREN "(".toList (by decide) (by decide) (by rw [h11]; rfl)
      (by rw [h11]; decide)
      (by rw [h11]; decide) (by rw [h11]; decide)
      (by rw [h11]; intro d; rfl), ?_⟩
    intro o line col
    unfold lex_operator
    simp only [lex_advance_with_out, lex_match_with_out, h1, h2, h3, h4, h5, h6, h7, h8, h9, h10, if_false]
    rw [if_pos h11]
    rfl
  by_cases h12 : c = ')'
  · refine ⟨_, _, [], S1 .T_RPAREN ")".toList (by decide) (by decide) (by rw [h12]; rfl)
      (by rw [h12]; decide)
      (by rw [h12]; decide) (by rw [h12]; decide)
      (by rw [h12]; intro d; rfl), ?_⟩
    intro o line col
    unfold lex_operator
    simp only [lex_advance_with_out, lex_match_with_out, h1, h2, h3, h4, h5, h6, h7, h8, h9, h10, h11, if_false]
    rw [if_pos h12]
    rfl
  by_cases h13 : c = '\x7b'
  · refine ⟨_, _, [], S1 .T_LBRACE "\x7b".toList (by decide) (by decide) (by rw [h13]; rfl)
      (by rw [h13]; decide)
      (by rw [h13]; decide) (by rw [h13]; decide)
      (by rw [h13]; intro d; rfl), ?_⟩
    intro o line col
    unfold lex_operator
    simp only [lex_advance_with_out, lex_match_with_out, h1, h2, h3, h4, h5, h6, h7, h8, h9, h10, h11, h12, if_false]
    rw [if_pos h13]
    rfl
  by_cases h14 : c = '\x7d'
  · refine ⟨_, _, [], S1 .T_RBRACE "\x7d".toList (by decide) (by decide) (by rw [h14]; rfl)
      (by rw [h14]; decide)
      (by rw [h14]; decide) (by rw [h14]; decide)
      (by rw [h14]; intro d; rfl), ?_⟩
    intro o line col
    unfold lex_operator
    simp only [lex_advance_with_out, lex_match_with_out, h1, h2, h3, h4, h5, h6, h7, h8, h9, h10, h11, h12, h13, if_false]
    rw [if_pos h14]
    rfl
  by_cases h15 : c = ';'
  · refine ⟨_, _, [], S1 .T_SEMI ";".toList (by decide) (by decide) (by rw [h15]; rfl)
      (by rw [h15]; decide)
      (by rw [h15]; decide) (by rw [h15]; decide)
      (by rw [h15]; intro d; rfl), ?_⟩
    intro o line col
    unfold lex_operator
    simp only [lex_advance_with_out, lex_match_with_out, h1, h2, h3, h4, h5, h6, h7, h8, h9, h10, h11, h12, h13, h14, if_false]
    rw [if_pos h15]
    rfl
  by_cases h16 : c = ','
  · refine ⟨_, _, [], S1 .T_COMMA ",".toList (by decide) (by decide) (by rw [h16]; rfl)
      (by rw [h16]; decide)
      (by rw [h16]; decide) (by rw [h16]; decide)
      (by rw [h16]; intro d; rfl), ?_⟩
    intro o line col
    unfold lex_operator
    simp only [lex_advance_with_out, lex_match_with_out, h1, h2, h3, h4, h5, h6, h7, h8, h9, h10, h11, h12, h13, h14, h15, if_false]
    rw [if_pos h16]
    rfl
  refine ⟨L, none, "unknown caracter'".toList ++ [c] ++ "'".toList,
    ⟨Scan.refl L, fun h => absurd rfl h, fun h => h, fun t1 lex1 he => by simp at he,
      fun h => absurd rfl h⟩, ?_⟩
  intro o line col
  unfold lex_operator
  simp only [lex_advance_with_out, lex_match_with_out, h1, h2, h3, h4, h5, h6, h7, h8, h9, h10, h11, h12, h13, h14, h15, h16, if_false]
  rfl

theorem with_out_src (L : Lexer) (o : List Token) : (with_out L o).src = L.src := rfl

theorem with_out_line (L : Lexer) (o : List Token) : (with_out L o).line = L.line := rfl

theorem with_out_col (L : Lexer) (o : List Token) : (with_out L o).col = L.col := rfl

theorem set_error_kind_ne (g : Error) (k : ErrKind) (line col : Nat) (msg : CStr)
    (hk : k ≠ .ERR_NONE) : (set_error g k line col msg).kind ≠ .ERR_NONE := by
  unfold set_error
  split
  · assumption
  · exact hk

theorem first_char_of_lexeme (t : TokenType) (lx : CStr) (line col : Nat)
    (h1 : t ≠ .T_EOF) (h2 : t ≠ .T_STRING) :
    first_char { type := t, lexeme := lx, line := line, col := col } = lx.headD NUL := by
  cases t <;> first | rfl | exact absurd rfl h1 | exact absurd rfl h2

theorem keyword_type_ne_string (buf : CStr) : keyword_type buf ≠ .T_STRING := by
  unfold keyword_type
  repeat' split
  all_goals decide

theorem token_len_digit (c : Char) (cs : CStr) (h : isdigit c = true) :
    token_len (c :: cs) = ((c :: cs).takeWhile isdigit).length := by
  unfold token_len
  simp only []
  rw [if_pos h]

theorem token_len_ident (c : Char) (cs : CStr) (h1 : ¬ isdigit c = true)
    (h2 : is_ident_start c = true) :
    token_len (c :: cs) = ((c :: cs).takeWhile is_ident_part).length := by
  unfold token_len
  simp only []
  rw [if_neg h1, if_pos h2]

theorem token_len_string (cs : CStr) : token_len ('"' :: cs) = 1 + str_len cs false := by
  unfold token_len
  simp only []
  rw [if_neg (by decide), if_neg (by decide)]
  rfl

/-- One token-producing iteration of the main loop, for any token buffer
`o`: the scan of the token does not depend on the buffer, and the iteration
ends with the `emit` of the token or with a lexical error. -/
theorem lex_iter (L : Lexer) (hnul : lex_peek L ≠ NUL) (hsp : ¬ isspace (lex_peek L) = true) :
    ∃ (L1 : Lexer) (k : Option (TokenType × CStr)) (msg : CStr), Shape L L1 k ∧
      ∀ (o : List Token) (fuel : Nat),
        lex_loop (fuel + 1) (with_out L o)
          = if (after_scan L1 k msg L.line L.col o).err.kind ≠ .ERR_NONE
            then after_scan L1 k msg L.line L.col o
            else lex_loop fuel (after_scan L1 k msg L.line L.col o) := by
  have hlt : L.i < L.src.length := src_at_ne_nul_lt L L.i hnul
  have hlen : L.src.length = (L.src.length - 1) + 1 := by omega
  by_cases h2 : isdigit (lex_peek L) = true
  · refine ⟨(lex_digits L.src.length L []).1, some (.T_NUMBER, (lex_digits L.src.length L []).2),
      [], ⟨lex_digits_scan _ _ _, fun _ => ?_, lex_digits_pos _ _ _, ?_, fun _ => ?_⟩, ?_⟩
    · rw [hlen]; exact lex_digits_progress _ L [] h2
    · intro t lex he
      simp only [Option.some.injEq, Prod.mk.injEq] at he
      rw [← he.1, ← he.2]
      refine ⟨by decide, ?_⟩
      rw [first_char_of_lexeme _ _ _ _ (by decide) (by decide), hlen]
      exact lex_digits_head _ L h2
    · rw [lex_digits_end L.src.length L [] (by rw [List.length_drop]; omega),
        src_drop_cons L hnul, token_len_digit _ _ h2]
    · intro o fuel
      have a0 : ¬ lex_peek (with_out L o) = NUL := hnul
      have a1 : ¬ isspace (lex_peek (with_out L o)) = true := hsp
      have a2 : isdigit (lex_peek (with_out L o)) = true := h2
      rw [lex_loop]
      simp only []
      rw [if_neg a0, if_neg a1, if_pos a2]
      simp only [lex_digits_with_out]
      rfl
  by_cases h3 : is_ident_start (lex_peek L) = true
  · refine ⟨(lex_ident L.src.length L []).1,
      some (keyword_type (lex_ident L.src.length L []).2, (lex_ident L.src.length L []).2),
      [], ⟨lex_ident_scan _ _ _, fun _ => ?_, lex_ident_pos _ _ _, ?_, fun _ => ?_⟩, ?_⟩
    · rw [hlen]; exact lex_ident_progress _ L [] (ident_start_part _ h3)
    · intro t lex he
      simp only [Option.some.injEq, Prod.mk.injEq] at he
      rw [← he.1, ← he.2]
      refine ⟨keyword_type_ne_eof _, ?_⟩
      rw [first_char_of_lexeme _ _ _ _ (keyword_type_ne_eof _) (keyword_type_ne_string _), hlen]
      exact lex_ident_head _ L (ident_start_part _ h3)
    · rw [lex_ident_end L.src.length L [] (by rw [List.length_drop]; omega),
        src_drop_cons L hnul, token_len_ident _ _ h2 h3]
    · intro o fuel
      have a0 : ¬ lex_peek (with_out L o) = NUL := hnul
      have a1 : ¬ isspace (lex_peek (with_out L o)) = true := hsp
      have a2 : ¬ isdigit (lex_peek (with_out L o)) = true := h2
      have a3 : is_ident_start (lex_peek (with_out L o)) = true := h3
      rw [lex_loop]
      simp only []
      rw [if_neg a0, if_neg a1, if_neg a2, if_pos a3]
      simp only [lex_ident_with_out]
      rfl
  by_cases h4 : lex_peek L = '"'
  · have hA := Scan.advance L hnul
    have hsc := hA.trans (lex_string_body_scan L.src.length (lex_advance L).2 [] false)
    have hadv : L.i < (lex_string_body L.src.length (lex_advance L).2 [] false).1.i := by
      have := (lex_string_body_scan L.src.length (lex_advance L).2 [] false).mono
      rw [lex_advance_i] at this
      omega
    have hpos : pos_ok L → pos_ok (lex_string_body L.src.length (lex_advance L).2 [] false).1 :=
      fun h => lex_string_body_pos _ _ _ _ (pos_ok_advance L h hlt)
    by_cases hcl : src_at (lex_string_body L.src.length (lex_advance L).2 [] false).1
        ((lex_string_body L.src.length (lex_advance L).2 [] false).1.i - 1) ≠ '"'
    · refine ⟨(lex_string_body L.src.length (lex_advance L).2 [] false).1, none,
        "string no closure".toList,
        ⟨hsc, fun h => absurd rfl h, hpos, fun t lex he => by simp at he,
          fun h => absurd rfl h⟩, ?_⟩
      intro o fuel
      have a0 : ¬ lex_peek (with_out L o) = NUL := hnul
      have a1 : ¬ isspace (lex_peek (with_out L o)) = true := hsp
      have a2 : ¬ isdigit (lex_peek (with_out L o)) = true := h2
      have a3 : ¬ is_ident_start (lex_peek (with_out L o)) = true := h3
      have a4 : lex_peek (with_out L o) = '"' := h4
      have hR : (after_scan (lex_string_body L.src.length (lex_advance L).2 [] false).1 none
          "string no closure".toList L.line L.col o).err.kind ≠ .ERR_NONE :=
        set_error_kind_ne _ .ERR_LEX _ _ _ (by decide)
      have hcl2 : src_at (with_out (lex_string_body L.src.length (lex_advance L).2 [] false).1 o)
          ((with_out (lex_string_body L.src.length (lex_advance L).2 [] false).1 o).i - 1)
            ≠ '"' := hcl
      rw [if_pos hR]
      rw [lex_loop]
      simp only []
      rw [if_neg a0, if_neg a1, if_neg a2, if_neg a3, if_pos a4]
      simp only [lex_advance_with_out, lex_string_body_with_out, with_out_src]
      rw [if_pos hcl2]
      rfl
    · refine ⟨(lex_string_body L.src.length (lex_advance L).2 [] false).1,
        some (.T_STRING, (lex_string_body L.src.length (lex_advance L).2 [] false).2), [],
        ⟨hsc, fun _ => hadv, hpos, ?_, fun _ => ?_⟩, ?_⟩
      · intro t lex he
        simp only [Option.some.injEq, Prod.mk.injEq] at he
        rw [← he.1, ← he.2]
        exact ⟨by decide, h4.symm⟩
      · rw [lex_string_body_end L.src.length (lex_advance L).2 [] false
            (by rw [lex_advance_src, List.length_drop]; omega),
          lex_advance_i, lex_advance_src, src_drop_cons L hnul, h4, token_len_string]
        omega
      · intro o fuel
        have a0 : ¬ lex_peek (with_out L o) = NUL := hnul
        have a1 : ¬ isspace (lex_peek (with_out L o)) = true := hsp
        have a2 : ¬ isdigit (lex_peek (with_out L o)) = true := h2
        have a3 : ¬ is_ident_start (lex_peek (with_out L o)) = true := h3
        have a4 : lex_peek (with_out L o) = '"' := h4
        have hcl2 : ¬ src_at (with_out (lex_string_body L.src.length (lex_advance L).2 [] false).1 o)
            ((with_out (lex_string_body L.src.length (lex_advance L).2 [] false).1 o).i - 1)
              ≠ '"' := hcl
        rw [lex_loop]
        simp only []
        rw [if_neg a0, if_neg a1, if_neg a2, if_neg a3, if_pos a4]
        simp only [lex_advance_with_out, lex_string_body_with_out, with_out_src]
        rw [if_neg hcl2]
        rfl
  obtain ⟨L1, k, msg, hshape, heq⟩ := lex_operator_shape L (lex_peek L) rfl hnul
  refine ⟨L1, k, msg, hshape, ?_⟩
  intro o fuel
  have a0 : ¬ lex_peek (with_out L o) = NUL := hnul
  have a1 : ¬ isspace (lex_peek (with_out L o)) = true := hsp
  have a2 : ¬ isdigit (lex_peek (with_out L o)) = true := h2
  have a3 : ¬ is_ident_start (lex_peek (with_out L o)) = true := h3
  have a4 : ¬ lex_peek (with_out L o) = '"' := h4
  rw [lex_loop]
  simp only []
  rw [if_neg a0, if_neg a1, if_neg a2, if_neg a3, if_neg a4]
  rw [show lex_operator (with_out L o) (lex_peek (with_out L o)) (with_out L o).line
      (with_out L o).col = after_scan L1 k msg L.line L.col o from heq o L.line L.col]

theorem lex_loop_nul (fuel : Nat) (L : Lexer) (h : lex_peek L = NUL) :
    lex_loop (fuel + 1) L = emit L .T_EOF [] L.line L.col := by
  rw [lex_loop]
  simp only []
  rw [if_pos h]

theorem lex_loop_space (fuel : Nat) (L : Lexer) (h0 : lex_peek L ≠ NUL)
    (h1 : isspace (lex_peek L) = true) :
    lex_loop (fuel + 1) L = lex_loop fuel (lex_advance L).2 := by
  rw [lex_loop]
  simp only []
  rw [if_neg h0, if_pos h1]

/-- The three outcomes of `after_scan`: a lexical error of the scan, the
token stored when the buffer has room, the overflow error when it is
full. -/
theorem after_scan_none (L1 : Lexer) (msg : CStr) (line col : Nat) (o : List Token) :
    after_scan L1 none msg line col o
      = { with_out L1 o with err := set_error L1.err .ERR_LEX line col msg } := rfl

theorem after_scan_room (L1 : Lexer) (t : TokenType) (lex msg : CStr) (line col : Nat)
    (o : List Token) (h : o.length < MAX_TOKENS) :
    after_scan L1 (some (t, lex)) msg line col o
      = with_out L1
          (o ++ [{ type := t, lexeme := strncpy lex 127, line := line, col := col }]) :=
  emit_with_out_room L1 o t lex line col h

theorem after_scan_full (L1 : Lexer) (t : TokenType) (lex msg : CStr) (line col : Nat)
    (o : List Token) (h : MAX_TOKENS ≤ o.length) :
    after_scan L1 (some (t, lex)) msg line col o
      = { with_out L1 o with
          err := set_error L1.err .ERR_LEX line col "token buffer overflow".toList } :=
  emit_with_out_full L1 o t lex line col h

theorem after_scan_none_err (L1 : Lexer) (msg : CStr) (line col : Nat) (o : List Token) :
    (after_scan L1 none msg line col o).err.kind ≠ .ERR_NONE :=
  set_error_kind_ne _ .ERR_LEX _ _ _ (by decide)

theorem after_scan_out_le (L1 : Lexer) (k : Option (TokenType × CStr)) (msg : CStr)
    (line col : Nat) (o : List Token) (h : o.length ≤ MAX_TOKENS) :
    (after_scan L1 k msg line col o).out.length ≤ MAX_TOKENS := by
  cases k with
  | none => exact h
  | some p =>
    obtain ⟨t, lex⟩ := p
    by_cases hr : o.length < MAX_TOKENS
    · rw [after_scan_room _ _ _ _ _ _ _ hr]
      show (o ++ [_]).length ≤ MAX_TOKENS
      rw [List.length_append, List.length_cons, List.length_nil]
      omega
    · rw [after_scan_full _ _ _ _ _ _ _ (by omega)]
      exact h

theorem after_scan_src (L1 : Lexer) (k : Option (TokenType × CStr)) (msg : CStr)
    (line col : Nat) (o : List Token) :
    (after_scan L1 k msg line col o).src = L1.src ∧ (after_scan L1 k msg line col o).i = L1.i ∧
    (after_scan L1 k msg line col o).line = L1.line ∧
    (after_scan L1 k msg line col o).col = L1.col := by
  cases k with
  | none => exact ⟨rfl, rfl, rfl, rfl⟩
  | some p =>
    obtain ⟨t, lex⟩ := p
    by_cases hr : o.length < MAX_TOKENS
    · rw [after_scan_room _ _ _ _ _ _ _ hr]
      exact ⟨rfl, rfl, rfl, rfl⟩
    · rw [after_scan_full _ _ _ _ _ _ _ (by omega)]
      exact ⟨rfl, rfl, rfl, rfl⟩

/-- The token count never exceeds the capacity of the buffer. -/
theorem lex_loop_out_le (fuel : Nat) :
    ∀ L : Lexer, L.out.length ≤ MAX_TOKENS → (lex_loop fuel L).out.length ≤ MAX_TOKENS := by
  induction fuel with
  | zero => intro L h; exact h
  | succ f ih =>
    intro L h
    by_cases h0 : lex_peek L = NUL
    · rw [lex_loop_nul f L h0]
      have := after_scan_out_le L (some (.T_EOF, [])) [] L.line L.col L.out h
      exact this
    by_cases h1 : isspace (lex_peek L) = true
    · rw [lex_loop_space f L h0 h1]
      exact ih _ (by rw [lex_advance_out]; exact h)
    obtain ⟨L1, k, msg, _, heq⟩ := lex_iter L h0 h1
    have e := heq L.out f
    rw [with_out_self] at e
    rw [e]
    have hle := after_scan_out_le L1 k msg L.line L.col L.out h
    split
    · exact hle
    · exact ih _ hle

/-- Tokens are only ever appended to the buffer. -/
theorem lex_loop_out_extends (fuel : Nat) :
    ∀ L : Lexer, ∃ more, (lex_loop fuel L).out = L.out ++ more := by
  induction fuel with
  | zero => intro L; exact ⟨[], by simp [lex_loop]⟩
  | succ f ih =>
    intro L
    have hk : ∀ (L1 : Lexer) (k : Option (TokenType × CStr)) (msg : CStr) (line col : Nat),
        ∃ more, (after_scan L1 k msg line col L.out).out = L.out ++ more := by
      intro L1 k msg line col
      cases k with
      | none => exact ⟨[], by rw [after_scan_none]; simp [with_out]⟩
      | some p =>
        obtain ⟨t, lex⟩ := p
        by_cases hr : L.out.length < MAX_TOKENS
        · rw [after_scan_room _ _ _ _ _ _ _ hr]
          exact ⟨_, rfl⟩
        · rw [after_scan_full _ _ _ _ _ _ _ (by omega)]
          exact ⟨[], by simp [with_out]⟩
    by_cases h0 : lex_peek L = NUL
    · rw [lex_loop_nul f L h0]
      exact hk L (some (.T_EOF, [])) [] L.line L.col
    by_cases h1 : isspace (lex_peek L) = true
    · rw [lex_loop_space f L h0 h1]
      obtain ⟨m, hm⟩ := ih (lex_advance L).2
      exact ⟨m, by rw [hm, lex_advance_out]⟩
    obtain ⟨L1, k, msg, _, heq⟩ := lex_iter L h0 h1
    have e := heq L.out f
    rw [with_out_self] at e
    rw [e]
    obtain ⟨m, hm⟩ := hk L1 k msg L.line L.col
    split
    · exact ⟨m, hm⟩
    · obtain ⟨m2, hm2⟩ := ih (after_scan L1 k msg L.line L.col L.out)
      exact ⟨m ++ m2, by rw [hm2, hm, List.append_assoc]⟩

theorem set_error_overflow (g : Error) (line col : Nat) (hg : g.kind = .ERR_NONE) :
    set_error g .ERR_LEX line col "token buffer overflow".toList
      = { kind := .ERR_LEX, line := line, col := col, msg := "token buffer overflow".toList } := by
  unfold set_error
  rw [if_neg (not_not.mpr hg)]
  rfl

/-- With the buffer full and no error recorded: if lexing on from the same
point with an emptied buffer stores a token `tk` next, then lexing with the
full buffer stores nothing and ends with the overflow error at the position
of `tk`. -/
theorem lex_loop_overflow (fuel : Nat) :
    ∀ (L : Lexer) (tk : Token) (rest : List Token),
      L.err.kind = .ERR_NONE → MAX_TOKENS ≤ L.out.length →
      (lex_loop fuel (with_out L [])).out = tk :: rest →
      (lex_loop fuel L).out = L.out ∧
      (lex_loop fuel L).err
        = { kind := .ERR_LEX, line := tk.line, col := tk.col,
            msg := "token buffer overflow".toList } := by
  induction fuel with
  | zero =>
    intro L tk rest _ _ h
    exact absurd h (by simp [lex_loop, with_out])
  | succ f ih =>
    intro L tk rest he hfull h
    have hroom : ([] : List Token).length < MAX_TOKENS := by simp [MAX_TOKENS]
    by_cases h0 : lex_peek L = NUL
    · have h0e : lex_peek (with_out L []) = NUL := h0
      rw [lex_loop_nul f _ h0e] at h
      have e1 := after_scan_room L .T_EOF [] [] L.line L.col [] hroom
      have e2 : emit (with_out L []) .T_EOF [] (with_out L []).line (with_out L []).col
          = after_scan L (some (.T_EOF, [])) [] L.line L.col [] := rfl
      rw [e2, e1] at h
      simp only [with_out, List.nil_append, List.cons.injEq] at h
      rw [lex_loop_nul f L h0]
      have e3 : emit L .T_EOF [] L.line L.col
          = after_scan L (some (.T_EOF, [])) [] L.line L.col L.out := rfl
      rw [e3, after_scan_full _ _ _ _ _ _ _ hfull, ← h.1]
      exact ⟨rfl, set_error_overflow _ _ _ he⟩
    by_cases h1 : isspace (lex_peek L) = true
    · have h0e : lex_peek (with_out L []) ≠ NUL := h0
      have h1e : isspace (lex_peek (with_out L [])) = true := h1
      rw [lex_loop_space f _ h0e h1e, lex_advance_with_out] at h
      rw [lex_loop_space f L h0 h1]
      have := ih (lex_advance L).2 tk rest (by rw [lex_advance_err]; exact he)
        (by rw [lex_advance_out]; exact hfull) h
      rw [lex_advance_out] at this
      exact this
    obtain ⟨L1, k, msg, hshape, heq⟩ := lex_iter L h0 h1
    have e := heq L.out f
    rw [with_out_self] at e
    rw [heq [] f] at h
    cases k with
    | none =>
      rw [if_pos (after_scan_none_err _ _ _ _ _)] at h
      exact absurd h (by rw [after_scan_none]; simp [with_out])
    | some p =>
      obtain ⟨t, lex⟩ := p
      have htk : tk.line = L.line ∧ tk.col = L.col := by
        rw [after_scan_room _ _ _ _ _ _ _ hroom] at h
        have hh : ∃ more, (tk :: rest)
            = [({ type := t, lexeme := strncpy lex 127, line := L.line, col := L.col } : Token)]
                ++ more := by
          rw [← h]
          split
          · exact ⟨[], rfl⟩
          · exact lex_loop_out_extends f _
        obtain ⟨more, hm⟩ := hh
        simp only [List.singleton_append, List.cons.injEq] at hm
        rw [hm.1]
        exact ⟨rfl, rfl⟩
      rw [e, after_scan_full _ _ _ _ _ _ _ hfull]
      have herr : set_error L1.err .ERR_LEX L.line L.col "token buffer overflow".toList
          = { kind := .ERR_LEX, line := tk.line, col := tk.col,
              msg := "token buffer overflow".toList } := by
        rw [htk.1, htk.2]
        exact set_error_overflow _ _ _ (by rw [hshape.scan.err]; exact he)
      have hk : ({ with_out L1 L.out with
          err := set_error L1.err .ERR_LEX L.line L.col "token buffer overflow".toList }
            : Lexer).err.kind ≠ .ERR_NONE := by
        show (set_error L1.err .ERR_LEX L.line L.col "token buffer overflow".toList).kind ≠ _
        rw [herr]
        exact fun hc => ErrKind.noConfusion hc
      rw [if_pos hk]
      exact ⟨rfl, herr⟩

theorem lex_operator_semi (L : Lexer) (line col : Nat) :
    lex_operator L ';' line col = emit (lex_advance L).2 .T_SEMI ";".toList line col := rfl

theorem lex_loop_semi (f : Nat) (L : Lexer) (h : lex_peek L = ';') :
    lex_loop (f + 1) L
      = if (emit (lex_advance L).2 .T_SEMI ";".toList L.line L.col).err.kind ≠ .ERR_NONE
        then emit (lex_advance L).2 .T_SEMI ";".toList L.line L.col
        else lex_loop f (emit (lex_advance L).2 .T_SEMI ";".toList L.line L.col) := by
  rw [lex_loop]
  simp only []
  rw [if_neg (by rw [h]; decide), if_neg (by rw [h]; decide), if_neg (by rw [h]; decide),
    if_neg (by rw [h]; decide), if_neg (by rw [h]; decide), h, lex_operator_semi]

theorem semi_state_peek (n k : Nat) (e : Error) (h : k < n) :
    lex_peek (semi_state n k e) = ';' := by
  simp [lex_peek, src_at, semi_state, List.getD_eq_getElem?_getD, h]

theorem semi_state_peek_end (n : Nat) (e : Error) : lex_peek (semi_state n n e) = NUL :=
  List.getD_eq_default _ _ (by simp [semi_state])

theorem emit_full (L : Lexer) (t : TokenType) (lex : CStr) (line col : Nat)
    (h : MAX_TOKENS ≤ L.out.length) (he : L.err.kind = .ERR_NONE) :
    (emit L t lex line col).out = L.out ∧
    (emit L t lex line col).err
      = { kind := .ERR_LEX, line := line, col := col, msg := "token buffer overflow".toList } := by
  unfold emit
  rw [if_pos h]
  exact ⟨rfl, set_error_overflow _ _ _ he⟩

theorem semi_state_advance (n k : Nat) (e : Error) (h : k < n) :
    (lex_advance (semi_state n k e)).2
      = { semi_state n k e with i := k + 1, col := k + 1 + 1 } := by
  rw [lex_advance_of_ne_newline _ (by rw [semi_state_peek n k e h]; decide)]
  rfl

theorem semi_state_step (n k : Nat) (e : Error) (h : k < n) (hk : k < MAX_TOKENS) :
    emit (lex_advance (semi_state n k e)).2 .T_SEMI ";".toList
        (semi_state n k e).line (semi_state n k e).col
      = semi_state n (k + 1) e := by
  rw [semi_state_advance n k e h]
  unfold emit
  rw [if_neg (by simp [semi_state]; omega)]
  simp [semi_state, List.range_succ, semi_tok, strncpy, MAX_TOKEN_LENGTH]

/-- Lexing `n ≥ 2048` characters `;` (`m` stands for `MAX_TOKENS`): from the
state after `k ≤ m` of them, the run ends with the first `m` tokens stored
and the overflow error at line 1, column `m + 1`. -/
theorem semi_run (n m : Nat) (hm : m = MAX_TOKENS) (hn : m ≤ n) (e : Error)
    (he : e.kind = .ERR_NONE) :
    ∀ (d k fuel : Nat), k + d = m → n - k < fuel →
      (lex_loop fuel (semi_state n k e)).out = (List.range m).map semi_tok ∧
      (lex_loop fuel (semi_state n k e)).err
        = { kind := .ERR_LEX, line := 1, col := m + 1,
            msg := "token buffer overflow".toList } := by
  intro d
  induction d with
  | zero =>
    intro k fuel hk hf
    have hk2 : k = m := by omega
    obtain ⟨f, rfl⟩ : ∃ f, fuel = f + 1 := ⟨fuel - 1, by omega⟩
    have hfull : MAX_TOKENS ≤ (semi_state n k e).out.length := by
      show MAX_TOKENS ≤ ((List.range k).map semi_tok).length
      rw [List.length_map, List.length_range]
      omega
    rw [← hk2]
    by_cases hnk : n = k
    · subst hnk
      rw [lex_loop_nul f _ (semi_state_peek_end _ e)]
      exact emit_full _ _ _ _ _ hfull he
    · rw [lex_loop_semi f _ (semi_state_peek n _ e (by omega))]
      have hem := emit_full (lex_advance (semi_state n k e)).2 .T_SEMI ";".toList
        (semi_state n k e).line (semi_state n k e).col
        (by rw [lex_advance_out]; exact hfull) (by rw [lex_advance_err]; exact he)
      rw [if_pos (by rw [hem.2]; exact fun hc => ErrKind.noConfusion hc)]
      exact ⟨hem.1.trans (lex_advance_out _), hem.2⟩
  | succ d ih =>
    intro k fuel hk hf
    obtain ⟨f, rfl⟩ : ∃ f, fuel = f + 1 := ⟨fuel - 1, by omega⟩
    have hkn : k < n := by omega
    have he2 : ¬ (semi_state n (k + 1) e).err.kind ≠ .ERR_NONE := not_not.mpr he
    rw [lex_loop_semi f _ (semi_state_peek n k e hkn), semi_state_step n k e hkn (by omega),
      if_neg he2]
    exact ih (k + 1) f (by omega) (by omega)

theorem lex_all_semi (n : Nat) (g : Error) :
    lex_all (List.replicate n ';') g = lex_loop (n + 1) (semi_state n 0 (clear_error g)) := by
  unfold lex_all
  rw [List.length_replicate]
  rfl

/-- Lexing `n < 2048` characters `;`: from the state after `k ≤ n` of them,
the run ends without error with the `n` tokens and the end-of-input token
stored. -/
theorem semi_run_ok (n : Nat) (hn : n < MAX_TOKENS) (e : Error) (he : e.kind = .ERR_NONE) :
    ∀ (d k fuel : Nat), k + d = n → d < fuel →
      (lex_loop fuel (semi_state n k e)).out
        = (List.range n).map semi_tok
            ++ [{ type := .T_EOF, lexeme := [], line := 1, col := n + 1 }] ∧
      (lex_loop fuel (semi_state n k e)).err = e := by
  intro d
  induction d with
  | zero =>
    intro k fuel hk hf
    have hk2 : k = n := by omega
    subst hk2
    obtain ⟨f, rfl⟩ : ∃ f, fuel = f + 1 := ⟨fuel - 1, by omega⟩
    have hroom : ¬ (semi_state k k e).out.length ≥ MAX_TOKENS := by
      show ¬ ((List.range k).map semi_tok).length ≥ MAX_TOKENS
      rw [List.length_map, List.length_range]
      omega
    rw [lex_loop_nul f _ (semi_state_peek_end _ e)]
    unfold emit
    rw [if_neg hroom]
    exact ⟨rfl, rfl⟩
  | succ d ih =>
    intro k fuel hk hf
    obtain ⟨f, rfl⟩ : ∃ f, fuel = f + 1 := ⟨fuel - 1, by omega⟩
    have hkn : k < n := by omega
    have he2 : ¬ (semi_state n (k + 1) e).err.kind ≠ .ERR_NONE := not_not.mpr he
    rw [lex_loop_semi f _ (semi_state_peek n k e hkn), semi_state_step n k e hkn (by omega),
      if_neg he2]
    exact ih (k + 1) f (by omega) (by omega)

/-! ## C22: the capacity of the token buffer -/

/-- C22: (1) for every source text the number of tokens stored by `lex_all`
is at most `MAX_TOKENS = 2048`.  (2) At any point of the main loop where the
buffer is full and no error is recorded, if the rest of the source holds a
further token, that is, if lexing on from the same point with an emptied
buffer would store a token `tk` next (possibly the end-of-input token), then
the run stores nothing more and ends with the lexical error
"token buffer overflow" at the position of `tk`.  (3) On a source made of
`n` characters `;` with `n ≥ 2048`, where the tokens and the end-of-input
token do not fit, `lex_all` stores the first 2048 tokens and records the
overflow error at line 1, column 2049; (4) with `n < 2048` it stores the `n`
tokens and the end-of-input token and records no error. -/
theorem C22_token_buffer_overflow :
    MAX_TOKENS = 2048 ∧
    (∀ (src : CStr) (g : Error), (lex_all src g).out.length ≤ MAX_TOKENS) ∧
    (∀ (fuel : Nat) (L : Lexer) (tk : Token) (rest : List Token),
      L.err.kind = .ERR_NONE → MAX_TOKENS ≤ L.out.length →
      (lex_loop fuel (with_out L [])).out = tk :: rest →
      (lex_loop fuel L).out = L.out ∧
      (lex_loop fuel L).err
        = { kind := .ERR_LEX, line := tk.line, col := tk.col,
            msg := "token buffer overflow".toList }) ∧
    (∀ (n : Nat) (g : Error), MAX_TOKENS ≤ n →
      (lex_all (List.replicate n ';') g).out = (List.range MAX_TOKENS).map semi_tok ∧
      (lex_all (List.replicate n ';') g).err
        = { kind := .ERR_LEX, line := 1, col := MAX_TOKENS + 1,
            msg := "token buffer overflow".toList }) ∧
    (∀ (n : Nat) (g : Error), n < MAX_TOKENS →
      (lex_all (List.replicate n ';') g).out
        = (List.range n).map semi_tok
            ++ [{ type := .T_EOF, lexeme := [], line := 1, col := n + 1 }] ∧
      (lex_all (List.replicate n ';') g).err.kind = .ERR_NONE) := by
  refine ⟨rfl, ?_, ?_, ?_, ?_⟩
  · intro src g
    exact lex_loop_out_le _ _ (Nat.zero_le _)
  · intro fuel L tk rest he hfull h
    exact lex_loop_overflow fuel L tk rest he hfull h
  · intro n g hn
    rw [lex_all_semi]
    exact semi_run n MAX_TOKENS rfl hn (clear_error g) rfl MAX_TOKENS 0 (n + 1)
      (by omega) (by omega)
  · intro n g hn
    rw [lex_all_semi]
    have h := semi_run_ok n hn (clear_error g) rfl n 0 (n + 1) (by omega) (by omega)
    exact ⟨h.1, by rw [h.2]; rfl⟩

/-- C22 on concrete inputs: the source `a;` stays within the buffer; a
full buffer at the end of the text overflows on the end-of-input token; 2048
characters `;` overflow at line 1, column 2049; 2047 of them do not. -/
theorem C22_token_buffer_overflow_witness :
    (lex_all "a;".toList g_error_init).out.length ≤ MAX_TOKENS ∧
    ((lex_loop 1 (⟨[], 0, 1, 1, List.replicate 2048 (semi_tok 0), g_error_init⟩ : Lexer)).out
        = List.replicate 2048 (semi_tok 0) ∧
     (lex_loop 1 (⟨[], 0, 1, 1, List.replicate 2048 (semi_tok 0), g_error_init⟩ : Lexer)).err
        = { kind := .ERR_LEX, line := 1, col := 1, msg := "token buffer overflow".toList }) ∧
    (lex_all (List.replicate 2048 ';') g_error_init).err
      = { kind := .ERR_LEX, line := 1, col := 2049, msg := "token buffer overflow".toList } ∧
    (lex_all (List.replicate 2047 ';') g_error_init).err.kind = .ERR_NONE :=
  ⟨C22_token_buffer_overflow.2.1 _ _,
   C22_token_buffer_overflow.2.2.1 1
     (⟨[], 0, 1, 1, List.replicate 2048 (semi_tok 0), g_error_init⟩ : Lexer)
     { type := .T_EOF, lexeme := [], line := 1, col := 1 } [] rfl
     (List.length_replicate 2048 (semi_tok 0)).ge rfl,
   (C22_token_buffer_overflow.2.2.2.1 2048 g_error_init (by simp [MAX_TOKENS])).2,
   (C22_token_buffer_overflow.2.2.2.2 2047 g_error_init (by simp [MAX_TOKENS])).2⟩

/-! ## C23: token positions -/

theorem placed_mono (src : CStr) (out : List Token) (b b2 : Nat) (h : placed src out b)
    (hb : b ≤ b2) : placed src out b2 := by
  obtain ⟨ks, h1, h2, h3⟩ := h
  exact ⟨ks, h1, h2, fun k hk => lt_of_lt_of_le (h3 k hk) hb⟩

theorem placed_snoc (src : CStr) (out : List Token) (tk : Token) (b b2 : Nat)
    (h : placed src out b) (ht : tok_at_index src tk b) (hb : b < b2) :
    placed src (out ++ [tk]) b2 := by
  obtain ⟨ks, h1, h2, h3⟩ := h
  refine ⟨ks ++ [b], List.rel_append h1 (List.Forall₂.cons ht List.Forall₂.nil), ?_, ?_⟩
  · rw [List.pairwise_append]
    refine ⟨h2, List.pairwise_singleton _ _, ?_⟩
    intro a ha c hc
    rw [List.mem_singleton] at hc
    rw [hc]
    exact h3 a ha
  · intro k hk
    rw [List.mem_append, List.mem_singleton] at hk
    rcases hk with hk | hk
    · exact lt_trans (h3 k hk) hb
    · rw [hk]; exact hb

theorem forall2_mem {α β : Type} (R : α → β → Prop) :
    ∀ (l1 : List α) (l2 : List β), List.Forall₂ R l1 l2 → ∀ a ∈ l1, ∃ b ∈ l2, R a b := by
  intro l1 l2 h
  induction h with
  | nil => intro a ha; simp at ha
  | cons hab _ ih =>
    intro a ha
    rw [List.mem_cons] at ha
    rcases ha with ha | ha
    · rw [ha]; exact ⟨_, List.mem_cons_self _ _, hab⟩
    · obtain ⟨b, hb, hr⟩ := ih a ha
      exact ⟨b, List.mem_cons_of_mem _ hb, hr⟩

/-- The state after a scan keeps the invariant of the main loop: the cursor
is within the text, line and column follow it, and the tokens stored begin
at increasing indices before it with the positions of these indices. -/
theorem after_scan_placed (L L1 : Lexer) (k : Option (TokenType × CStr)) (msg : CStr)
    (hs : Shape L L1 k) (hi : L.i ≤ L.src.length) (hp : pos_ok L)
    (hpl : placed L.src L.out L.i) :
    (after_scan L1 k msg L.line L.col L.out).src = L.src ∧
    (after_scan L1 k msg L.line L.col L.out).i ≤ L.src.length ∧
    pos_ok (after_scan L1 k msg L.line L.col L.out) ∧
    placed L.src (after_scan L1 k msg L.line L.col L.out).out
      (after_scan L1 k msg L.line L.col L.out).i := by
  have hsrc := after_scan_src L1 k msg L.line L.col L.out
  have hpos : pos_ok (after_scan L1 k msg L.line L.col L.out) := by
    have := hs.pos hp
    unfold pos_ok at this ⊢
    rw [hsrc.1, hsrc.2.1, hsrc.2.2.1, hsrc.2.2.2]
    exact this
  refine ⟨hsrc.1.trans hs.scan.src, by rw [hsrc.2.1]; exact hs.scan.bound hi, hpos, ?_⟩
  rw [hsrc.2.1]
  cases k with
  | none =>
    rw [after_scan_none]
    exact placed_mono _ _ _ _ hpl hs.scan.mono
  | some p =>
    obtain ⟨t, lex⟩ := p
    by_cases hr : L.out.length < MAX_TOKENS
    · rw [after_scan_room _ _ _ _ _ _ _ hr]
      have ht := hs.tok t lex rfl
      refine placed_snoc _ _ _ _ _ hpl ⟨hi, ?_, hp.1, hp.2⟩ (hs.adv (by simp))
      rw [ht.2]
      rfl
    · rw [after_scan_full _ _ _ _ _ _ _ (by omega)]
      exact placed_mono _ _ _ _ hpl hs.scan.mono

theorem lex_loop_src (fuel : Nat) : ∀ L : Lexer, (lex_loop fuel L).src = L.src := by
  induction fuel with
  | zero => intro L; rfl
  | succ f ih =>
    intro L
    by_cases h0 : lex_peek L = NUL
    · rw [lex_loop_nul f L h0]
      exact (after_scan_src L (some (.T_EOF, [])) [] L.line L.col L.out).1
    by_cases h1 : isspace (lex_peek L) = true
    · rw [lex_loop_space f L h0 h1, ih, lex_advance_src]
    obtain ⟨L1, k, msg, hs, heq⟩ := lex_iter L h0 h1
    have e := heq L.out f
    rw [with_out_self] at e
    rw [e]
    have := (after_scan_src L1 k msg L.line L.col L.out).1.trans hs.scan.src
    split
    · exact this
    · rw [ih]; exact this

/-- Every token stored by the main loop begins at an index of the source,
in increasing order, and carries the line and column of that index. -/
theorem lex_loop_placed (fuel : Nat) :
    ∀ L : Lexer, L.i ≤ L.src.length → pos_ok L → placed L.src L.out L.i →
      placed L.src (lex_loop fuel L).out (L.src.length + 1) := by
  induction fuel with
  | zero =>
    intro L hi _ hpl
    exact placed_mono _ _ _ _ hpl (by omega)
  | succ f ih =>
    intro L hi hp hpl
    by_cases h0 : lex_peek L = NUL
    · rw [lex_loop_nul f L h0]
      unfold emit
      split
      · exact placed_mono _ _ _ _ hpl (by omega)
      · exact placed_snoc _ _ _ _ _ hpl ⟨hi, h0, hp.1, hp.2⟩ (by omega)
    have hlt : L.i < L.src.length := src_at_ne_nul_lt L L.i h0
    by_cases h1 : isspace (lex_peek L) = true
    · rw [lex_loop_space f L h0 h1]
      have := ih (lex_advance L).2 (by rw [lex_advance_i, lex_advance_src]; omega)
        (pos_ok_advance L hp hlt)
        (by rw [lex_advance_src, lex_advance_out, lex_advance_i]
            exact placed_mono _ _ _ _ hpl (by omega))
      rw [lex_advance_src] at this
      exact this
    obtain ⟨L1, k, msg, hs, heq⟩ := lex_iter L h0 h1
    have e := heq L.out f
    rw [with_out_self] at e
    rw [e]
    obtain ⟨a1, a2, a3, a4⟩ := after_scan_placed L L1 k msg hs hi hp hpl
    split
    · exact placed_mono _ _ _ _ a4 (by omega)
    · have := ih (after_scan L1 k msg L.line L.col L.out) (by rw [a1]; exact a2) a3
        (by rw [a1]; exact a4)
      rw [a1] at this
      exact this

theorem lex_all_placed (src : CStr) (g : Error) :
    placed src (lex_all src g).out (src.length + 1) :=
  lex_loop_placed (src.length + 1)
    { src := src, i := 0, line := 1, col := 1, out := [], err := clear_error g }
    (Nat.zero_le _) ⟨rfl, rfl⟩ ⟨[], List.Forall₂.nil, List.Pairwise.nil, fun k hk => by simp at hk⟩

theorem eof_index_is_length (src : CStr) (hn : NUL ∉ src) (k : Nat) (hk : k ≤ src.length)
    (h : src.getD k NUL = NUL) : k = src.length := by
  by_contra hne
  have hlt : k < src.length := by omega
  apply hn
  have : src.getD k NUL = src[k] := by
    rw [List.getD_eq_getElem?_getD, List.getElem?_eq_getElem hlt]
    rfl
  rw [h] at this
  rw [this]
  exact List.getElem_mem _

theorem starts_from_nul (f : Nat) (L : Lexer) (h : lex_peek L = NUL) :
    starts_from (f + 1) (L.src.drop L.i) L.i = [L.i] := by
  cases hd : L.src.drop L.i with
  | nil => rfl
  | cons c cs =>
    have hc : c = NUL := by rw [← peek_of_drop_cons L c cs hd]; exact h
    unfold starts_from
    simp only []
    rw [if_pos hc]

theorem starts_from_space (f : Nat) (L : Lexer) (h0 : lex_peek L ≠ NUL)
    (h1 : isspace (lex_peek L) = true) :
    starts_from (f + 1) (L.src.drop L.i) L.i = starts_from f (L.src.drop (L.i + 1)) (L.i + 1) := by
  rw [src_drop_cons L h0]
  rw [starts_from]
  rw [if_neg h0, if_pos h1]

theorem starts_from_token (f : Nat) (L : Lexer) (h0 : lex_peek L ≠ NUL)
    (h1 : ¬ isspace (lex_peek L) = true) :
    starts_from (f + 1) (L.src.drop L.i) L.i
      = L.i :: starts_from f (L.src.drop (L.i + token_len (L.src.drop L.i)))
          (L.i + token_len (L.src.drop L.i)) := by
  have e : L.src.drop (L.i + token_len (L.src.drop L.i))
      = (L.src.drop L.i).drop (token_len (L.src.drop L.i)) := by
    rw [List.drop_drop, Nat.add_comm]
  rw [e, src_drop_cons L h0]
  rw [starts_from]
  rw [if_neg h0, if_neg h1]

theorem emit_full_err (L : Lexer) (t : TokenType) (lex : CStr) (line col : Nat)
    (h : MAX_TOKENS ≤ L.out.length) :
    (emit L t lex line col).out = L.out ∧ (emit L t lex line col).err.kind ≠ .ERR_NONE := by
  unfold emit
  rw [if_pos h]
  exact ⟨rfl, set_error_kind_ne _ .ERR_LEX _ _ _ (by decide)⟩

theorem emit_room_out (L : Lexer) (t : TokenType) (lex : CStr) (line col : Nat)
    (h : ¬ MAX_TOKENS ≤ L.out.length) :
    (emit L t lex line col).out
      = L.out ++ [{ type := t, lexeme := strncpy lex 127, line := line, col := col }] := by
  unfold emit
  rw [if_neg h]
  rfl

/-- The tokens stored by the main loop begin, in order, where the lexical
rules make the tokens of the rest of the text begin; when the loop ends
without an error no token of the rest is missing. -/
theorem lex_loop_starts (fuel : Nat) :
    ∀ (L : Lexer) (ks0 : List Nat), L.i ≤ L.src.length → pos_ok L →
      List.Forall₂ (tok_at_index L.src) L.out ks0 →
      ∃ ks tail : List Nat, starts_from fuel (L.src.drop L.i) L.i = ks ++ tail ∧
        List.Forall₂ (tok_at_index L.src) (lex_loop fuel L).out (ks0 ++ ks) ∧
        ((lex_loop fuel L).err.kind = .ERR_NONE → tail = []) := by
  induction fuel with
  | zero =>
    intro L ks0 _ _ h
    refine ⟨[], [], rfl, ?_, fun _ => rfl⟩
    rw [List.append_nil]
    exact h
  | succ f ih =>
    intro L ks0 hi hp h
    by_cases h0 : lex_peek L = NUL
    · rw [lex_loop_nul f L h0, starts_from_nul f L h0]
      by_cases hr : MAX_TOKENS ≤ L.out.length
      · obtain ⟨e1, e2⟩ := emit_full_err L .T_EOF [] L.line L.col hr
        refine ⟨[], [L.i], rfl, ?_, fun hc => absurd hc e2⟩
        rw [e1, List.append_nil]
        exact h
      · refine ⟨[L.i], [], rfl, ?_, fun _ => rfl⟩
        rw [emit_room_out L .T_EOF [] L.line L.col hr]
        exact List.rel_append h (List.Forall₂.cons ⟨hi, h0, hp.1, hp.2⟩ List.Forall₂.nil)
    have hlt : L.i < L.src.length := src_at_ne_nul_lt L L.i h0
    by_cases h1 : isspace (lex_peek L) = true
    · rw [lex_loop_space f L h0 h1, starts_from_space f L h0 h1]
      have := ih (lex_advance L).2 ks0 (by rw [lex_advance_i, lex_advance_src]; omega)
        (pos_ok_advance L hp hlt) (by rw [lex_advance_src, lex_advance_out]; exact h)
      rw [lex_advance_src, lex_advance_i] at this
      exact this
    obtain ⟨L1, k, msg, hs, heq⟩ := lex_iter L h0 h1
    have e := heq L.out f
    rw [with_out_self] at e
    rw [e, starts_from_token f L h0 h1]
    have hsrc := after_scan_src L1 k msg L.line L.col L.out
    have hRsrc : (after_scan L1 k msg L.line L.col L.out).src = L.src :=
      hsrc.1.trans hs.scan.src
    have hpos : pos_ok (after_scan L1 k msg L.line L.col L.out) := by
      have := hs.pos hp
      unfold pos_ok at this ⊢
      rw [hsrc.1, hsrc.2.1, hsrc.2.2.1, hsrc.2.2.2]
      exact this
    have hfail : ∀ R : Lexer, R.out = L.out → R.err.kind ≠ .ERR_NONE →
        ∃ ks tail : List Nat,
          L.i :: starts_from f (L.src.drop (L.i + token_len (L.src.drop L.i)))
            (L.i + token_len (L.src.drop L.i)) = ks ++ tail ∧
          List.Forall₂ (tok_at_index L.src) R.out (ks0 ++ ks) ∧
          (R.err.kind = .ERR_NONE → tail = []) := by
      intro R ho he
      refine ⟨[], _, rfl, ?_, fun hc => absurd hc he⟩
      rw [ho, List.append_nil]
      exact h
    cases k with
    | none =>
      have herr := after_scan_none_err L1 msg L.line L.col L.out
      rw [if_pos herr]
      exact hfail _ rfl herr
    | some p =>
      obtain ⟨t, lex⟩ := p
      by_cases hr : L.out.length < MAX_TOKENS
      · have ht := hs.tok t lex rfl
        have hlen := hs.len (by simp)
        have hi1 : (after_scan L1 (some (t, lex)) msg L.line L.col L.out).i
            = L.i + token_len (L.src.drop L.i) := by rw [hsrc.2.1, hlen]
        have hout : (after_scan L1 (some (t, lex)) msg L.line L.col L.out).out
            = L.out ++ [(⟨t, strncpy lex 127, L.line, L.col⟩ : Token)] := by
          rw [after_scan_room _ _ _ _ _ _ _ hr]
          rfl
        have hnew : List.Forall₂ (tok_at_index L.src)
            (after_scan L1 (some (t, lex)) msg L.line L.col L.out).out (ks0 ++ [L.i]) := by
          rw [hout]
          refine List.rel_append h (List.Forall₂.cons ⟨hi, ?_, hp.1, hp.2⟩ List.Forall₂.nil)
          rw [ht.2]
          rfl
        split
        · rename_i herr
          refine ⟨[L.i], _, rfl, hnew, fun hc => absurd hc herr⟩
        · obtain ⟨ks, tail, a1, a2, a3⟩ :=
            ih (after_scan L1 (some (t, lex)) msg L.line L.col L.out) (ks0 ++ [L.i])
              (by rw [hRsrc, hsrc.2.1]; exact hs.scan.bound hi) hpos
              (by rw [hRsrc]; exact hnew)
          rw [hRsrc, hi1] at a1
          rw [hRsrc, List.append_assoc] at a2
          refine ⟨L.i :: ks, tail, ?_, a2, a3⟩
          rw [a1]
          rfl
      · have hfull := after_scan_full L1 t lex msg L.line L.col L.out (by omega)
        have herr : (after_scan L1 (some (t, lex)) msg L.line L.col L.out).err.kind
            ≠ .ERR_NONE := by
          rw [hfull]
          exact set_error_kind_ne _ .ERR_LEX _ _ _ (by decide)
        rw [if_pos herr]
        exact hfail _ (by rw [hfull]; rfl) herr

theorem lex_all_starts (src : CStr) (g : Error) :
    ∃ ks tail : List Nat, token_starts src = ks ++ tail ∧
      List.Forall₂ (tok_at_index src) (lex_all src g).out ks ∧
      ((lex_all src g).err.kind = .ERR_NONE → tail = []) :=
  lex_loop_starts (src.length + 1)
    { src := src, i := 0, line := 1, col := 1, out := [], err := clear_error g } []
    (Nat.zero_le _) ⟨rfl, rfl⟩ List.Forall₂.nil

theorem str_len_le : ∀ (cs : CStr) (esc : Bool), str_len cs esc ≤ cs.length := by
  intro cs
  induction cs with
  | nil => intro esc; exact Nat.le_refl 0
  | cons c cs ih =>
    intro esc
    unfold str_len
    rw [List.length_cons]
    split
    · omega
    · split
      · omega
      · split
        · have := ih true; omega
        · have := ih false; omega

theorem two_char_nul (c : Char) : two_char c NUL = false := by
  unfold two_char
  have a : decide (NUL = '=') = false := by decide
  have b : decide (NUL = '&') = false := by decide
  have d : decide (NUL = '|') = false := by decide
  rw [a, b, d, Bool.and_false, Bool.and_false, Bool.and_false]
  rfl

/-- A token is at least one character long and does not run past the end of
the text. -/
theorem token_len_bounds (c : Char) (cs : CStr) :
    1 ≤ token_len (c :: cs) ∧ token_len (c :: cs) ≤ (c :: cs).length := by
  by_cases h1 : isdigit c = true
  · rw [token_len_digit c cs h1]
    refine ⟨?_, (List.takeWhile_sublist _).length_le⟩
    rw [List.takeWhile_cons_of_pos h1, List.length_cons]
    omega
  by_cases h2 : is_ident_start c = true
  · rw [token_len_ident c cs h1 h2]
    refine ⟨?_, (List.takeWhile_sublist _).length_le⟩
    rw [List.takeWhile_cons_of_pos (ident_start_part c h2), List.length_cons]
    omega
  by_cases h3 : c = '"'
  · rw [h3, token_len_string, List.length_cons]
    have := str_len_le cs false
    omega
  rw [token_len_op c cs (by simpa using h1) (by simpa using h2) h3, List.length_cons]
  cases cs with
  | nil =>
    rw [show ([] : CStr).headD NUL = NUL from rfl, two_char_nul]
    exact ⟨Nat.le_refl 1, Nat.le_refl 1⟩
  | cons d ds =>
    rw [List.length_cons]
    split <;> omega

/-- The fuel of `token_starts` is never exhausted: on a text without an
embedded NUL the list of token starts ends with the index just past the
last character, where the end-of-input token stands. -/
theorem starts_from_last (fuel : Nat) :
    ∀ (rest : CStr) (k : Nat), NUL ∉ rest → rest.length < fuel →
      (starts_from fuel rest k).getLast? = some (k + rest.length) := by
  induction fuel with
  | zero => intro rest k _ h; omega
  | succ f ih =>
    intro rest k hn hl
    cases rest with
    | nil => rfl
    | cons c cs =>
      have hc : ¬ c = NUL := fun e => hn (by rw [e]; exact List.mem_cons_self _ _)
      have hcs : NUL ∉ cs := fun e => hn (List.mem_cons_of_mem _ e)
      rw [List.length_cons] at hl
      rw [starts_from, if_neg hc]
      by_cases hs : isspace c = true
      · rw [if_pos hs, ih cs (k + 1) hcs (by omega), List.length_cons]
        congr 1
        omega
      · rw [if_neg hs]
        obtain ⟨b1, b2⟩ := token_len_bounds c cs
        rw [List.length_cons] at b2
        have hd : NUL ∉ (c :: cs).drop (token_len (c :: cs)) :=
          fun e => hn (List.mem_of_mem_drop e)
        have hlast := ih ((c :: cs).drop (token_len (c :: cs))) (k + token_len (c :: cs)) hd
          (by rw [List.length_drop, List.length_cons]; omega)
        rw [List.length_drop, List.length_cons] at hlast
        cases hrest : starts_from f ((c :: cs).drop (token_len (c :: cs)))
            (k + token_len (c :: cs)) with
        | nil => rw [hrest] at hlast; simp at hlast
        | cons x xs =>
          rw [hrest] at hlast
          rw [List.getLast?_cons_cons, hlast, List.length_cons]
          congr 1
          omega

theorem token_starts_last (src : CStr) (h : NUL ∉ src) :
    (token_starts src).getLast? = some src.length := by
  unfold token_starts
  rw [starts_from_last (src.length + 1) src 0 h (Nat.lt_succ_self _), Nat.zero_add]

theorem forall2_index {α β : Type} (R : α → β → Prop) :
    ∀ (l1 : List α) (l2 : List β), List.Forall₂ R l1 l2 →
      ∀ (n : Nat) (a : α), l1[n]? = some a → ∃ b, l2[n]? = some b ∧ R a b := by
  intro l1 l2 h
  induction h with
  | nil => intro n a ha; simp at ha
  | cons hab _ ih =>
    intro n a ha
    cases n with
    | zero =>
      simp only [List.getElem?_cons_zero, Option.some.injEq] at ha
      rw [← ha]
      exact ⟨_, List.getElem?_cons_zero, hab⟩
    | succ m =>
      rw [List.getElem?_cons_succ] at ha
      obtain ⟨b, hb, hr⟩ := ih m a ha
      exact ⟨b, by rw [List.getElem?_cons_succ]; exact hb, hr⟩

/-- C23: for every source text, the `n`-th token stored by `lex_all` begins
at the `n`-th index of `token_starts`, the indices at which the lexical
rules make the tokens of the text begin (the end-of-input token at the end
of the input), and carries the line and the column of that index `k`: its
line is 1 plus the number of newline characters before index `k`, its column
is 1 plus the number of characters between the last newline before `k` (or
the start of the text) and `k`; the character at `k` is the one the token
begins with (the opening quote for a string literal, the terminating NUL for
the end-of-input token).  When `lex_all` ends without an error it has stored
one token for every index of `token_starts`.  The indices of the stored
tokens are strictly increasing.  For a source without an embedded NUL, the
last index of `token_starts` is the one just past the last character, and
the end-of-input token carries the line and column of that index. -/
theorem C23_token_positions (src : CStr) (g : Error) :
    (∀ (n : Nat) (tk : Token), (lex_all src g).out[n]? = some tk →
      ∃ k, (token_starts src)[n]? = some k ∧ k ≤ src.length ∧
        src.getD k NUL = first_char tk ∧
        tk.line = 1 + (src.take k).count '\n' ∧
        tk.col = 1 + ((src.take k).reverse.takeWhile (fun c => c ≠ '\n')).length) ∧
    ((lex_all src g).err.kind = .ERR_NONE →
      (lex_all src g).out.length = (token_starts src).length) ∧
    (∃ ks : List Nat, List.Forall₂ (tok_at_index src) (lex_all src g).out ks ∧
      ks.Pairwise (fun a b => a < b)) ∧
    (∀ tk ∈ (lex_all src g).out, ∃ k, k ≤ src.length ∧ src.getD k NUL = first_char tk ∧
      tk.line = 1 + (src.take k).count '\n' ∧
      tk.col = 1 + ((src.take k).reverse.takeWhile (fun c => c ≠ '\n')).length) ∧
    (NUL ∉ src → (token_starts src).getLast? = some src.length) ∧
    (NUL ∉ src → ∀ tk ∈ (lex_all src g).out, tk.type = .T_EOF →
      tk.line = line_at src src.length ∧ tk.col = col_at src src.length) := by
  obtain ⟨ks, h1, h2, _⟩ := lex_all_placed src g
  obtain ⟨ks1, tail, e1, e2, e3⟩ := lex_all_starts src g
  have hall : ∀ tk ∈ (lex_all src g).out, ∃ k, tok_at_index src tk k := by
    intro tk htk
    obtain ⟨k, _, hk⟩ := forall2_mem _ _ _ h1 tk htk
    exact ⟨k, hk⟩
  refine ⟨?_, ?_, ⟨ks, h1, h2⟩, hall, token_starts_last src, ?_⟩
  · intro n tk hn
    obtain ⟨k, hk, hr⟩ := forall2_index _ _ _ e2 n tk hn
    refine ⟨k, ?_, hr⟩
    have hlt : n < ks1.length := by
      by_contra hc
      rw [List.getElem?_eq_none (by omega)] at hk
      exact absurd hk (by simp)
    rw [e1, List.getElem?_append_left hlt]
    exact hk
  · intro he
    rw [e1, e3 he, List.append_nil]
    exact e2.length_eq
  · intro hn tk htk hty
    obtain ⟨k, hk1, hk2, hk3, hk4⟩ := hall tk htk
    have hf : first_char tk = NUL := by
      unfold first_char
      rw [hty]
    rw [hf] at hk2
    have := eof_index_is_length src hn k hk1 hk2
    rw [← this]
    exact ⟨hk3, hk4⟩

/-- C23 on the source text of two lines `a = "x";` and ` b`: the tokens and
their positions, the indices at which they begin, the string literal as the
token of index 2 and the end-of-input token at line 2, column 3; on the
text `xx` the tokens begin at the indices 0 and 2. -/
theorem C23_token_positions_witness :
    (lex_all "a = \"x\";\n b".toList g_error_init).out
      = [{ type := .T_IDENTIFIER, lexeme := "a".toList, line := 1, col := 1 },
         { type := .T_ASSIGN, lexeme := "=".toList, line := 1, col := 3 },
         { type := .T_STRING, lexeme := "x".toList, line := 1, col := 5 },
         { type := .T_SEMI, lexeme := ";".toList, line := 1, col := 8 },
         { type := .T_IDENTIFIER, lexeme := "b".toList, line := 2, col := 2 },
         { type := .T_EOF, lexeme := [], line := 2, col := 3 }] ∧
    token_starts "a = \"x\";\n b".toList = [0, 2, 4, 7, 10, 11] ∧
    token_starts "xx".toList = [0, 2] ∧
    (∃ k, (token_starts "a = \"x\";\n b".toList)[2]? = some k ∧
      k ≤ ("a = \"x\";\n b".toList).length ∧
      ("a = \"x\";\n b".toList).getD k NUL
        = first_char { type := .T_STRING, lexeme := "x".toList, line := 1, col := 5 } ∧
      (1 : Nat) = 1 + (("a = \"x\";\n b".toList).take k).count '\n' ∧
      (5 : Nat) = 1 + ((("a = \"x\";\n b".toList).take k).reverse.takeWhile
        (fun c => c ≠ '\n')).length) ∧
    NUL ∉ "a = \"x\";\n b".toList ∧
    line_at "a = \"x\";\n b".toList 11 = 2 ∧ col_at "a = \"x\";\n b".toList 11 = 3 ∧
    ∀ tk ∈ (lex_all "a = \"x\";\n b".toList g_error_init).out, tk.type = .T_EOF →
      tk.line = line_at "a = \"x\";\n b".toList ("a = \"x\";\n b".toList).length ∧
      tk.col = col_at "a = \"x\";\n b".toList ("a = \"x\";\n b".toList).length :=
  ⟨by decide, by decide, by decide,
   (C23_token_positions "a = \"x\";\n b".toList g_error_init).1 2
     { type := .T_STRING, lexeme := "x".toList, line := 1, col := 5 } (by decide),
   by decide, by decide, by decide,
   (C23_token_positions "a = \"x\";\n b".toList g_error_init).2.2.2.2.2 (by decide)⟩

/-! ## C24: the cursor of the parser -/

theorem Keeps.here {toks : List Token} {P : Parser} (h : cursor_ok toks P) : Keeps toks P P :=
  ⟨h, le_refl _⟩

theorem Keeps.comp {toks : List Token} {P P1 P2 : Parser} (a : Keeps toks P P1)
    (b : Keeps toks P1 P2) : Keeps toks P P2 :=
  ⟨b.ok, le_trans a.mono b.mono⟩

theorem peek_in_range (toks : List Token) (P : Parser) (h : cursor_ok toks P) :
    P_peek P = toks.getD P.pos tok_zero := by
  unfold P_peek Parser.count tok_at
  rw [h.1, if_pos h.2.1]

/-- The cursor of a safe parser is not on the last token unless that token
is the end-of-input token it is looking at. -/
theorem not_last_of_ne_eof (toks : List Token) (hE : eof_terminated toks) (P : Parser)
    (h : cursor_ok toks P) (hne : (P_peek P).type ≠ .T_EOF) : P.pos + 1 < toks.length := by
  by_contra hc
  have hp : P.pos = toks.length - 1 := by have := h.2.1; omega
  apply hne
  rw [peek_in_range toks P h, hp]
  exact hE.2

theorem advance_keeps (toks : List Token) (hE : eof_terminated toks) (P : Parser)
    (h : cursor_ok toks P) (hne : (P_peek P).type ≠ .T_EOF) : Keeps toks P (P_advance P) :=
  ⟨⟨h.1, not_last_of_ne_eof toks hE P h hne, h.2.2⟩, Nat.le_succ _⟩

theorem match_keeps (toks : List Token) (hE : eof_terminated toks) (P : Parser) (t : TokenType)
    (h : cursor_ok toks P) (ht : t ≠ .T_EOF) : Keeps toks P (P_match P t).2 := by
  unfold P_match
  split
  · rename_i hc
    exact advance_keeps toks hE P h (by rw [hc]; exact ht)
  · exact Keeps.here h

theorem match_true (P : Parser) (t : TokenType) (h : (P_match P t).1 = true) :
    (P_peek P).type = t ∧ (P_match P t).2 = P_advance P := by
  unfold P_match at h ⊢
  split
  · rename_i hc; exact ⟨hc, rfl⟩
  · rename_i hc; rw [if_neg hc] at h; exact absurd h (by simp)

theorem consume_keeps (toks : List Token) (hE : eof_terminated toks) (P : Parser)
    (t : TokenType) (msg : CStr) (h : cursor_ok toks P) (ht : t ≠ .T_EOF) :
    Keeps toks P (P_consume P t msg).2 := by
  unfold P_consume
  simp only []
  split
  · rename_i hc
    exact advance_keeps toks hE P h (by rw [hc]; exact ht)
  · exact ⟨⟨h.1, h.2.1, h.2.2⟩, le_refl _⟩

theorem consume_some (P : Parser) (t : TokenType) (msg : CStr)
    (h : (P_consume P t msg).1 ≠ none) :
    (P_peek P).type = t ∧ (P_consume P t msg).2 = P_advance P := by
  unfold P_consume at h ⊢
  simp only [] at h ⊢
  split
  · rename_i hc; exact ⟨hc, rfl⟩
  · rename_i hc; rw [if_neg hc] at h; exact absurd rfl h

theorem cursor_ok_err (toks : List Token) (P : Parser) (g : Error) (h : cursor_ok toks P) :
    cursor_ok toks { P with err := g } := ⟨h.1, h.2.1, h.2.2⟩

/-- Cursor safety of a binary-operator level `parse_X`: the operand parser
followed by the loop of the level. -/
theorem level_safe (toks : List Token) (sub : Parser → PRes) (loop : Node → Parser → PRes)
    (g : Parser → PRes) (hs : parse_safe toks sub) (hl : loop_safe toks loop)
    (hg : ∀ P, g P = match sub P with
      | none => none
      | some (left, P1) => if left.isNull then some (.null, P1) else loop left P1) :
    parse_safe toks g := by
  intro P n P2 hP h
  rw [hg] at h
  cases hsub : sub P with
  | none => rw [hsub] at h; exact absurd h (by simp)
  | some r =>
    obtain ⟨left, P1⟩ := r
    rw [hsub] at h
    try simp only [] at h
    have h1 := hs P left P1 hP hsub
    by_cases hn : left.isNull = true
    · rw [if_pos hn] at h
      simp only [Option.some.injEq, Prod.mk.injEq] at h
      rw [← h.1, ← h.2]
      exact ⟨h1.1, fun hc => absurd hc (by decide)⟩
    · rw [if_neg hn] at h
      have h2 := hl left P1 n P2 h1.1.ok h
      exact ⟨h1.1.comp h2, fun _ => lt_of_lt_of_le (h1.2 (by simpa using hn)) h2.mono⟩

/-- Cursor safety of the loop of a binary-operator level: while the current
token is an operator of the level (never the end-of-input token), it is
consumed and the right operand is parsed. -/
theorem binloop_safe (toks : List Token) (hE : eof_terminated toks) (sub : Parser → PRes)
    (loop g : Node → Parser → PRes) (cond : Token → Prop) [DecidablePred cond]
    (mk : Token → Node → Node → Node) (hcond : ∀ tk, cond tk → tk.type ≠ .T_EOF)
    (hs : parse_safe toks sub) (hl : loop_safe toks loop)
    (hg : ∀ left P, g left P =
      if cond (P_peek P) then
        match sub (P_advance P) with
        | none => none
        | some (right, P1) =>
          if right.isNull then some (.null, P1) else loop (mk (P_peek P) left right) P1
      else some (left, P)) :
    loop_safe toks g := by
  intro left P n P2 hP h
  rw [hg] at h
  by_cases hc : cond (P_peek P)
  · rw [if_pos hc] at h
    have ha := advance_keeps toks hE P hP (hcond _ hc)
    cases hsub : sub (P_advance P) with
    | none => rw [hsub] at h; exact absurd h (by simp)
    | some r =>
      obtain ⟨right, P1⟩ := r
      rw [hsub] at h
      try simp only [] at h
      have h1 := hs (P_advance P) right P1 ha.ok hsub
      by_cases hn : right.isNull = true
      · rw [if_pos hn] at h
        simp only [Option.some.injEq, Prod.mk.injEq] at h
        rw [← h.2]
        exact ha.comp h1.1
      · rw [if_neg hn] at h
        exact (ha.comp h1.1).comp (hl _ P1 n P2 h1.1.ok h)
  · rw [if_neg hc] at h
    simp only [Option.some.injEq, Prod.mk.injEq] at h
    rw [← h.2]
    exact Keeps.here hP

theorem primary_safe (toks : List Token) (hE : eof_terminated toks) (f : Nat)
    (he : parse_safe toks (parse_expression f)) : parse_safe toks (parse_primary (f + 1)) := by
  intro P n P2 hP h
  rw [parse_primary] at h
  try simp only [] at h
  have adv : ∀ (hne : (P_peek P).type ≠ .T_EOF) (m : Node),
      some (m, P_advance P) = some (n, P2) →
      Keeps toks P P2 ∧ (n.isNull = false → P.pos < P2.pos) := by
    intro hne m hm
    simp only [Option.some.injEq, Prod.mk.injEq] at hm
    rw [← hm.2]
    exact ⟨advance_keeps toks hE P hP hne, fun _ => Nat.lt_succ_self _⟩
  by_cases h1 : (P_peek P).type = .T_NUMBER
  · rw [if_pos h1] at h
    exact adv (by rw [h1]; decide) _ h
  rw [if_neg h1] at h
  by_cases h2 : (P_peek P).type = .T_STRING
  · rw [if_pos h2] at h
    exact adv (by rw [h2]; decide) _ h
  rw [if_neg h2] at h
  by_cases h3 : (P_peek P).type = .T_IDENTIFIER
  · rw [if_pos h3] at h
    exact adv (by rw [h3]; decide) _ h
  rw [if_neg h3] at h
  by_cases h4 : (P_match P .T_LPAREN).1 = true
  · rw [if_pos h4] at h
    have hm := match_true P _ h4
    have ha : Keeps toks P (P_match P .T_LPAREN).2 := match_keeps toks hE P _ hP (by decide)
    have hlt : P.pos < (P_match P .T_LPAREN).2.pos := by rw [hm.2]; exact Nat.lt_succ_self _
    cases hsub : parse_expression f (P_match P .T_LPAREN).2 with
    | none => rw [hsub] at h; exact absurd h (by simp)
    | some r =>
      obtain ⟨e, P1⟩ := r
      rw [hsub] at h
      try simp only [] at h
      have h1 := he _ e P1 ha.ok hsub
      by_cases hn : e.isNull = true
      · rw [if_pos hn] at h
        simp only [Option.some.injEq, Prod.mk.injEq] at h
        rw [← h.1, ← h.2]
        exact ⟨ha.comp h1.1, fun hc => absurd hc (by decide)⟩
      · rw [if_neg hn] at h
        have hc := consume_keeps toks hE P1 .T_RPAREN "expected ')'".toList h1.1.ok (by decide)
        have hk := (ha.comp h1.1).comp hc
        have hp : P.pos < (P_consume P1 .T_RPAREN "expected ')'".toList).2.pos :=
          lt_of_lt_of_le hlt (le_trans h1.1.mono hc.mono)
        split at h
        · simp only [Option.some.injEq, Prod.mk.injEq] at h
          rw [← h.2]
          exact ⟨hk, fun _ => hp⟩
        · simp only [Option.some.injEq, Prod.mk.injEq] at h
          rw [← h.2]
          exact ⟨hk, fun _ => hp⟩
  · rw [if_neg h4] at h
    simp only [Option.some.injEq, Prod.mk.injEq] at h
    rw [← h.1, ← h.2]
    exact ⟨⟨cursor_ok_err toks _ _ (match_keeps toks hE P _ hP (by decide)).ok,
      (match_keeps toks hE P _ hP (by decide)).mono⟩, fun hc => absurd hc (by decide)⟩

theorem unary_safe (toks : List Token) (hE : eof_terminated toks) (f : Nat)
    (hu : parse_safe toks (parse_unary f)) (hp : parse_safe toks (parse_primary f)) :
    parse_safe toks (parse_unary (f + 1)) := by
  intro P n P2 hP h
  rw [parse_unary] at h
  try simp only [] at h
  by_cases hc : (P_peek P).type = .T_NOT ∨ (P_peek P).type = .T_MINUS ∨ (P_peek P).type = .T_PLUS
  · rw [if_pos hc] at h
    have hne : (P_peek P).type ≠ .T_EOF := by
      rcases hc with hc | hc | hc <;> rw [hc] <;> decide
    have ha := advance_keeps toks hE P hP hne
    cases hsub : parse_unary f (P_advance P) with
    | none => rw [hsub] at h; exact absurd h (by simp)
    | some r =>
      obtain ⟨rhs, P1⟩ := r
      rw [hsub] at h
      try simp only [] at h
      have h1 := hu _ rhs P1 ha.ok hsub
      have hlt : P.pos < P1.pos := lt_of_lt_of_le (Nat.lt_succ_self _) h1.1.mono
      split at h
      · simp only [Option.some.injEq, Prod.mk.injEq] at h
        rw [← h.2]
        exact ⟨ha.comp h1.1, fun _ => hlt⟩
      · simp only [Option.some.injEq, Prod.mk.injEq] at h
        rw [← h.2]
        exact ⟨ha.comp h1.1, fun _ => hlt⟩
  · rw [if_neg hc] at h
    exact hp P n P2 hP h

theorem rel_loop_safe (toks : List Token) (hE : eof_terminated toks) (f : Nat)
    (hs : parse_safe toks (parse_add f)) (hl : loop_safe toks (parse_rel_loop f)) :
    loop_safe toks (parse_rel_loop (f + 1)) := by
  intro left P n P2 hP h
  rw [parse_rel_loop] at h
  try simp only [] at h
  split at h
  · simp only [Option.some.injEq, Prod.mk.injEq] at h
    rw [← h.2]
    exact Keeps.here hP
  · rename_i op hsel
    have hne : (P_peek P).type ≠ .T_EOF := by
      intro hc
      rw [hc] at hsel
      exact absurd hsel (by simp)
    have ha := advance_keeps toks hE P hP hne
    cases hsub : parse_add f (P_advance P) with
    | none => rw [hsub] at h; exact absurd h (by simp)
    | some r =>
      obtain ⟨right, P1⟩ := r
      rw [hsub] at h
      try simp only [] at h
      have h1 := hs (P_advance P) right P1 ha.ok hsub
      by_cases hn : right.isNull = true
      · rw [if_pos hn] at h
        simp only [Option.some.injEq, Prod.mk.injEq] at h
        rw [← h.2]
        exact ha.comp h1.1
      · rw [if_neg hn] at h
        exact (ha.comp h1.1).comp (hl _ P1 n P2 h1.1.ok h)

theorem parse_safe_zero (toks : List Token) (g : Parser → PRes) (h : ∀ P, g P = none) :
    parse_safe toks g := by
  intro P n P2 _ hg
  rw [h] at hg
  exact absurd hg (by simp)

theorem loop_safe_zero (toks : List Token) (g : Node → Parser → PRes)
    (h : ∀ l P, g l P = none) : loop_safe toks g := by
  intro l P n P2 _ hg
  rw [h] at hg
  exact absurd hg (by simp)

/-- Cursor safety of all the expression parsers, for any fuel. -/
theorem expr_safe (toks : List Token) (hE : eof_terminated toks) :
    ∀ fuel : Nat, ExprSafe toks fuel := by
  intro fuel
  induction fuel with
  | zero =>
    exact
      { primary := parse_safe_zero toks _ (fun _ => rfl)
        unary := parse_safe_zero toks _ (fun _ => rfl)
        mul_loop := loop_safe_zero toks _ (fun _ _ => rfl)
        mul := parse_safe_zero toks _ (fun _ => rfl)
        add_loop := loop_safe_zero toks _ (fun _ _ => rfl)
        add := parse_safe_zero toks _ (fun _ => rfl)
        rel_loop := loop_safe_zero toks _ (fun _ _ => rfl)
        rel := parse_safe_zero toks _ (fun _ => rfl)
        eq_loop := loop_safe_zero toks _ (fun _ _ => rfl)
        eq := parse_safe_zero toks _ (fun _ => rfl)
        and_loop := loop_safe_zero toks _ (fun _ _ => rfl)
        and := parse_safe_zero toks _ (fun _ => rfl)
        or_loop := loop_safe_zero toks _ (fun _ _ => rfl)
        or := parse_safe_zero toks _ (fun _ => rfl)
        expression := parse_safe_zero toks _ (fun _ => rfl) }
  | succ f ih =>
    exact
      { primary := primary_safe toks hE f ih.expression
        unary := unary_safe toks hE f ih.unary ih.primary
        mul_loop :=
          binloop_safe toks hE (parse_unary f) (parse_mul_loop f) _
            (fun tk => tk.type = .T_STAR ∨ tk.type = .T_SLASH)
            (fun tk left right =>
              make_binary (if tk.type = .T_STAR then .OP_MUL else .OP_DIV) left right
                tk.line tk.col)
            (fun tk hc => by rcases hc with hc | hc <;> rw [hc] <;> decide)
            ih.unary ih.mul_loop (fun left P => by rw [parse_mul_loop])
        mul := level_safe toks _ _ _ ih.unary ih.mul_loop (fun P => by rw [parse_mul])
        add_loop :=
          binloop_safe toks hE (parse_mul f) (parse_add_loop f) _
            (fun tk => tk.type = .T_PLUS ∨ tk.type = .T_MINUS)
            (fun tk left right =>
              make_binary (if tk.type = .T_PLUS then .OP_PLUS else .OP_MINUS) left right
                tk.line tk.col)
            (fun tk hc => by rcases hc with hc | hc <;> rw [hc] <;> decide)
            ih.mul ih.add_loop (fun left P => by rw [parse_add_loop])
        add := level_safe toks _ _ _ ih.mul ih.add_loop (fun P => by rw [parse_add])
        rel_loop := rel_loop_safe toks hE f ih.add ih.rel_loop
        rel := level_safe toks _ _ _ ih.add ih.rel_loop (fun P => by rw [parse_rel])
        eq_loop :=
          binloop_safe toks hE (parse_rel f) (parse_eq_loop f) _
            (fun tk => tk.type = .T_EQ ∨ tk.type = .T_NE)
            (fun tk left right =>
              make_binary (if tk.type = .T_EQ then .OP_EQ else .OP_NE) left right
                tk.line tk.col)
            (fun tk hc => by rcases hc with hc | hc <;> rw [hc] <;> decide)
            ih.rel ih.eq_loop (fun left P => by rw [parse_eq_loop])
        eq := level_safe toks _ _ _ ih.rel ih.eq_loop (fun P => by rw [parse_eq])
        and_loop :=
          binloop_safe toks hE (parse_eq f) (parse_and_loop f) _
            (fun tk => tk.type = .T_AND)
            (fun tk left right => make_binary .OP_AND left right tk.line tk.col)
            (fun tk hc => by rw [hc]; decide)
            ih.eq ih.and_loop (fun left P => by rw [parse_and_loop])
        and := level_safe toks _ _ _ ih.eq ih.and_loop (fun P => by rw [parse_and])
        or_loop :=
          binloop_safe toks hE (parse_and f) (parse_or_loop f) _
            (fun tk => tk.type = .T_OR)
            (fun tk left right => make_binary .OP_OR left right tk.line tk.col)
            (fun tk hc => by rw [hc]; decide)
            ih.and ih.or_loop (fun left P => by rw [parse_or_loop])
        or := level_safe toks _ _ _ ih.and ih.or_loop (fun P => by rw [parse_or])
        expression := fun P n P2 hP h => by
          rw [parse_expression] at h
          exact ih.or P n P2 hP h }

theorem some_pair_inj {α : Type} {a n : α} {b P2 : Parser} (h : some (a, b) = some (n, P2)) :
    a = n ∧ b = P2 := by
  simp only [Option.some.injEq, Prod.mk.injEq] at h
  exact h

/-- The lookahead of `parse_assignment_or_expr_stmt` stays in range: it is
made on an identifier, which is not the last token. -/
theorem lookahead_keeps (toks : List Token) (hE : eof_terminated toks) (P : Parser)
    (hP : cursor_ok toks P) (hid : (P_peek P).type = .T_IDENTIFIER) :
    Keeps toks P (lookahead_assign P).2 := by
  have hlt := not_last_of_ne_eof toks hE P hP (by rw [hid]; decide)
  refine ⟨⟨hP.1, hP.2.1, ?_⟩, le_refl _⟩
  show (P.oob || decide (P.count ≤ P.pos + 1)) = false
  rw [hP.2.2]
  unfold Parser.count
  rw [hP.1]
  simp only [Bool.false_or, decide_eq_false_iff_not, not_le]
  exact hlt

/-- The expression-statement tail of `parse_assignment_or_expr_stmt`. -/
theorem expr_stmt_tail (toks : List Token) (hE : eof_terminated toks) (fuel : Nat)
    (he : parse_safe toks (parse_expression fuel)) (P Q : Parser) (hQ : Keeps toks P Q)
    (hpos : Q.pos = P.pos) (n : Node) (P2 : Parser)
    (h : (match parse_expression fuel Q with
          | none => none
          | some (e, P1) =>
            if e.isNull then some (.null, P1)
            else some (e, (P_consume P1 .T_SEMI "expected';' after expression".toList).2))
         = some (n, P2)) :
    Keeps toks P P2 ∧ (n.isNull = false → P.pos < P2.pos) := by
  cases hsub : parse_expression fuel Q with
  | none => rw [hsub] at h; exact absurd h (by simp)
  | some r =>
    obtain ⟨e, P1⟩ := r
    rw [hsub] at h
    simp only [] at h
    have h1 := he Q e P1 hQ.ok hsub
    by_cases hn : e.isNull = true
    · rw [if_pos hn] at h
      have hh := some_pair_inj h
      rw [← hh.1, ← hh.2]
      exact ⟨hQ.comp h1.1, fun hc => absurd hc (by decide)⟩
    · rw [if_neg hn] at h
      have hh := some_pair_inj h
      have hc := consume_keeps toks hE P1 .T_SEMI "expected';' after expression".toList
        h1.1.ok (by decide)
      rw [← hh.2]
      refine ⟨(hQ.comp h1.1).comp hc, fun _ => ?_⟩
      have := h1.2 (by simpa using hn)
      rw [hpos] at this
      exact lt_of_lt_of_le this hc.mono

theorem assignment_safe (toks : List Token) (hE : eof_terminated toks) (fuel : Nat)
    (he : parse_safe toks (parse_expression fuel)) :
    parse_safe toks (parse_assignment_or_expr_stmt fuel) := by
  intro P n P2 hP h
  unfold parse_assignment_or_expr_stmt at h
  simp only [] at h
  by_cases hid : (P_peek P).type = .T_IDENTIFIER
  · rw [if_pos hid] at h
    have hL := lookahead_keeps toks hE P hP hid
    by_cases hla : (lookahead_assign P).1 = true
    · rw [if_pos hla] at h
      have hc1 := consume_keeps toks hE (lookahead_assign P).2 .T_IDENTIFIER
        "expected indentifier".toList hL.ok (by decide)
      cases hid1 : (P_consume (lookahead_assign P).2 .T_IDENTIFIER
          "expected indentifier".toList).1 with
      | none =>
        rw [hid1] at h
        simp only [] at h
        have hh := some_pair_inj h
        rw [← hh.1, ← hh.2]
        exact ⟨hL.comp hc1, fun hc => absurd hc (by decide)⟩
      | some id =>
        rw [hid1] at h
        simp only [] at h
        have hadv := consume_some (lookahead_assign P).2 .T_IDENTIFIER
          "expected indentifier".toList (by rw [hid1]; simp)
        have hlt : P.pos < (P_consume (lookahead_assign P).2 .T_IDENTIFIER
            "expected indentifier".toList).2.pos := by
          rw [hadv.2]; exact Nat.lt_succ_self _
        have hc2 := consume_keeps toks hE _ .T_ASSIGN "expected '='".toList hc1.ok (by decide)
        cases hsub : parse_expression fuel
            (P_consume (P_consume (lookahead_assign P).2 .T_IDENTIFIER
              "expected indentifier".toList).2 .T_ASSIGN "expected '='".toList).2 with
        | none => rw [hsub] at h; exact absurd h (by simp)
        | some r =>
          obtain ⟨expr, P3⟩ := r
          rw [hsub] at h
          simp only [] at h
          have h1 := he _ expr P3 hc2.ok hsub
          have hk := ((hL.comp hc1).comp hc2).comp h1.1
          have hlt3 : P.pos < P3.pos :=
            lt_of_lt_of_le hlt (le_trans hc2.mono h1.1.mono)
          by_cases hn : expr.isNull = true
          · rw [if_pos hn] at h
            have hh := some_pair_inj h
            rw [← hh.1, ← hh.2]
            exact ⟨hk, fun hc => absurd hc (by decide)⟩
          · rw [if_neg hn] at h
            have hh := some_pair_inj h
            have hc3 := consume_keeps toks hE P3 .T_SEMI "expected';' after assignment".toList
              h1.1.ok (by decide)
            rw [← hh.2]
            exact ⟨hk.comp hc3, fun _ => lt_of_lt_of_le hlt3 hc3.mono⟩
    · rw [if_neg hla] at h
      exact expr_stmt_tail toks hE fuel he P _ hL rfl n P2 h
  · rw [if_neg hid] at h
    simp only [Bool.false_eq_true, if_false] at h
    exact expr_stmt_tail toks hE fuel he P P (Keeps.here hP) rfl n P2 h

theorem print_args_safe (toks : List Token) (hE : eof_terminated toks)
    (he : ∀ f, parse_safe toks (parse_expression f)) :
    ∀ fuel : Nat, list_safe toks (parse_print_args fuel) := by
  intro fuel
  induction fuel with
  | zero =>
    intro acc P r P2 _ h
    rw [parse_print_args] at h
    exact absurd h (by simp)
  | succ f ih =>
    intro acc P r P2 hP h
    rw [parse_print_args] at h
    cases hsub : parse_expression f P with
    | none => rw [hsub] at h; exact absurd h (by simp)
    | some q =>
      obtain ⟨e, P1⟩ := q
      rw [hsub] at h
      simp only [] at h
      have h1 := he f P e P1 hP hsub
      by_cases hn : e.isNull = true
      · rw [if_pos hn] at h
        have hh := some_pair_inj h
        rw [← hh.2]
        exact h1.1
      · rw [if_neg hn] at h
        have hm := match_keeps toks hE P1 .T_COMMA h1.1.ok (by decide)
        by_cases hc : (P_match P1 .T_COMMA).1 = true
        · rw [if_pos hc] at h
          exact (h1.1.comp hm).comp (ih _ _ r P2 hm.ok h)
        · rw [if_neg hc] at h
          have hh := some_pair_inj h
          rw [← hh.2]
          exact h1.1.comp hm

theorem print_safe (toks : List Token) (hE : eof_terminated toks) (fuel : Nat)
    (ha : list_safe toks (parse_print_args fuel)) : parse_safe toks (parse_print fuel) := by
  intro P n P2 hP h
  unfold parse_print at h
  simp only [] at h
  have hc0 := consume_keeps toks hE P .T_KW_PRINT "expected 'output'".toList hP (by decide)
  cases hk : (P_consume P .T_KW_PRINT "expected 'output'".toList).1 with
  | none =>
    rw [hk] at h
    simp only [] at h
    have hh := some_pair_inj h
    rw [← hh.1, ← hh.2]
    exact ⟨hc0, fun hc => absurd hc (by decide)⟩
  | some kw =>
    rw [hk] at h
    simp only [] at h
    have hadv := consume_some P .T_KW_PRINT "expected 'output'".toList (by rw [hk]; simp)
    have hlt : P.pos < (P_consume P .T_KW_PRINT "expected 'output'".toList).2.pos := by
      rw [hadv.2]; exact Nat.lt_succ_self _
    have hc1 := consume_keeps toks hE _ .T_LPAREN "expected'(' after 'output'".toList
      hc0.ok (by decide)
    have tail : ∀ (es : List Node) (Q : Parser),
        Keeps toks (P_consume (P_consume P .T_KW_PRINT "expected 'output'".toList).2 .T_LPAREN
          "expected'(' after 'output'".toList).2 Q →
        Keeps toks P (P_consume (P_consume Q .T_RPAREN "expected')'".toList).2 .T_SEMI
            "expected ';'  after 'output(...)'".toList).2 ∧
        P.pos < (P_consume (P_consume Q .T_RPAREN "expected')'".toList).2 .T_SEMI
            "expected ';'  after 'output(...)'".toList).2.pos := by
      intro es Q hQ
      have a := consume_keeps toks hE Q .T_RPAREN "expected')'".toList hQ.ok (by decide)
      have b := consume_keeps toks hE _ .T_SEMI "expected ';'  after 'output(...)'".toList
        a.ok (by decide)
      have k := (((hc0.comp hc1).comp hQ).comp a).comp b
      exact ⟨k, lt_of_lt_of_le hlt
        (le_trans hc1.mono (le_trans hQ.mono (le_trans a.mono b.mono)))⟩
    split at h
    · exact absurd h (by simp)
    · rename_i Q hargs
      have hh := some_pair_inj h
      rw [← hh.1, ← hh.2]
      refine ⟨?_, fun hc => absurd hc (by decide)⟩
      split at hargs
      · exact (hc0.comp hc1).comp (ha _ _ _ _ hc1.ok hargs)
      · exact absurd hargs (by simp)
    · rename_i es Q hargs
      have hh := some_pair_inj h
      rw [← hh.2]
      have hQ : Keeps toks (P_consume (P_consume P .T_KW_PRINT "expected 'output'".toList).2
          .T_LPAREN "expected'(' after 'output'".toList).2 Q := by
        split at hargs
        · exact ha _ _ _ _ hc1.ok hargs
        · have := some_pair_inj hargs
          rw [← this.2]
          exact Keeps.here hc1.ok
      exact ⟨(tail es Q hQ).1, fun _ => (tail es Q hQ).2⟩

theorem input_safe (toks : List Token) (hE : eof_terminated toks) :
    parse_safe toks parse_input := by
  intro P n P2 hP h
  unfold parse_input at h
  simp only [] at h
  have hc0 := consume_keeps toks hE P .T_KW_INPUT "expected'input'".toList hP (by decide)
  cases hk : (P_consume P .T_KW_INPUT "expected'input'".toList).1 with
  | none =>
    rw [hk] at h
    simp only [] at h
    have hh := some_pair_inj h
    rw [← hh.1, ← hh.2]
    exact ⟨hc0, fun hc => absurd hc (by decide)⟩
  | some kw =>
    rw [hk] at h
    simp only [] at h
    have hadv := consume_some P .T_KW_INPUT "expected'input'".toList (by rw [hk]; simp)
    have hlt : P.pos < (P_consume P .T_KW_INPUT "expected'input'".toList).2.pos := by
      rw [hadv.2]; exact Nat.lt_succ_self _
    have hc1 := consume_keeps toks hE _ .T_LPAREN "expected '(' after 'input'".toList
      hc0.ok (by decide)
    have hc2 := consume_keeps toks hE _ .T_IDENTIFIER "expected indentifier ininput(var)".toList
      hc1.ok (by decide)
    have k2 := (hc0.comp hc1).comp hc2
    split at h
    · have hh := some_pair_inj h
      rw [← hh.1, ← hh.2]
      exact ⟨k2, fun hc => absurd hc (by decide)⟩
    · have hh := some_pair_inj h
      rw [← hh.2]
      have hc3 := consume_keeps toks hE _ .T_RPAREN "expected ')'".toList hc2.ok (by decide)
      have hc4 := consume_keeps toks hE _ .T_SEMI "expected after 'input(...)'".toList
        hc3.ok (by decide)
      exact ⟨(k2.comp hc3).comp hc4, fun _ => lt_of_lt_of_le hlt
        (le_trans hc1.mono (le_trans hc2.mono (le_trans hc3.mono hc4.mono)))⟩

theorem list_safe_zero (toks : List Token)
    (g : List Node → Parser → Option (Option (List Node) × Parser))
    (h : ∀ acc P, g acc P = none) : list_safe toks g := by
  intro acc P r P2 _ hg
  rw [h] at hg
  exact absurd hg (by simp)

/-- The part of `parse_if` and `parse_while` up to the body: keyword, `(`,
condition, `)` and the block. -/
theorem head_block_safe (toks : List Token) (hE : eof_terminated toks) (f : Nat)
    (he : parse_safe toks (parse_expression f))
    (P : Parser) (hP : cursor_ok toks P) (kw : TokenType) (hkw : kw ≠ .T_EOF)
    (m0 m1 m2 : CStr) (k : Token) (hk : (P_consume P kw m0).1 = some k)
    (cond : Node) (P2 : Parser)
    (hc : parse_expression f (P_consume (P_consume P kw m0).2 .T_LPAREN m1).2
      = some (cond, P2)) :
    Keeps toks P (P_consume P2 .T_RPAREN m2).2 ∧ P.pos < (P_consume P2 .T_RPAREN m2).2.pos := by
  have hc0 := consume_keeps toks hE P kw m0 hP hkw
  have hadv := consume_some P kw m0 (by rw [hk]; simp)
  have hlt : P.pos < (P_consume P kw m0).2.pos := by rw [hadv.2]; exact Nat.lt_succ_self _
  have hc1 := consume_keeps toks hE _ .T_LPAREN m1 hc0.ok (by decide)
  have h1 := he _ cond P2 hc1.ok hc
  have hc2 := consume_keeps toks hE P2 .T_RPAREN m2 h1.1.ok (by decide)
  exact ⟨((hc0.comp hc1).comp h1.1).comp hc2,
    lt_of_lt_of_le hlt (le_trans hc1.mono (le_trans h1.1.mono hc2.mono))⟩

theorem if_safe (toks : List Token) (hE : eof_terminated toks) (f : Nat)
    (he : parse_safe toks (parse_expression f)) (hb : parse_safe toks (parse_block f)) :
    parse_safe toks (parse_if (f + 1)) := by
  intro P n P5 hP h
  rw [parse_if] at h
  simp only [] at h
  have hc0 := consume_keeps toks hE P .T_KW_IF "expected 'if'".toList hP (by decide)
  cases hk : (P_consume P .T_KW_IF "expected 'if'".toList).1 with
  | none =>
    rw [hk] at h
    simp only [] at h
    have hh := some_pair_inj h
    rw [← hh.1, ← hh.2]
    exact ⟨hc0, fun hc => absurd hc (by decide)⟩
  | some kw =>
    rw [hk] at h
    simp only [] at h
    have hc1 := consume_keeps toks hE _ .T_LPAREN "expected after '(' após 'if'".toList
      hc0.ok (by decide)
    cases hsub : parse_expression f
        (P_consume (P_consume P .T_KW_IF "expected 'if'".toList).2 .T_LPAREN
          "expected after '(' após 'if'".toList).2 with
    | none => rw [hsub] at h; exact absurd h (by simp)
    | some r =>
      obtain ⟨cond, P2⟩ := r
      rw [hsub] at h
      simp only [] at h
      have h1 := he _ cond P2 hc1.ok hsub
      by_cases hn : cond.isNull = true
      · rw [if_pos hn] at h
        have hh := some_pair_inj h
        rw [← hh.1, ← hh.2]
        exact ⟨(hc0.comp hc1).comp h1.1, fun hc => absurd hc (by decide)⟩
      · rw [if_neg hn] at h
        have hd := head_block_safe toks hE f he P hP .T_KW_IF (by decide) _ _
          "expected ')'".toList kw hk cond P2 hsub
        cases hsb : parse_block f (P_consume P2 .T_RPAREN "expected ')'".toList).2 with
        | none => rw [hsb] at h; exact absurd h (by simp)
        | some r2 =>
          obtain ⟨thenB, P3⟩ := r2
          rw [hsb] at h
          simp only [] at h
          have h3 := hb _ thenB P3 hd.1.ok hsb
          have k3 := hd.1.comp h3.1
          have lt3 : P.pos < P3.pos := lt_of_lt_of_le hd.2 h3.1.mono
          by_cases hn3 : thenB.isNull = true
          · rw [if_pos hn3] at h
            have hh := some_pair_inj h
            rw [← hh.1, ← hh.2]
            exact ⟨k3, fun hc => absurd hc (by decide)⟩
          · rw [if_neg hn3] at h
            have hm := match_keeps toks hE P3 .T_KW_ELSE h3.1.ok (by decide)
            by_cases hel : (P_match P3 .T_KW_ELSE).1 = true
            · rw [if_pos hel] at h
              cases hse : parse_block f (P_match P3 .T_KW_ELSE).2 with
              | none => rw [hse] at h; exact absurd h (by simp)
              | some r4 =>
                obtain ⟨elseB, P4⟩ := r4
                rw [hse] at h
                simp only [] at h
                have h4 := hb _ elseB P4 hm.ok hse
                have k4 := (k3.comp hm).comp h4.1
                have lt4 : P.pos < P4.pos :=
                  lt_of_lt_of_le lt3 (le_trans hm.mono h4.1.mono)
                split at h
                · have hh := some_pair_inj h
                  rw [← hh.2]
                  exact ⟨k4, fun _ => lt4⟩
                · have hh := some_pair_inj h
                  rw [← hh.2]
                  exact ⟨k4, fun _ => lt4⟩
            · rw [if_neg hel] at h
              have hh := some_pair_inj h
              rw [← hh.2]
              exact ⟨k3.comp hm, fun _ => lt_of_lt_of_le lt3 hm.mono⟩

theorem while_safe (toks : List Token) (hE : eof_terminated toks) (f : Nat)
    (he : parse_safe toks (parse_expression f)) (hb : parse_safe toks (parse_block f)) :
    parse_safe toks (parse_while (f + 1)) := by
  intro P n P5 hP h
  rw [parse_while] at h
  simp only [] at h
  have hc0 := consume_keeps toks hE P .T_KW_WHILE "expected 'loop'".toList hP (by decide)
  cases hk : (P_consume P .T_KW_WHILE "expected 'loop'".toList).1 with
  | none =>
    rw [hk] at h
    simp only [] at h
    have hh := some_pair_inj h
    rw [← hh.1, ← hh.2]
    exact ⟨hc0, fun hc => absurd hc (by decide)⟩
  | some kw =>
    rw [hk] at h
    simp only [] at h
    have hc1 := consume_keeps toks hE _ .T_LPAREN "expected '(' after 'loop'".toList
      hc0.ok (by decide)
    cases hsub : parse_expression f
        (P_consume (P_consume P .T_KW_WHILE "expected 'loop'".toList).2 .T_LPAREN
          "expected '(' after 'loop'".toList).2 with
    | none => rw [hsub] at h; exact absurd h (by simp)
    | some r =>
      obtain ⟨cond, P2⟩ := r
      rw [hsub] at h
      simp only [] at h
      have h1 := he _ cond P2 hc1.ok hsub
      by_cases hn : cond.isNull = true
      · rw [if_pos hn] at h
        have hh := some_pair_inj h
        rw [← hh.1, ← hh.2]
        exact ⟨(hc0.comp hc1).comp h1.1, fun hc => absurd hc (by decide)⟩
      · rw [if_neg hn] at h
        have hd := head_block_safe toks hE f he P hP .T_KW_WHILE (by decide) _ _
          "expected ')'".toList kw hk cond P2 hsub
        cases hsb : parse_block f (P_consume P2 .T_RPAREN "expected ')'".toList).2 with
        | none => rw [hsb] at h; exact absurd h (by simp)
        | some r2 =>
          obtain ⟨body, P3⟩ := r2
          rw [hsb] at h
          simp only [] at h
          have h3 := hb _ body P3 hd.1.ok hsb
          have k3 := hd.1.comp h3.1
          have lt3 : P.pos < P3.pos := lt_of_lt_of_le hd.2 h3.1.mono
          split at h
          · have hh := some_pair_inj h
            rw [← hh.2]
            exact ⟨k3, fun _ => lt3⟩
          · have hh := some_pair_inj h
            rw [← hh.2]
            exact ⟨k3, fun _ => lt3⟩

theorem statement_safe (toks : List Token) (f : Nat)
    (hpr : parse_safe toks (parse_print f)) (hin : parse_safe toks parse_input)
    (hif : parse_safe toks (parse_if f)) (hwh : parse_safe toks (parse_while f))
    (hbl : parse_safe toks (parse_block f))
    (has : parse_safe toks (parse_assignment_or_expr_stmt f)) :
    parse_safe toks (parse_statement (f + 1)) := by
  intro P n P2 hP h
  rw [parse_statement] at h
  split at h
  · exact hpr P n P2 hP h
  · exact hin P n P2 hP h
  · exact hif P n P2 hP h
  · exact hwh P n P2 hP h
  · exact hbl P n P2 hP h
  · exact has P n P2 hP h

theorem block_loop_safe (toks : List Token) (f : Nat)
    (hs : parse_safe toks (parse_statement f)) (hl : list_safe toks (parse_block_loop f)) :
    list_safe toks (parse_block_loop (f + 1)) := by
  intro acc P r P2 hP h
  rw [parse_block_loop] at h
  split at h
  · cases hsub : parse_statement f P with
    | none => rw [hsub] at h; exact absurd h (by simp)
    | some q =>
      obtain ⟨s, P1⟩ := q
      rw [hsub] at h
      simp only [] at h
      have h1 := hs P s P1 hP hsub
      by_cases hn : s.isNull = true
      · rw [if_pos hn] at h
        have hh := some_pair_inj h
        rw [← hh.2]
        exact h1.1
      · rw [if_neg hn] at h
        exact h1.1.comp (hl _ P1 r P2 h1.1.ok h)
  · have hh := some_pair_inj h
    rw [← hh.2]
    exact Keeps.here hP

theorem block_safe (toks : List Token) (hE : eof_terminated toks) (f : Nat)
    (hs : parse_safe toks (parse_statement f)) (hl : list_safe toks (parse_block_loop f)) :
    parse_safe toks (parse_block (f + 1)) := by
  intro P n P2 hP h
  rw [parse_block] at h
  simp only [] at h
  have hm := match_keeps toks hE P .T_LBRACE hP (by decide)
  by_cases hb : (P_match P .T_LBRACE).1 = true
  · rw [if_pos hb] at h
    have hadv := match_true P .T_LBRACE hb
    have hlt : P.pos < (P_match P .T_LBRACE).2.pos := by rw [hadv.2]; exact Nat.lt_succ_self _
    cases hsub : parse_block_loop f [] (P_match P .T_LBRACE).2 with
    | none => rw [hsub] at h; exact absurd h (by simp)
    | some q =>
      obtain ⟨r, P1⟩ := q
      rw [hsub] at h
      have h1 := hl [] _ r P1 hm.ok hsub
      cases r with
      | none =>
        simp only [] at h
        have hh := some_pair_inj h
        rw [← hh.1, ← hh.2]
        exact ⟨hm.comp h1, fun hc => absurd hc (by decide)⟩
      | some ss =>
        simp only [] at h
        have hc := consume_keeps toks hE P1 .T_RBRACE "expected '\x7d' to close block".toList
          h1.ok (by decide)
        have k := (hm.comp h1).comp hc
        have lt : P.pos < (P_consume P1 .T_RBRACE
            "expected '\x7d' to close block".toList).2.pos :=
          lt_of_lt_of_le hlt (le_trans h1.mono hc.mono)
        split at h
        · have hh := some_pair_inj h
          rw [← hh.2]
          exact ⟨k, fun _ => lt⟩
        · have hh := some_pair_inj h
          rw [← hh.2]
          exact ⟨k, fun _ => lt⟩
  · rw [if_neg hb] at h
    have hP2 : (P_match P .T_LBRACE).2 = P := by
      unfold P_match at hb ⊢
      split
      · rename_i hc; rw [if_pos hc] at hb; exact absurd rfl hb
      · rfl
    rw [hP2] at h
    exact hs P n P2 hP h

/-- Cursor safety of all the statement parsers, for any fuel. -/
theorem stmt_safe (toks : List Token) (hE : eof_terminated toks) :
    ∀ fuel : Nat, StmtSafe toks fuel := by
  intro fuel
  induction fuel with
  | zero =>
    exact
      { pif := parse_safe_zero toks _ (fun _ => rfl)
        pwhile := parse_safe_zero toks _ (fun _ => rfl)
        statement := parse_safe_zero toks _ (fun _ => rfl)
        block_loop := list_safe_zero toks _ (fun _ _ => rfl)
        block := parse_safe_zero toks _ (fun _ => rfl) }
  | succ f ih =>
    have he := (expr_safe toks hE f).expression
    exact
      { pif := if_safe toks hE f he ih.block
        pwhile := while_safe toks hE f he ih.block
        statement :=
          statement_safe toks f
            (print_safe toks hE f
              (print_args_safe toks hE (fun f2 => (expr_safe toks hE f2).expression) f))
            (input_safe toks hE) ih.pif ih.pwhile ih.block (assignment_safe toks hE f he)
        block_loop := block_loop_safe toks f ih.statement ih.block_loop
        block := block_safe toks hE f ih.statement ih.block_loop }

/-! ### The parser returns: the fuel of the model suffices -/

theorem returns_zero {α : Type} (toks : List Token) (c : Nat)
    (g : Parser → Option (α × Parser)) : returns toks c 0 g := by
  intro P hP hf
  have := hP.2.1
  omega

theorem level_total (toks : List Token) (f cs cl c : Nat) (hcs : cs + 1 ≤ c) (hcl : cl + 1 ≤ c)
    (sub : Parser → PRes) (loop : Node → Parser → PRes) (g : Parser → PRes)
    (hsafe : parse_safe toks sub) (hs : returns toks cs f sub)
    (hl : ∀ left, returns toks cl f (loop left))
    (hg : ∀ P, g P = match sub P with
      | none => none
      | some (left, P1) => if left.isNull then some (.null, P1) else loop left P1) :
    returns toks c (f + 1) g := by
  intro P hP hf
  rw [hg]
  cases hsub : sub P with
  | none => exact absurd hsub (hs P hP (by omega))
  | some r =>
    obtain ⟨left, P1⟩ := r
    simp only []
    have h1 := hsafe P left P1 hP hsub
    by_cases hn : left.isNull = true
    · rw [if_pos hn]; simp
    · rw [if_neg hn]
      exact hl left P1 h1.1.ok (by have := h1.1.mono; omega)

theorem binloop_total (toks : List Token) (hE : eof_terminated toks) (f cs : Nat)
    (hcs : cs ≤ 16) (sub : Parser → PRes)
    (loop g : Node → Parser → PRes) (cond : Token → Prop) [DecidablePred cond]
    (mk : Token → Node → Node → Node) (hcond : ∀ tk, cond tk → tk.type ≠ .T_EOF)
    (hsafe : parse_safe toks sub) (hs : returns toks cs f sub)
    (hl : ∀ left, returns toks 1 f (loop left))
    (hg : ∀ left P, g left P =
      if cond (P_peek P) then
        match sub (P_advance P) with
        | none => none
        | some (right, P1) =>
          if right.isNull then some (.null, P1) else loop (mk (P_peek P) left right) P1
      else some (left, P)) :
    ∀ left, returns toks 1 (f + 1) (g left) := by
  intro left P hP hf
  rw [hg]
  by_cases hc : cond (P_peek P)
  · rw [if_pos hc]
    have ha := advance_keeps toks hE P hP (hcond _ hc)
    have hpos : (P_advance P).pos = P.pos + 1 := rfl
    have hlt := ha.ok.2.1
    cases hsub : sub (P_advance P) with
    | none => exact absurd hsub (hs _ ha.ok (by omega))
    | some r =>
      obtain ⟨right, P1⟩ := r
      simp only []
      have h1 := hsafe _ right P1 ha.ok hsub
      by_cases hn : right.isNull = true
      · rw [if_pos hn]; simp
      · rw [if_neg hn]
        exact hl _ P1 h1.1.ok (by have := h1.1.mono; omega)
  · rw [if_neg hc]; simp

theorem primary_total (toks : List Token) (hE : eof_terminated toks) (f : Nat)
    (he : returns toks 9 f (parse_expression f)) :
    returns toks 1 (f + 1) (parse_primary (f + 1)) := by
  intro P hP hf
  rw [parse_primary]
  simp only []
  by_cases h1 : (P_peek P).type = .T_NUMBER
  · rw [if_pos h1]; simp
  rw [if_neg h1]
  by_cases h2 : (P_peek P).type = .T_STRING
  · rw [if_pos h2]; simp
  rw [if_neg h2]
  by_cases h3 : (P_peek P).type = .T_IDENTIFIER
  · rw [if_pos h3]; simp
  rw [if_neg h3]
  by_cases h4 : (P_match P .T_LPAREN).1 = true
  · rw [if_pos h4]
    have hm := match_true P _ h4
    have ha : Keeps toks P (P_match P .T_LPAREN).2 := match_keeps toks hE P _ hP (by decide)
    have hpos : (P_match P .T_LPAREN).2.pos = P.pos + 1 := by rw [hm.2]; rfl
    have hlt := ha.ok.2.1
    cases hsub : parse_expression f (P_match P .T_LPAREN).2 with
    | none => exact absurd hsub (he _ ha.ok (by omega))
    | some r =>
      obtain ⟨e, P1⟩ := r
      simp only []
      split
      · simp
      · split <;> simp
  · rw [if_neg h4]; simp

theorem unary_total (toks : List Token) (hE : eof_terminated toks) (f : Nat)
    (hu : returns toks 2 f (parse_unary f)) (hp : returns toks 1 f (parse_primary f)) :
    returns toks 2 (f + 1) (parse_unary (f + 1)) := by
  intro P hP hf
  rw [parse_unary]
  simp only []
  by_cases hc : (P_peek P).type = .T_NOT ∨ (P_peek P).type = .T_MINUS ∨ (P_peek P).type = .T_PLUS
  · rw [if_pos hc]
    have hne : (P_peek P).type ≠ .T_EOF := by
      rcases hc with hc | hc | hc <;> rw [hc] <;> decide
    have ha := advance_keeps toks hE P hP hne
    have hpos : (P_advance P).pos = P.pos + 1 := rfl
    have hlt := ha.ok.2.1
    cases hsub : parse_unary f (P_advance P) with
    | none => exact absurd hsub (hu _ ha.ok (by omega))
    | some r =>
      obtain ⟨rhs, P1⟩ := r
      simp only []
      split <;> simp
  · rw [if_neg hc]
    exact hp P hP (by omega)

theorem rel_loop_total (toks : List Token) (hE : eof_terminated toks) (f : Nat)
    (hsafe : parse_safe toks (parse_add f)) (hs : returns toks 4 f (parse_add f))
    (hl : ∀ left, returns toks 1 f (parse_rel_loop f left)) :
    ∀ left, returns toks 1 (f + 1) (parse_rel_loop (f + 1) left) := by
  intro left P hP hf
  rw [parse_rel_loop]
  try simp only []
  split
  · simp
  · rename_i op hsel
    have hne : (P_peek P).type ≠ .T_EOF := by
      intro hc
      rw [hc] at hsel
      exact absurd hsel (by simp)
    have ha := advance_keeps toks hE P hP hne
    have hpos : (P_advance P).pos = P.pos + 1 := rfl
    have hlt := ha.ok.2.1
    cases hsub : parse_add f (P_advance P) with
    | none => exact absurd hsub (hs _ ha.ok (by omega))
    | some r =>
      obtain ⟨right, P1⟩ := r
      simp only []
      have h1 := hsafe _ right P1 ha.ok hsub
      by_cases hn : right.isNull = true
      · rw [if_pos hn]; simp
      · rw [if_neg hn]
        exact hl _ P1 h1.1.ok (by have := h1.1.mono; omega)

/-- Every expression parser returns when its fuel exceeds 16 times the
number of tokens left by a small constant. -/
theorem expr_total (toks : List Token) (hE : eof_terminated toks) :
    ∀ fuel : Nat, ExprTotal toks fuel := by
  intro fuel
  induction fuel with
  | zero =>
    exact
      { primary := returns_zero toks _ _
        unary := returns_zero toks _ _
        mul_loop := fun _ => returns_zero toks _ _
        mul := returns_zero toks _ _
        add_loop := fun _ => returns_zero toks _ _
        add := returns_zero toks _ _
        rel_loop := fun _ => returns_zero toks _ _
        rel := returns_zero toks _ _
        eq_loop := fun _ => returns_zero toks _ _
        eq := returns_zero toks _ _
        and_loop := fun _ => returns_zero toks _ _
        and := returns_zero toks _ _
        or_loop := fun _ => returns_zero toks _ _
        or := returns_zero toks _ _
        expression := returns_zero toks _ _ }
  | succ f ih =>
    have hs := expr_safe toks hE f
    exact
      { primary := primary_total toks hE f ih.expression
        unary := unary_total toks hE f ih.unary ih.primary
        mul_loop :=
          binloop_total toks hE f 2 (by decide) (parse_unary f) (parse_mul_loop f) _
            (fun tk => tk.type = .T_STAR ∨ tk.type = .T_SLASH)
            (fun tk left right =>
              make_binary (if tk.type = .T_STAR then .OP_MUL else .OP_DIV) left right
                tk.line tk.col)
            (fun tk hc => by rcases hc with hc | hc <;> rw [hc] <;> decide)
            hs.unary ih.unary ih.mul_loop (fun left P => by rw [parse_mul_loop])
        mul := level_total toks f 2 1 3 (by decide) (by decide) _ _ _ hs.unary ih.unary
          ih.mul_loop (fun P => by rw [parse_mul])
        add_loop :=
          binloop_total toks hE f 3 (by decide) (parse_mul f) (parse_add_loop f) _
            (fun tk => tk.type = .T_PLUS ∨ tk.type = .T_MINUS)
            (fun tk left right =>
              make_binary (if tk.type = .T_PLUS then .OP_PLUS else .OP_MINUS) left right
                tk.line tk.col)
            (fun tk hc => by rcases hc with hc | hc <;> rw [hc] <;> decide)
            hs.mul ih.mul ih.add_loop (fun left P => by rw [parse_add_loop])
        add := level_total toks f 3 1 4 (by decide) (by decide) _ _ _ hs.mul ih.mul
          ih.add_loop (fun P => by rw [parse_add])
        rel_loop := rel_loop_total toks hE f hs.add ih.add ih.rel_loop
        rel := level_total toks f 4 1 5 (by decide) (by decide) _ _ _ hs.add ih.add
          ih.rel_loop (fun P => by rw [parse_rel])
        eq_loop :=
          binloop_total toks hE f 5 (by decide) (parse_rel f) (parse_eq_loop f) _
            (fun tk => tk.type = .T_EQ ∨ tk.type = .T_NE)
            (fun tk left right =>
              make_binary (if tk.type = .T_EQ then .OP_EQ else .OP_NE) left right
                tk.line tk.col)
            (fun tk hc => by rcases hc with hc | hc <;> rw [hc] <;> decide)
            hs.rel ih.rel ih.eq_loop (fun left P => by rw [parse_eq_loop])
        eq := level_total toks f 5 1 6 (by decide) (by decide) _ _ _ hs.rel ih.rel
          ih.eq_loop (fun P => by rw [parse_eq])
        and_loop :=
          binloop_total toks hE f 6 (by decide) (parse_eq f) (parse_and_loop f) _
            (fun tk => tk.type = .T_AND)
            (fun tk left right => make_binary .OP_AND left right tk.line tk.col)
            (fun tk hc => by rw [hc]; decide)
            hs.eq ih.eq ih.and_loop (fun left P => by rw [parse_and_loop])
        and := level_total toks f 6 1 7 (by decide) (by decide) _ _ _ hs.eq ih.eq
          ih.and_loop (fun P => by rw [parse_and])
        or_loop :=
          binloop_total toks hE f 7 (by decide) (parse_and f) (parse_or_loop f) _
            (fun tk => tk.type = .T_OR)
            (fun tk left right => make_binary .OP_OR left right tk.line tk.col)
            (fun tk hc => by rw [hc]; decide)
            hs.and ih.and ih.or_loop (fun left P => by rw [parse_or_loop])
        or := level_total toks f 7 1 8 (by decide) (by decide) _ _ _ hs.and ih.and
          ih.or_loop (fun P => by rw [parse_or])
        expression := fun P hP hf => by
          rw [parse_expression]
          exact ih.or P hP (by omega) }

theorem assignment_total (toks : List Token) (hE : eof_terminated toks) (fuel : Nat)
    (he : returns toks 9 fuel (parse_expression fuel)) :
    returns toks 9 fuel (parse_assignment_or_expr_stmt fuel) := by
  intro P hP hf
  unfold parse_assignment_or_expr_stmt
  simp only []
  have tail : ∀ Q : Parser, Keeps toks P Q →
      (match parse_expression fuel Q with
        | none => none
        | some (e, P1) =>
          if e.isNull then some (.null, P1)
          else some (e, (P_consume P1 .T_SEMI "expected';' after expression".toList).2))
        ≠ none := by
    intro Q hQ
    cases hsub : parse_expression fuel Q with
    | none => exact absurd hsub (he Q hQ.ok (by have := hQ.mono; omega))
    | some r =>
      obtain ⟨e, P1⟩ := r
      simp only []
      split <;> simp
  by_cases hid : (P_peek P).type = .T_IDENTIFIER
  · rw [if_pos hid]
    have hL := lookahead_keeps toks hE P hP hid
    by_cases hla : (lookahead_assign P).1 = true
    · rw [if_pos hla]
      have hc1 := consume_keeps toks hE (lookahead_assign P).2 .T_IDENTIFIER
        "expected indentifier".toList hL.ok (by decide)
      have hc2 := consume_keeps toks hE _ .T_ASSIGN "expected '='".toList hc1.ok (by decide)
      have hk := (hL.comp hc1).comp hc2
      have hex := he _ hk.ok (by have := hk.mono; omega)
      cases hid1 : (P_consume (lookahead_assign P).2 .T_IDENTIFIER
          "expected indentifier".toList).1 with
      | none => simp
      | some id =>
        simp only []
        cases hsub : parse_expression fuel
            (P_consume (P_consume (lookahead_assign P).2 .T_IDENTIFIER
              "expected indentifier".toList).2 .T_ASSIGN "expected '='".toList).2 with
        | none => exact absurd hsub hex
        | some r =>
          obtain ⟨expr, P3⟩ := r
          simp only []
          split <;> simp
    · rw [if_neg hla]
      exact tail _ hL
  · rw [if_neg hid]
    simp only [Bool.false_eq_true, if_false]
    exact tail P (Keeps.here hP)

theorem print_args_total (toks : List Token) (hE : eof_terminated toks)
    (hsafe : ∀ f, parse_safe toks (parse_expression f))
    (he : ∀ f, returns toks 9 f (parse_expression f)) :
    ∀ (fuel : Nat) (acc : List Node), returns toks 10 fuel (parse_print_args fuel acc) := by
  intro fuel
  induction fuel with
  | zero => intro acc; exact returns_zero toks _ _
  | succ f ih =>
    intro acc P hP hf
    rw [parse_print_args]
    cases hsub : parse_expression f P with
    | none => exact absurd hsub (he f P hP (by omega))
    | some q =>
      obtain ⟨e, P1⟩ := q
      simp only []
      have h1 := hsafe f P e P1 hP hsub
      by_cases hn : e.isNull = true
      · rw [if_pos hn]; simp
      · rw [if_neg hn]
        have hm := match_keeps toks hE P1 .T_COMMA h1.1.ok (by decide)
        by_cases hc : (P_match P1 .T_COMMA).1 = true
        · rw [if_pos hc]
          have hadv := match_true P1 .T_COMMA hc
          have hpos : (P_match P1 .T_COMMA).2.pos = P1.pos + 1 := by rw [hadv.2]; rfl
          exact ih _ _ hm.ok (by have := h1.1.mono; have := hm.ok.2.1; omega)
        · rw [if_neg hc]; simp

theorem print_total (toks : List Token) (hE : eof_terminated toks) (fuel : Nat)
    (ha : ∀ acc, returns toks 10 fuel (parse_print_args fuel acc)) :
    returns toks 10 fuel (parse_print fuel) := by
  intro P hP hf
  unfold parse_print
  simp only []
  have hc0 := consume_keeps toks hE P .T_KW_PRINT "expected 'output'".toList hP (by decide)
  have hc1 := consume_keeps toks hE _ .T_LPAREN "expected'(' after 'output'".toList
    hc0.ok (by decide)
  have hk := hc0.comp hc1
  have hargs := ha [] _ hk.ok (by have := hk.mono; omega)
  cases hk0 : (P_consume P .T_KW_PRINT "expected 'output'".toList).1 with
  | none => simp
  | some kw =>
    simp only []
    split
    · rename_i heq
      split at heq
      · exact absurd heq hargs
      · exact absurd heq (by simp)
    · simp
    · simp

theorem input_total (P : Parser) : parse_input P ≠ none := by
  unfold parse_input
  simp only []
  split
  · simp
  · split <;> simp

theorem if_total (toks : List Token) (hE : eof_terminated toks) (f : Nat)
    (hse : parse_safe toks (parse_expression f)) (hsb : parse_safe toks (parse_block f))
    (he : returns toks 9 f (parse_expression f)) (hb : returns toks 12 f (parse_block f)) :
    returns toks 10 (f + 1) (parse_if (f + 1)) := by
  intro P hP hf
  rw [parse_if]
  simp only []
  have hc0 := consume_keeps toks hE P .T_KW_IF "expected 'if'".toList hP (by decide)
  have hc1 := consume_keeps toks hE _ .T_LPAREN "expected after '(' após 'if'".toList
    hc0.ok (by decide)
  cases hk : (P_consume P .T_KW_IF "expected 'if'".toList).1 with
  | none => simp
  | some kw =>
    simp only []
    cases hsub : parse_expression f
        (P_consume (P_consume P .T_KW_IF "expected 'if'".toList).2 .T_LPAREN
          "expected after '(' após 'if'".toList).2 with
    | none =>
      exact absurd hsub (he _ hc1.ok (by have := (hc0.comp hc1).mono; omega))
    | some r =>
      obtain ⟨cond, P2⟩ := r
      simp only []
      by_cases hn : cond.isNull = true
      · rw [if_pos hn]; simp
      · rw [if_neg hn]
        have hd := head_block_safe toks hE f hse P hP .T_KW_IF (by decide) _ _
          "expected ')'".toList kw hk cond P2 hsub
        cases hb1 : parse_block f (P_consume P2 .T_RPAREN "expected ')'".toList).2 with
        | none => exact absurd hb1 (hb _ hd.1.ok (by have := hd.2; have := hd.1.ok.2.1; omega))
        | some r2 =>
          obtain ⟨thenB, P3⟩ := r2
          simp only []
          have h3 := hsb _ thenB P3 hd.1.ok hb1
          by_cases hn3 : thenB.isNull = true
          · rw [if_pos hn3]; simp
          · rw [if_neg hn3]
            have hm := match_keeps toks hE P3 .T_KW_ELSE h3.1.ok (by decide)
            by_cases hel : (P_match P3 .T_KW_ELSE).1 = true
            · rw [if_pos hel]
              cases hb2 : parse_block f (P_match P3 .T_KW_ELSE).2 with
              | none =>
                exact absurd hb2 (hb _ hm.ok
                  (by have := hd.2; have := h3.1.mono; have := hm.mono; have := hm.ok.2.1; omega))
              | some r4 =>
                obtain ⟨elseB, P4⟩ := r4
                simp only []
                split <;> simp
            · rw [if_neg hel]; simp

theorem while_total (toks : List Token) (hE : eof_terminated toks) (f : Nat)
    (hse : parse_safe toks (parse_expression f))
    (he : returns toks 9 f (parse_expression f)) (hb : returns toks 12 f (parse_block f)) :
    returns toks 10 (f + 1) (parse_while (f + 1)) := by
  intro P hP hf
  rw [parse_while]
  simp only []
  have hc0 := consume_keeps toks hE P .T_KW_WHILE "expected 'loop'".toList hP (by decide)
  have hc1 := consume_keeps toks hE _ .T_LPAREN "expected '(' after 'loop'".toList
    hc0.ok (by decide)
  cases hk : (P_consume P .T_KW_WHILE "expected 'loop'".toList).1 with
  | none => simp
  | some kw =>
    simp only []
    cases hsub : parse_expression f
        (P_consume (P_consume P .T_KW_WHILE "expected 'loop'".toList).2 .T_LPAREN
          "expected '(' after 'loop'".toList).2 with
    | none =>
      exact absurd hsub (he _ hc1.ok (by have := (hc0.comp hc1).mono; omega))
    | some r =>
      obtain ⟨cond, P2⟩ := r
      simp only []
      by_cases hn : cond.isNull = true
      · rw [if_pos hn]; simp
      · rw [if_neg hn]
        have hd := head_block_safe toks hE f hse P hP .T_KW_WHILE (by decide) _ _
          "expected ')'".toList kw hk cond P2 hsub
        cases hb1 : parse_block f (P_consume P2 .T_RPAREN "expected ')'".toList).2 with
        | none => exact absurd hb1 (hb _ hd.1.ok (by have := hd.2; have := hd.1.ok.2.1; omega))
        | some r2 =>
          obtain ⟨body, P3⟩ := r2
          simp only []
          split <;> simp

theorem statement_total (toks : List Token) (f : Nat)
    (hpr : returns toks 10 f (parse_print f))
    (hif : returns toks 10 f (parse_if f)) (hwh : returns toks 10 f (parse_while f))
    (hbl : ∀ P : Parser, cursor_ok toks P → (P_peek P).type = .T_LBRACE →
      16 * (toks.length - P.pos - 1) + 13 ≤ f → parse_block f P ≠ none)
    (has : returns toks 9 f (parse_assignment_or_expr_stmt f)) :
    returns toks 11 (f + 1) (parse_statement (f + 1)) := by
  intro P hP hf
  have := hP.2.1
  rw [parse_statement]
  split
  · exact hpr P hP (by omega)
  · exact input_total P
  · exact hif P hP (by omega)
  · exact hwh P hP (by omega)
  · rename_i hty
    exact hbl P hP hty (by omega)
  · exact has P hP (by omega)

theorem block_loop_total (toks : List Token) (f : Nat)
    (hss : parse_safe toks (parse_statement f))
    (hs : returns toks 11 f (parse_statement f))
    (hl : ∀ acc, returns toks 12 f (parse_block_loop f acc)) :
    ∀ acc, returns toks 12 (f + 1) (parse_block_loop (f + 1) acc) := by
  intro acc P hP hf
  rw [parse_block_loop]
  split
  · cases hsub : parse_statement f P with
    | none => exact absurd hsub (hs P hP (by omega))
    | some q =>
      obtain ⟨s, P1⟩ := q
      simp only []
      have h1 := hss P s P1 hP hsub
      by_cases hn : s.isNull = true
      · rw [if_pos hn]; simp
      · rw [if_neg hn]
        exact hl _ P1 h1.1.ok (by have := h1.2 (by simpa using hn); have := h1.1.ok.2.1; omega)
  · simp

theorem block_total_at_brace (toks : List Token) (hE : eof_terminated toks) (f : Nat)
    (hl : ∀ acc, returns toks 12 f (parse_block_loop f acc)) (P : Parser)
    (hP : cursor_ok toks P) (hty : (P_peek P).type = .T_LBRACE)
    (hf : 16 * (toks.length - P.pos - 1) + 13 ≤ f + 1) : parse_block (f + 1) P ≠ none := by
  rw [parse_block]
  simp only []
  have hm := match_keeps toks hE P .T_LBRACE hP (by decide)
  have hb : (P_match P .T_LBRACE).1 = true := by
    unfold P_match
    rw [if_pos hty]
  have hadv := match_true P .T_LBRACE hb
  have hpos : (P_match P .T_LBRACE).2.pos = P.pos + 1 := by rw [hadv.2]; rfl
  rw [if_pos hb]
  cases hsub : parse_block_loop f [] (P_match P .T_LBRACE).2 with
  | none => exact absurd hsub (hl [] _ hm.ok (by omega))
  | some q =>
    obtain ⟨r, P1⟩ := q
    cases r with
    | none => simp
    | some ss =>
      simp only []
      split <;> simp

theorem block_total (toks : List Token) (hE : eof_terminated toks) (f : Nat)
    (hs : returns toks 11 f (parse_statement f))
    (hl : ∀ acc, returns toks 12 f (parse_block_loop f acc)) :
    returns toks 12 (f + 1) (parse_block (f + 1)) := by
  intro P hP hf
  by_cases hty : (P_peek P).type = .T_LBRACE
  · exact block_total_at_brace toks hE f hl P hP hty (by have := hP.2.1; omega)
  · rw [parse_block]
    simp only []
    have hb : ¬ (P_match P .T_LBRACE).1 = true := by
      unfold P_match
      rw [if_neg hty]
      simp
    have hP2 : (P_match P .T_LBRACE).2 = P := by
      unfold P_match
      rw [if_neg hty]
    rw [if_neg hb, hP2]
    exact hs P hP (by omega)

/-- Every statement parser returns when its fuel exceeds 16 times the number
of tokens left by a small constant. -/
theorem stmt_total (toks : List Token) (hE : eof_terminated toks) :
    ∀ fuel : Nat, StmtTotal toks fuel := by
  intro fuel
  induction fuel with
  | zero =>
    exact
      { pif := returns_zero toks _ _
        pwhile := returns_zero toks _ _
        statement := returns_zero toks _ _
        block_loop := fun _ => returns_zero toks _ _
        block := returns_zero toks _ _
        block_at_brace := fun P hP _ hf => by have := hP.2.1; omega }
  | succ f ih =>
    have hse := (expr_safe toks hE f).expression
    have he := (expr_total toks hE f).expression
    have hss := stmt_safe toks hE f
    exact
      { pif := if_total toks hE f hse hss.block he ih.block
        pwhile := while_total toks hE f hse he ih.block
        statement :=
          statement_total toks f
            (print_total toks hE f
              (print_args_total toks hE (fun f2 => (expr_safe toks hE f2).expression)
                (fun f2 => (expr_total toks hE f2).expression) f))
            ih.pif ih.pwhile ih.block_at_brace (assignment_total toks hE f he)
        block_loop := block_loop_total toks f hss.statement ih.statement ih.block_loop
        block := block_total toks hE f ih.statement ih.block_loop
        block_at_brace := fun P hP hty hf =>
          block_total_at_brace toks hE f ih.block_loop P hP hty hf }

/-- C24: let `toks` be a token vector that is not empty and ends with the
end-of-input token, and let the cursor of `P` be on one of its tokens
(`0 <= pos <= count - 1`, as after `parser_init`) with no out-of-range
lookahead so far.  (1) Every result of `parse_statement` is reached with the
cursor still on a token, `pos <= count - 1`, never moved backwards, and with
no lookahead read at an index that is not below `count`.  (2) The same holds
for every parse function called on the way, whatever the fuel of the model.
(3) The lookahead `toks[pos + 1]` is read only when the current token is an
identifier, and then `pos + 1 < count`.  (4) `parse_statement` returns: a
fuel of 16 times the number of tokens left plus 11 is never exhausted. -/
theorem C24_cursor_safety (toks : List Token) (hE : eof_terminated toks) (P : Parser)
    (hP : cursor_ok toks P) :
    (∀ (fuel : Nat) (n : Node) (P1 : Parser), parse_statement fuel P = some (n, P1) →
      P1.toks = toks ∧ P.pos ≤ P1.pos ∧ P1.pos ≤ P1.count - 1 ∧ P1.oob = false) ∧
    (∀ fuel : Nat, ExprSafe toks fuel ∧ StmtSafe toks fuel ∧
      parse_safe toks (parse_assignment_or_expr_stmt fuel) ∧
      parse_safe toks (parse_print fuel) ∧ parse_safe toks parse_input) ∧
    ((P_peek P).type = .T_IDENTIFIER →
      P.pos + 1 < P.count ∧ (lookahead_assign P).2.oob = false) ∧
    (∀ fuel : Nat, 16 * (toks.length - P.pos) + 11 ≤ fuel →
      ∃ (n : Node) (P1 : Parser), parse_statement fuel P = some (n, P1)) := by
  refine ⟨?_, ?_, ?_, ?_⟩
  · intro fuel n P1 h
    have k := ((stmt_safe toks hE fuel).statement P n P1 hP h).1
    refine ⟨k.ok.1, k.mono, ?_, k.ok.2.2⟩
    have := k.ok.2.1
    unfold Parser.count
    rw [k.ok.1]
    omega
  · intro fuel
    have he := expr_safe toks hE fuel
    exact ⟨he, stmt_safe toks hE fuel, assignment_safe toks hE fuel he.expression,
      print_safe toks hE fuel
        (print_args_safe toks hE (fun f2 => (expr_safe toks hE f2).expression) fuel),
      input_safe toks hE⟩
  · intro hid
    have hlt := not_last_of_ne_eof toks hE P hP (by rw [hid]; decide)
    refine ⟨?_, (lookahead_keeps toks hE P hP hid).ok.2.2⟩
    unfold Parser.count
    rw [hP.1]
    exact hlt
  · intro fuel hf
    have h := (stmt_total toks hE fuel).statement P hP hf
    cases hr : parse_statement fuel P with
    | none => exact absurd hr h
    | some r => exact ⟨r.1, r.2, rfl⟩

/-- C24 on the tokens of the source text `x = 1;`: the statement is parsed
with the cursor left on the end-of-input token (index 4 of 5) and the
lookahead in range. -/
theorem C24_cursor_safety_witness :
    eof_terminated (lex_all "x = 1;".toList g_error_init).out ∧
    cursor_ok (lex_all "x = 1;".toList g_error_init).out
      (parser_init (lex_all "x = 1;".toList g_error_init).out g_error_init) ∧
    parse_statement 91 (parser_init (lex_all "x = 1;".toList g_error_init).out g_error_init)
      = some (((node_new .N_ASSIGN 1 1).set_value "x".toList).set_left (int_lit "1".toList 1 5),
          ⟨(lex_all "x = 1;".toList g_error_init).out, 4, g_error_init, false⟩) ∧
    (4 : Nat) ≤ (lex_all "x = 1;".toList g_error_init).out.length - 1 :=
  ⟨⟨by decide, by decide⟩, ⟨rfl, by decide, rfl⟩, by decide,
   ((C24_cursor_safety (lex_all "x = 1;".toList g_error_init).out ⟨by decide, by decide⟩
      (parser_init (lex_all "x = 1;".toList g_error_init).out g_error_init)
      ⟨rfl, by decide, rfl⟩).1 91
      (((node_new .N_ASSIGN 1 1).set_value "x".toList).set_left (int_lit "1".toList 1 5))
      ⟨(lex_all "x = 1;".toList g_error_init).out, 4, g_error_init, false⟩
      (by decide)).2.2.1⟩

end Sun
